import Mathlib

/-!
Shallow embedding of the game-session engine of the horse-race board game
found in `src/src/App.tsx` (the richest of the game-logic variants in the
repository; the other variants live in `src/unnamed/part_001`).

Conventions of the embedding:
* Money (`balance`, `pot`, penalties, the listing price) is modelled as `ℚ`,
  since the race payout divides the pot by the number of winning cards with
  real-valued division.
* All sources of randomness of the source (dice, the Fisher-Yates shuffle,
  the AI market decisions) are passed in explicitly as oracle arguments, so
  every reachable behaviour of the source corresponds to some choice of
  oracles and vice versa.
* React state hooks become fields of `GameState`; each event handler becomes
  a function `GameState → args → GameState`.  Timer-driven callbacks (the
  roll animation unlock, the market open/close, the AI purchase tick, the
  advance to the next race) become events of the inductive type `GameEvent`.
* Purely presentational state (dice rotations, confetti, modal visibility,
  the countdown display, the log, the persisted player statistics) is not
  modelled; no game rule reads it.
* Three ghost fields (`dealtCards`, `forfeited`, `discarded`) record the
  cards dealt this race, the cards removed by scratch forfeits and the
  cards dropped when a player is eliminated.  They are write-only logs,
  mirroring the source's `addLog` observer; no handler branches on them.
-/

set_option maxRecDepth 20000

namespace HorseRace


/-- Playing card: one of the 11 values 2..12 in one of 4 suits (encoded 0..3
for the four suit symbols of the source).  The `label` field of the source is
a fixed display string determined by `value` and is omitted as presentation. -/
structure Card where
  value : Nat
  suit : Nat
deriving DecidableEq, Repr

/-- Player record of the source (`interface Player`). -/
structure Player where
  id : Nat
  name : String
  balance : ℚ
  cards : List Card
  eliminated : Bool
deriving DecidableEq, Repr

/-- Horse record (`types.ts`): lane number, peg position, scratch state. -/
structure Horse where
  number : Nat
  position : Nat
  scratched : Bool
  scratchStep : Option Nat
deriving DecidableEq, Repr

/-- Market listing (`type TradeListing`); listing ids are modelled by the
counter value used to mint the id string of the source. -/
structure TradeListing where
  id : Nat
  card : Card
  sellerId : Nat
deriving DecidableEq, Repr

/-- One payout line of a race summary. -/
structure PayoutEntry where
  playerId : Nat
  name : String
  amount : ℚ
  cards : Nat
deriving DecidableEq, Repr

/-- Race summary (`type RaceSummary`). -/
structure RaceSummary where
  winner : Nat
  pot : ℚ
  carryover : Bool
  payouts : List PayoutEntry
deriving DecidableEq, Repr

/-- Final standing entry (`type FinalStanding`). -/
structure FinalStanding where
  playerId : Nat
  name : String
  balance : ℚ
  rank : Nat
deriving DecidableEq, Repr

/-- Game phase (`type GamePhase`); `nullPhase` is the source's `null`. -/
inductive GamePhase where
  | nullPhase
  | scratch
  | trade
  | race
  | finished
deriving DecidableEq, Repr

/-- Session mode: half day (4 races) or full day (8 races). -/
inductive Mode where
  | half
  | full
deriving DecidableEq, Repr

/-- Current dice roll display state. -/
structure DiceRoll where
  die1 : Nat
  die2 : Nat
  total : Nat
deriving DecidableEq, Repr

/-- The session state: one field per modelled `useState` hook of `App.tsx`,
plus `listingCounter` (a ref of the source) and the three ghost logs. -/
structure GameState where
  players : List Player
  gameStarted : Bool
  gameMode : Option Mode
  currentRace : Nat
  horses : List Horse
  phase : GamePhase
  currentPlayerIndex : Nat
  diceRoll : Option DiceRoll
  pendingSummary : Option RaceSummary
  finalStandings : List FinalStanding
  bailoutUsedByPlayer : List Nat
  tradeListings : List TradeListing
  tradeBuyCounts : List (Nat × Nat)
  tradeSellCounts : List (Nat × Nat)
  isRolling : Bool
  pot : ℚ
  scratchHistory : List Nat
  winner : Option Nat
  listingCounter : Nat
  dealtCards : List Card
  forfeited : List Card
  discarded : List Card
deriving DecidableEq, Repr

/-- The 11 lane numbers 2..12. -/
def laneNumbers : List Nat := (List.range 11).map (· + 2)

/-- Fixed peg-hole count per lane (`pegDistribution`), symmetric around 7.
The source record has no entry outside 2..12; such a lookup is never reached
(the dice total that selects a horse must match one of the 11 horses), and is
modelled as 0. -/
def pegDistribution : Nat → Nat
  | 2 => 2
  | 3 => 3
  | 4 => 4
  | 5 => 5
  | 6 => 6
  | 7 => 7
  | 8 => 6
  | 9 => 5
  | 10 => 4
  | 11 => 3
  | 12 => 2
  | _ => 0

/-- Penalty table by scratch step (`scratchPenaltyByStep`): the record has
entries exactly for steps 1..4, mirrored by `Option`. -/
def scratchPenaltyByStep : Nat → Option Nat
  | 1 => some 5
  | 2 => some 10
  | 3 => some 15
  | 4 => some 20
  | _ => none

/-- Fixed market price of every listing (`LISTING_PRICE = 30`). -/
def LISTING_PRICE : ℚ := 30

/-- Per-player per-race market cap (`MAX_TRADES_PER_PLAYER = 2`). -/
def MAX_TRADES_PER_PLAYER : Nat := 2

/-- Names of the six players (`PLAYER_NAMES`). -/
def PLAYER_NAMES : List String :=
  ["You", "Lucky Lou", "Neigh Sayer", "Slim Jim", "Diane Diamond", "Longshot Liz"]

/-- The fixed 44-card deck in canonical order (`createDeck`): for each lane
number in order, the four suits in order. -/
def createDeck : List Card :=
  laneNumbers.flatMap fun lane => (List.range 4).map fun s => { value := lane, suit := s }

/-- Swap the entries at positions `i` and `j` of a list (the body of one
Fisher-Yates iteration). -/
def swapCards (l : List Card) (i j : Nat) : List Card :=
  match l[i]?, l[j]? with
  | some a, some b => (l.set i b).set j a
  | _, _ => l

/-- Fisher-Yates loop of `shuffleDeck`, iterating `i` downwards to 1.  The
random draw `Math.floor(Math.random() * (i + 1))` (a uniform value in
`[0, i]`) is supplied by the oracle `js`, reduced into range by `% (i+1)`. -/
def shuffleGo (js : Nat → Nat) : List Card → Nat → List Card
  | l, 0 => l
  | l, i + 1 => shuffleGo js (swapCards l (i + 1) (js (i + 1) % (i + 2))) i

/-- Shuffle (`shuffleDeck`), with the random choices supplied by `js`. -/
def shuffleDeck (deck : List Card) (js : Nat → Nat) : List Card :=
  shuffleGo js deck (deck.length - 1)

/-- Loop of `dealHands`: push card at deck position `idx` onto hand
`idx % playerCount`. -/
def dealGo (playerCount : Nat) : Nat → List Card → List (List Card) → List (List Card)
  | _, [], hands => hands
  | idx, c :: rest, hands =>
      dealGo playerCount (idx + 1) rest
        (hands.set (idx % playerCount) (hands.getD (idx % playerCount) [] ++ [c]))

/-- Deal (`dealHands`): round-robin partition of the deck across
`playerCount` hands. -/
def dealHands (deck : List Card) (playerCount : Nat) : List (List Card) :=
  dealGo playerCount 0 deck (List.replicate playerCount [])

/-- Fresh horses for a race (`initialiseHorses`). -/
def initialiseHorses : List Horse :=
  laneNumbers.map fun lane =>
    { number := lane, position := 0, scratched := false, scratchStep := none }

/-- Number of races of the day (`totalRaces`): 4 in half mode, 8 in full. -/
def totalRaces (s : GameState) : Nat :=
  match s.gameMode with
  | none => 0
  | some Mode.half => 4
  | some Mode.full => 8

/-- Lookup in an association list modelling a `Record<number, number>` with
a `?? 0` default. -/
def lookupCount (m : List (Nat × Nat)) (id : Nat) : Nat :=
  match m.find? (fun e => e.1 = id) with
  | some e => e.2
  | none => 0

/-- Record update `{ ...prev, [id]: v }`. -/
def setCount (m : List (Nat × Nat)) (id : Nat) (v : Nat) : List (Nat × Nat) :=
  (id, v) :: m.filter (fun e => e.1 ≠ id)

/-- Bailout amount (`gameMode === "full" ? 200 : 100`). -/
def bailoutAmount : Mode → ℚ
  | Mode.full => 200
  | Mode.half => 100

/-- Whether a player receives the bailout credit in this resolution pass:
not eliminated, non-positive balance, bailout not yet used this day. -/
def bailoutCredited (used : List Nat) (p : Player) : Bool :=
  !p.eliminated && decide (p.balance ≤ 0) && !(used.contains p.id)

/-- Per-player body of the `applyBailoutIfNeeded` map. -/
def bailoutPlayer (amount : ℚ) (used : List Nat) (p : Player) : Player :=
  if p.eliminated then { p with balance := 0, cards := [] }
  else
    let balance := if bailoutCredited used p then p.balance + amount else p.balance
    if balance ≤ 0 then { p with balance := 0, cards := [], eliminated := true }
    else { p with balance := balance }

/-- Ids pushed onto `usedIds` by the `applyBailoutIfNeeded` map. -/
def bailoutUsedIds (used : List Nat) (ps : List Player) : List Nat :=
  (ps.filter fun p => bailoutCredited used p).map (fun p => p.id)

/-- Ids pushed onto `eliminatedIds` (players newly eliminated in this pass). -/
def bailoutElimIds (amount : ℚ) (used : List Nat) (ps : List Player) : List Nat :=
  (ps.filter fun p =>
    !p.eliminated &&
      decide ((if bailoutCredited used p then p.balance + amount else p.balance) ≤ 0)).map
    (fun p => p.id)

/-- Ghost log: cards that leave hands in a bailout pass, i.e. the prior hand
of every player whose resulting record is eliminated (newly eliminated
players, and the defensive re-zeroing of already-eliminated players). -/
def bailoutDiscards (amount : ℚ) (used : List Nat) (ps : List Player) : List Card :=
  ps.flatMap fun p => if (bailoutPlayer amount used p).eliminated then p.cards else []

/-- Players-and-flags part of `applyBailoutIfNeeded`: the player map, the
`bailoutUsedByPlayer` update and the hand-discard ghost log, without the
trade-listing filter.  (Separated because `tradeAiTick` overwrites the
listing state written by the nested bailout call; see `tradeAiTick`.) -/
def applyBailoutPlayers (s : GameState) (playersSnapshot : List Player) : GameState :=
  match s.gameMode with
  | none => { s with players := playersSnapshot }
  | some mode =>
    let amount := bailoutAmount mode
    let used := s.bailoutUsedByPlayer
    { s with
        players := playersSnapshot.map (bailoutPlayer amount used),
        bailoutUsedByPlayer := used ++ bailoutUsedIds used playersSnapshot,
        discarded := s.discarded ++ bailoutDiscards amount used playersSnapshot }

/-- Bailout and elimination resolution (`applyBailoutIfNeeded`): credit the
bailout to each non-eliminated player with non-positive balance whose bailout
is unused, then eliminate (zeroing balance and cards) every player whose
balance is still non-positive, and drop the open listings of the newly
eliminated sellers (their cards go to the `discarded` ghost log).  When no
mode is set the source returns the snapshot unchanged. -/
def applyBailoutIfNeeded (s : GameState) (playersSnapshot : List Player) : GameState :=
  match s.gameMode with
  | none => { s with players := playersSnapshot }
  | some mode =>
    let amount := bailoutAmount mode
    let used := s.bailoutUsedByPlayer
    let elimIds := bailoutElimIds amount used playersSnapshot
    let s1 := applyBailoutPlayers s playersSnapshot
    { s1 with
        tradeListings := s.tradeListings.filter fun l => !elimIds.contains l.sellerId,
        discarded := s1.discarded ++
          (s.tradeListings.filter fun l => elimIds.contains l.sellerId).map
            (fun l => l.card) }

/-- Loop of `getNextActiveIndex`: try offsets 1..players.length in order and
return the first index holding a non-eliminated player, else `startIndex`.
The fuel counts the offsets still to try. -/
def nextActiveGo (players : List Player) (startIndex : Nat) : Nat → Nat → Nat
  | 0, _ => startIndex
  | fuel + 1, offset =>
    let idx := (startIndex + offset) % players.length
    match players[idx]? with
    | some p => if !p.eliminated then idx else nextActiveGo players startIndex fuel (offset + 1)
    | none => nextActiveGo players startIndex fuel (offset + 1)

/-- Next non-eliminated player index after `startIndex` (`getNextActiveIndex`). -/
def getNextActiveIndex (players : List Player) (startIndex : Nat) : Nat :=
  if players.length = 0 then startIndex
  else nextActiveGo players startIndex players.length 1

/-- Turn advance (`advanceTurn`) reading the given `players` snapshot; the
source handlers call it with the stale render snapshot, not the freshly
written player list. -/
def advanceTurnWith (players : List Player) (s : GameState) : GameState :=
  if players.length = 0 then s
  else { s with currentPlayerIndex := getNextActiveIndex players s.currentPlayerIndex }

/-- Turn advance using the current player list. -/
def advanceTurn (s : GameState) : GameState := advanceTurnWith s.players s

/-- Penalty charged for hitting an already scratched horse:
`scratchPenaltyByStep[horse.scratchStep ?? 1] ?? 0`. -/
def scratchedHorsePenalty (horse : Horse) : ℚ :=
  ((scratchPenaltyByStep (horse.scratchStep.getD 1)).getD 0 : Nat)

/-- Branch shared by the scratch and race handlers for a roll that hits an
already scratched horse: the roller alone pays the step penalty into the pot
(with bailout resolution), and the turn advances. -/
def chargeRollerForScratched (s : GameState) (horse : Horse) : GameState :=
  let penalty := scratchedHorsePenalty horse
  if penalty > 0 then
    let updatedPlayers := s.players.mapIdx fun idx player =>
      if idx = s.currentPlayerIndex then { player with balance := player.balance - penalty }
      else player
    let s1 := applyBailoutIfNeeded s updatedPlayers
    advanceTurnWith s.players { s1 with pot := s1.pot + penalty }
  else advanceTurnWith s.players s

/-- Scratch-phase roll resolution (`handleScratchRoll`). -/
def handleScratchRoll (s : GameState) (total : Nat) : GameState :=
  let horseNumber := total
  match s.horses.find? (fun h => h.number = horseNumber) with
  | none => s
  | some horse =>
    match s.players[s.currentPlayerIndex]? with
    | none => advanceTurnWith s.players s
    | some currentPlayer =>
      if currentPlayer.eliminated then advanceTurnWith s.players s
      else if horse.scratched then chargeRollerForScratched s horse
      else
        let newScratchStep := s.scratchHistory.length + 1
        let penalty : ℚ := ((scratchPenaltyByStep newScratchStep).getD 0 : Nat)
        let potIncrease :=
          (s.players.map fun player =>
            penalty * ((player.cards.filter fun c => c.value = horseNumber).length : ℚ)).sum
        let updatedPlayers := s.players.map fun player =>
          let matching := (player.cards.filter fun c => c.value = horseNumber).length
          if matching = 0 then player
          else
            { player with
                balance := player.balance - penalty * (matching : ℚ),
                cards := player.cards.filter fun c => c.value ≠ horseNumber }
        let forfeitedNow :=
          s.players.flatMap fun player => player.cards.filter fun c => c.value = horseNumber
        let s1 := applyBailoutIfNeeded s updatedPlayers
        let s2 :=
          { s1 with
              pot := if potIncrease > 0 then s1.pot + potIncrease else s1.pot,
              horses := s.horses.map fun h =>
                if h.number = horseNumber then
                  { h with scratched := true, scratchStep := some newScratchStep }
                else h,
              scratchHistory := s.scratchHistory ++ [horseNumber],
              forfeited := s.forfeited ++ forfeitedNow,
              phase := if newScratchStep ≥ 4 then GamePhase.trade else s1.phase }
        advanceTurnWith s.players s2

/-- Final standings comparator of the source, as the boolean order that a
stable sort uses: `standingsLe a b` holds exactly when the comparator
(eliminated-last, then descending balance) does not require `b` before `a`. -/
def standingsLe (a b : Player) : Bool :=
  if a.eliminated = b.eliminated then decide (b.balance ≤ a.balance)
  else !a.eliminated

/-- Elimination status by player id (`eliminatedById` map of the source;
`Map` construction keeps the last entry of a duplicated key, with a `?? false`
default on lookup). -/
def eliminatedById (playersSnapshot : List Player) (id : Nat) : Bool :=
  match playersSnapshot.reverse.find? (fun p => p.id = id) with
  | some p => p.eliminated
  | none => false

/-- Body of the ranking `reduce` of `buildFinalStandings`: append one
standing, sharing the previous rank exactly when balances agree to the cent
and elimination status agrees, else using the 1-based position. -/
def standStep (playersSnapshot : List Player) (acc : List FinalStanding) (player : Player) :
    List FinalStanding :=
  let balanceCents := round (player.balance * 100)
  let isTie :=
    match acc.getLast? with
    | some previous =>
        decide (round (previous.balance * 100) = balanceCents) &&
          decide (eliminatedById playersSnapshot previous.playerId = player.eliminated)
    | none => false
  let rank := if isTie then ((acc.getLast?).map (fun e => e.rank)).getD 0 else acc.length + 1
  acc ++ [{ playerId := player.id, name := player.name, balance := player.balance,
            rank := rank }]

/-- Final standings (`buildFinalStandings`): stable-sort players eliminated
last then by descending balance, then assign standard competition ranks. -/
def buildFinalStandings (playersSnapshot : List Player) : List FinalStanding :=
  (playersSnapshot.mergeSort standingsLe).foldl (standStep playersSnapshot) []

/-- Race payout (`handlePayout`): if nobody holds the winning value the pot
carries over (summary flagged, no player or pot mutation); otherwise each
holder is credited `pot / totalWinningCards` per card and the pot is zeroed.
On the final race the final standings are recorded.  The race summary is
scheduled with a presentation delay in the source; it is modelled as the
`pendingSummary` field. -/
def handlePayout (s : GameState) (winningHorse : Nat) : GameState :=
  let playersSnapshot := s.players
  let totalWinningCards : Nat :=
    (playersSnapshot.map fun p => (p.cards.filter fun c => c.value = winningHorse).length).sum
  let potSnapshot := s.pot
  let isFinalRace := totalRaces s ≤ s.currentRace
  if totalWinningCards = 0 then
    let s1 :=
      { s with
          pendingSummary := some { winner := winningHorse, pot := potSnapshot,
                                   carryover := true, payouts := [] } }
    if isFinalRace then { s1 with finalStandings := buildFinalStandings playersSnapshot }
    else s1
  else
    let payoutPerCard := potSnapshot / (totalWinningCards : ℚ)
    let updatedPlayers := playersSnapshot.map fun p =>
      let matchCount : Nat := (p.cards.filter fun c => c.value = winningHorse).length
      if matchCount = 0 then p
      else { p with balance := p.balance + payoutPerCard * (matchCount : ℚ) }
    let payouts : List PayoutEntry := playersSnapshot.filterMap fun p =>
      let matchCount : Nat := (p.cards.filter fun c => c.value = winningHorse).length
      if matchCount = 0 then none
      else some { playerId := p.id, name := p.name,
                  amount := payoutPerCard * (matchCount : ℚ), cards := matchCount }
    let s1 :=
      { s with
          players := updatedPlayers, pot := 0,
          pendingSummary := some { winner := winningHorse, pot := potSnapshot,
                                   carryover := false, payouts := payouts } }
    if isFinalRace then { s1 with finalStandings := buildFinalStandings updatedPlayers }
    else s1

/-- Race-phase roll resolution (`handleRaceRoll`): a scratched horse charges
the roller the step penalty; a live horse advances one peg, capped at
`pegDistribution + 1`, and reaching the cap finishes the race and pays out. -/
def handleRaceRoll (s : GameState) (total : Nat) : GameState :=
  let horseNumber := total
  match s.horses.find? (fun h => h.number = horseNumber) with
  | none => s
  | some horse =>
    match s.players[s.currentPlayerIndex]? with
    | none => advanceTurnWith s.players s
    | some currentPlayer =>
      if currentPlayer.eliminated then advanceTurnWith s.players s
      else if horse.scratched then chargeRollerForScratched s horse
      else
        let maxSpaces := pegDistribution horseNumber + 1
        let updatedHorses := s.horses.map fun h =>
          if h.number ≠ horseNumber then h
          else { h with position := min maxSpaces (h.position + 1) }
        let s1 := { s with horses := updatedHorses }
        match updatedHorses.find? (fun h => h.number = horseNumber) with
        | none => s1
        | some movedHorse =>
          if maxSpaces ≤ movedHorse.position then
            handlePayout
              { s1 with phase := GamePhase.finished, winner := some horseNumber }
              horseNumber
          else advanceTurnWith s.players s1

/-- Roll dispatch (`handleRoll`): rejected while no phase is active, during
the trade window, after the finish, with no players, or while the animation
lock (`isRolling`) is held; otherwise records the dice and dispatches on the
phase. -/
def handleRoll (s : GameState) (die1 die2 : Nat) : GameState :=
  if s.phase = GamePhase.nullPhase ∨ s.phase = GamePhase.finished ∨
      s.phase = GamePhase.trade ∨ s.players.length = 0 ∨ s.isRolling then s
  else
    let total := die1 + die2
    let s1 := { s with diceRoll := some { die1 := die1, die2 := die2, total := total },
                       isRolling := true }
    if s.phase = GamePhase.scratch then handleScratchRoll s1 total
    else if s.phase = GamePhase.race then handleRaceRoll s1 total
    else s1

/-- The human player record (`players.find(id === 1) ?? players[0]`). -/
def userPlayerOf (s : GameState) : Option Player :=
  match s.players.find? (fun p => p.id = 1) with
  | some p => some p
  | none => s.players[0]?

/-- Whether it is the human's turn (`isUserTurn`); a missing user player
makes the optional-chain elimination test falsy in the source. -/
def isUserTurn (s : GameState) : Bool :=
  s.currentPlayerIndex = 0 && !(((userPlayerOf s).map (fun p => p.eliminated)).getD false)

/-- Gate of the human roll control (`canRoll`). -/
def canRoll (s : GameState) : Bool :=
  (s.phase = GamePhase.scratch || s.phase = GamePhase.race) && isUserTurn s && !s.isRolling

/-- Gate of the AI auto-roll scheduler (`canAutoRoll` effect condition). -/
def canAutoRoll (s : GameState) : Bool :=
  (s.phase = GamePhase.scratch || s.phase = GamePhase.race) &&
    s.players.length ≠ 0 && !s.isRolling && !isUserTurn s &&
    (((s.players[s.currentPlayerIndex]?).map (fun p => !p.eliminated)).getD false)

/-- The roll command as exposed to actors: the human button is gated on
`canRoll`, the AI scheduler on `canAutoRoll`; both invoke `handleRoll`. -/
def rollDice (s : GameState) (die1 die2 : Nat) : GameState :=
  if canRoll s || canAutoRoll s then handleRoll s die1 die2 else s

/-- Random choices consumed by `createAiListings`: per player, whether to try
to list two cards (`Math.random() < 0.35`) and, per pick round, the random
card index draw (reduced into range by the modulus at the use site). -/
structure AiListOracle where
  wantsTwo : Nat → Bool
  pickIdx : Nat → Nat → Nat

/-- Inner pick loop of `createAiListings`: remove `k` randomly chosen cards
from the hand, returning the remaining hand and the picked cards in pick
order.  The hand stays non-empty throughout since the list count is capped at
`cards.length - 1`; the defensive branch mirrors a vacuous splice. -/
def aiPickGo (o : AiListOracle) (pid : Nat) : Nat → Nat → List Card → List Card × List Card
  | _, 0, cards => (cards, [])
  | round, k + 1, cards =>
    let idx := o.pickIdx pid round % cards.length
    match cards[idx]? with
    | none => (cards, [])
    | some c =>
      let next := aiPickGo o pid (round + 1) k (cards.eraseIdx idx)
      (next.1, c :: next.2)

/-- AI listing creation at market open (`createAiListings`): each AI player
that is alive and holds more than one card lists one card, or two with the
oracle's `wantsTwo` draw, always retaining at least one card.  Threads the
listing-id counter. -/
def createAiListings (o : AiListOracle) (counter0 : Nat) (playersSnapshot : List Player) :
    List Player × List TradeListing × Nat :=
  playersSnapshot.foldl
    (fun acc p =>
      let accPlayers := acc.1
      let accListings := acc.2.1
      let counter := acc.2.2
      if p.eliminated || p.id = 1 || p.cards.length ≤ 1 then
        (accPlayers ++ [p], accListings, counter)
      else
        let wantsTwo := decide (1 < p.cards.length) && o.wantsTwo p.id
        let maxListings := p.cards.length - 1
        let listCount := min (if wantsTwo then 2 else 1) maxListings
        let pickResult := aiPickGo o p.id 0 listCount p.cards
        let newListings := pickResult.2.mapIdx fun i c =>
          { id := counter + i + 1, card := c, sellerId := p.id }
        (accPlayers ++ [{ p with cards := pickResult.1 }], accListings ++ newListings,
          counter + pickResult.2.length))
    ([], [], counter0)

/-- Market open (`openTradeMarket`): create the AI listings, reset the trade
caps, enter the trade window.  Timers and the modal are presentation. -/
def openTradeMarket (s : GameState) (o : AiListOracle) : GameState :=
  let r := createAiListings o s.listingCounter s.players
  { s with players := r.1, tradeListings := r.2.1, listingCounter := r.2.2,
           tradeBuyCounts := [], tradeSellCounts := [], phase := GamePhase.trade }

/-- Market close (`closeTradeMarket`): return every unsold listing to its
seller's hand, clear the caps and listings, enter the race phase. -/
def closeTradeMarket (s : GameState) : GameState :=
  let listingsSnapshot := s.tradeListings
  let returnedPlayers :=
    if 0 < listingsSnapshot.length then
      s.players.map fun p =>
        let returns := (listingsSnapshot.filter fun l => l.sellerId = p.id).map
          (fun l => l.card)
        if returns.length = 0 then p else { p with cards := p.cards ++ returns }
    else s.players
  { s with players := returnedPlayers, tradeListings := [],
           tradeBuyCounts := [], tradeSellCounts := [],
           phase := GamePhase.race }

/-- Random choices consumed by one `applyAiPurchases` pass, indexed by the
attempt counter: whether the draw `Math.random() > 0.35` stops the buyer's
inner loop, and the random index into the eligible listings. -/
structure AiBuyOracle where
  stop : Nat → Bool
  pickListing : Nat → Nat

/-- Mutable state threaded through an `applyAiPurchases` pass. -/
structure AiPassState where
  players : List Player
  listings : List TradeListing
  buyCounts : List (Nat × Nat)
  sellCounts : List (Nat × Nat)
  transactions : Nat
  attempt : Nat
  changed : Bool

/-- Listings a given AI buyer may purchase: not their own, seller not
eliminated at pass start, seller's sell cap not exhausted. -/
def aiOptions (st : AiPassState) (elimIds : List Nat) (pid : Nat) : List TradeListing :=
  st.listings.filter fun listing =>
    listing.sellerId ≠ pid && !elimIds.contains listing.sellerId &&
      decide (lookupCount st.sellCounts listing.sellerId < MAX_TRADES_PER_PLAYER)

/-- Inner while loop of `applyAiPurchases` for one buyer; the fuel is the
remaining `availableBuys - purchases`. -/
def aiBuyLoop (o : AiBuyOracle) (elimIds : List Nat) (maxTx : Nat) (pid : Nat) :
    Nat → AiPassState → AiPassState
  | 0, st => st
  | fuel + 1, st =>
    match st.players.find? (fun p => p.id = pid) with
    | none => st
    | some buyer =>
      if buyer.balance < LISTING_PRICE then st
      else if maxTx ≤ st.transactions then st
      else if o.stop st.attempt then st
      else
        let options := aiOptions st elimIds pid
        if options.length = 0 then st
        else
          let idx := o.pickListing st.attempt % options.length
          match options[idx]? with
          | none => st
          | some listing =>
            let updatedPlayers := st.players.map fun q =>
              if q.id = pid then
                { q with balance := q.balance - LISTING_PRICE, cards := q.cards ++ [listing.card] }
              else if q.id = listing.sellerId then
                { q with balance := q.balance + LISTING_PRICE }
              else q
            aiBuyLoop o elimIds maxTx pid fuel
              { players := updatedPlayers,
                listings := st.listings.filter fun e => e.id ≠ listing.id,
                buyCounts := setCount st.buyCounts pid (lookupCount st.buyCounts pid + 1),
                sellCounts := setCount st.sellCounts listing.sellerId
                  (lookupCount st.sellCounts listing.sellerId + 1),
                transactions := st.transactions + 1,
                attempt := st.attempt + 1,
                changed := true }

/-- Outer loop of `applyAiPurchases`, iterating the players by id in list
order; each iteration reads the current threaded state. -/
def aiBuyPass (o : AiBuyOracle) (elimIds : List Nat) (maxTx : Nat) :
    List Nat → AiPassState → AiPassState
  | [], st => st
  | pid :: rest, st =>
    if maxTx ≤ st.transactions then st
    else
      match st.players.find? (fun p => p.id = pid) with
      | none => aiBuyPass o elimIds maxTx rest st
      | some player =>
        if player.eliminated || pid = 1 || player.balance < LISTING_PRICE then
          aiBuyPass o elimIds maxTx rest st
        else
          let availableBuys := MAX_TRADES_PER_PLAYER - lookupCount st.buyCounts pid
          aiBuyPass o elimIds maxTx rest (aiBuyLoop o elimIds maxTx pid availableBuys st)

/-- Result record of `applyAiPurchases` (before the nested bailout call). -/
structure AiPassResult where
  updatedPlayers : List Player
  listings : List TradeListing
  buyCounts : List (Nat × Nat)
  sellCounts : List (Nat × Nat)
  changed : Bool

/-- One AI purchase pass (`applyAiPurchases`) up to `maxTx` transactions;
with no transaction made the original snapshots are returned unchanged.  The
source's trailing `applyBailoutIfNeeded` call and the caller's state writes
are composed in `tradeAiTick`. -/
def applyAiPurchases (playersSnapshot : List Player) (listingsSnapshot : List TradeListing)
    (buyCountsSnapshot sellCountsSnapshot : List (Nat × Nat)) (maxTx : Nat)
    (o : AiBuyOracle) : AiPassResult :=
  let elimIds := (playersSnapshot.filter fun p => p.eliminated).map (fun p => p.id)
  let st0 : AiPassState :=
    { players := playersSnapshot, listings := listingsSnapshot,
      buyCounts := buyCountsSnapshot, sellCounts := sellCountsSnapshot,
      transactions := 0, attempt := 0, changed := false }
  let st := aiBuyPass o elimIds maxTx (playersSnapshot.map fun p => p.id) st0
  if !st.changed then
    { updatedPlayers := playersSnapshot, listings := listingsSnapshot,
      buyCounts := buyCountsSnapshot, sellCounts := sellCountsSnapshot, changed := false }
  else
    { updatedPlayers := st.players, listings := st.listings,
      buyCounts := st.buyCounts, sellCounts := st.sellCounts, changed := true }

/-- One AI purchase timer tick (the `scheduleAiPurchase` callback): run one
`applyAiPurchases` pass with at most one transaction and, if it changed
anything, commit its snapshots.  The nested `applyBailoutIfNeeded` call
writes players, bailout flags and a filtered listing list, but the caller
then stores the pass's own listing snapshot by value, overwriting that
filter; the net listing state is therefore the pass's snapshot, modelled by
composing `applyBailoutPlayers` with the direct writes. -/
def tradeAiTick (s : GameState) (o : AiBuyOracle) : GameState :=
  let r := applyAiPurchases s.players s.tradeListings s.tradeBuyCounts s.tradeSellCounts 1 o
  if !r.changed then s
  else
    let s1 := applyBailoutPlayers s r.updatedPlayers
    { s1 with tradeListings := r.listings, tradeBuyCounts := r.buyCounts,
              tradeSellCounts := r.sellCounts }

/-- Human listing action (`handleListCardForSale`). -/
def handleListCardForSale (s : GameState) (card : Card) : GameState :=
  if s.phase ≠ GamePhase.trade then s
  else
    match s.players.find? (fun p => p.id = 1) with
    | none => s
    | some seller =>
      if seller.eliminated then s
      else
        let soldCount := lookupCount s.tradeSellCounts seller.id
        let activeListings := (s.tradeListings.filter fun l => l.sellerId = seller.id).length
        if MAX_TRADES_PER_PLAYER ≤ soldCount + activeListings then s
        else
          match seller.cards.findIdx? (fun e => e.value = card.value && e.suit = card.suit) with
          | none => s
          | some cardIndex =>
            let updatedPlayers := s.players.map fun p =>
              if p.id ≠ seller.id then p
              else { p with cards := p.cards.eraseIdx cardIndex }
            { s with players := updatedPlayers,
                     tradeListings := s.tradeListings ++
                       [{ id := s.listingCounter + 1, card := card, sellerId := seller.id }],
                     listingCounter := s.listingCounter + 1 }

/-- Human listing cancel (`handleCancelListing`): an unknown id is ignored;
otherwise the listing is removed and its card appended back to the hand of
the recorded seller. -/
def handleCancelListing (s : GameState) (listingId : Nat) : GameState :=
  match s.tradeListings.find? (fun e => e.id = listingId) with
  | none => s
  | some listing =>
    let updatedPlayers := s.players.map fun p =>
      if p.id ≠ listing.sellerId then p
      else { p with cards := p.cards ++ [listing.card] }
    { s with players := updatedPlayers,
             tradeListings := s.tradeListings.filter fun e => e.id ≠ listingId }

/-- Human buy action (`handleBuyListing`): silently rejected when the listing
is unknown or the human's own, the buyer is eliminated, lacks funds or has
exhausted the buy cap, or the seller has exhausted the sell cap; otherwise
the price moves buyer to seller, the card moves into the buyer's hand,
bailout resolution runs, the listing is removed and both caps advance. -/
def handleBuyListing (s : GameState) (listingId : Nat) : GameState :=
  match s.tradeListings.find? (fun e => e.id = listingId) with
  | none => s
  | some listing =>
    if listing.sellerId = 1 then s
    else
      match s.players.find? (fun p => p.id = 1) with
      | none => s
      | some buyer =>
        if buyer.eliminated || buyer.balance < LISTING_PRICE then s
        else if MAX_TRADES_PER_PLAYER ≤ lookupCount s.tradeBuyCounts buyer.id then s
        else if MAX_TRADES_PER_PLAYER ≤ lookupCount s.tradeSellCounts listing.sellerId then s
        else
          let updatedPlayers := s.players.map fun p =>
            if p.id = buyer.id then
              { p with balance := p.balance - LISTING_PRICE, cards := p.cards ++ [listing.card] }
            else if p.id = listing.sellerId then
              { p with balance := p.balance + LISTING_PRICE }
            else p
          let s1 := applyBailoutIfNeeded s updatedPlayers
          { s1 with
              tradeListings := s1.tradeListings.filter fun e => e.id ≠ listing.id,
              tradeBuyCounts := setCount s1.tradeBuyCounts buyer.id
                (lookupCount s1.tradeBuyCounts buyer.id + 1),
              tradeSellCounts := setCount s1.tradeSellCounts listing.sellerId
                (lookupCount s1.tradeSellCounts listing.sellerId + 1) }

/-- Session start (`startGame`): six players with the mode's starting
balance, a shuffled deck dealt round-robin, fresh horses, scratch phase,
everything else reset.  The ghost logs start at the dealt deck. -/
def startGame (mode : Mode) (js : Nat → Nat) : GameState :=
  let startingBalance : ℚ := if mode = Mode.half then 350 else 700
  let basePlayers : List Player := (List.range 6).map fun i =>
    { id := i + 1, name := PLAYER_NAMES.getD i ("Player " ++ toString (i + 1)),
      balance := startingBalance, cards := [], eliminated := false }
  let shuffledDeck := shuffleDeck createDeck js
  let hands := dealHands shuffledDeck basePlayers.length
  let playersWithCards := basePlayers.mapIdx fun idx p => { p with cards := hands.getD idx [] }
  { players := playersWithCards
    gameStarted := true
    gameMode := some mode
    currentRace := 1
    horses := initialiseHorses
    phase := GamePhase.scratch
    currentPlayerIndex := 0
    diceRoll := some { die1 := 1, die2 := 1, total := 2 }
    pendingSummary := none
    finalStandings := []
    bailoutUsedByPlayer := []
    tradeListings := []
    tradeBuyCounts := []
    tradeSellCounts := []
    isRolling := false
    pot := 0
    scratchHistory := []
    winner := none
    listingCounter := 0
    dealtCards := shuffledDeck
    forfeited := []
    discarded := [] }

/-- Session reset (`resetGame`): everything cleared. -/
def resetGame : GameState :=
  { players := []
    gameStarted := false
    gameMode := none
    currentRace := 1
    horses := []
    phase := GamePhase.nullPhase
    currentPlayerIndex := 0
    diceRoll := some { die1 := 1, die2 := 1, total := 2 }
    pendingSummary := none
    finalStandings := []
    bailoutUsedByPlayer := []
    tradeListings := []
    tradeBuyCounts := []
    tradeSellCounts := []
    isRolling := false
    pot := 0
    scratchHistory := []
    winner := none
    listingCounter := 0
    dealtCards := []
    forfeited := []
    discarded := [] }

/-- Advance to the next race (`handleNextRace`): re-shuffle and re-deal to
the active players (eliminated players get no cards), reset horses, pot,
scratch history, market state and summaries, and rotate the starting roller
through the active-player list by race number.  The `dealtCards` ghost log
records the cards actually dealt: the full shuffled deck, or nothing when no
active player remains to receive cards. -/
def handleNextRace (s : GameState) (js : Nat → Nat) : GameState :=
  match s.gameMode with
  | none => s
  | some mode =>
    let total := if mode = Mode.half then 4 else 8
    if total ≤ s.currentRace then s
    else
      let shuffledDeck := shuffleDeck createDeck js
      let nextRaceNumber := s.currentRace + 1
      let activeIndices := (List.range s.players.length).filter fun idx =>
        (((s.players[idx]?).map (fun p => !p.eliminated)).getD false)
      let hands :=
        if 0 < activeIndices.length then dealHands shuffledDeck activeIndices.length else []
      let updatedPlayers := s.players.mapIdx fun idx p =>
        if p.eliminated then { p with cards := [] }
        else { p with cards := hands.getD (activeIndices.indexOf idx) [] }
      let startingIndex :=
        if 0 < activeIndices.length then
          activeIndices.getD ((nextRaceNumber - 1) % activeIndices.length) 0
        else 0
      { s with
          players := updatedPlayers
          horses := initialiseHorses
          scratchHistory := []
          pot := 0
          diceRoll := none
          pendingSummary := none
          finalStandings := []
          tradeListings := []
          tradeBuyCounts := []
          tradeSellCounts := []
          winner := none
          phase := GamePhase.scratch
          currentRace := nextRaceNumber
          currentPlayerIndex := startingIndex
          dealtCards := if 0 < activeIndices.length then shuffledDeck else []
          forfeited := []
          discarded := [] }

/-- Events of the session: every externally triggered transition of the
modelled engine.  Rolls carry the two dice draws; market and deal events
carry their random oracles. -/
inductive GameEvent where
  | roll (die1 die2 : Nat)
  | animationUnlock
  | openMarket (o : AiListOracle)
  | aiPurchase (o : AiBuyOracle)
  | closeMarket
  | listCard (card : Card)
  | cancelListing (id : Nat)
  | buyListing (id : Nat)
  | nextRace (js : Nat → Nat)
  | reset
  | turnFixup

/-- Apply one event.  The market timers exist only during the trade window
(they are cleared on close, next race and reset), so the open, purchase and
close callbacks fire only in the trade phase, and the open callback is a
one-shot timer scheduled on entry to the trade window, where the listing
list is empty; `turnFixup` is the effect that
skips an eliminated current player. -/
def applyEvent (s : GameState) : GameEvent → GameState
  | GameEvent.roll d1 d2 => rollDice s d1 d2
  | GameEvent.animationUnlock => { s with isRolling := false }
  | GameEvent.openMarket o =>
      if s.phase = GamePhase.trade ∧ s.tradeListings = [] then openTradeMarket s o else s
  | GameEvent.aiPurchase o => if s.phase = GamePhase.trade then tradeAiTick s o else s
  | GameEvent.closeMarket => if s.phase = GamePhase.trade then closeTradeMarket s else s
  | GameEvent.listCard c => handleListCardForSale s c
  | GameEvent.cancelListing id => handleCancelListing s id
  | GameEvent.buyListing id => handleBuyListing s id
  | GameEvent.nextRace js => handleNextRace s js
  | GameEvent.reset => resetGame
  | GameEvent.turnFixup =>
      if (((s.players[s.currentPlayerIndex]?).map (fun p => p.eliminated)).getD false) then
        advanceTurn s
      else s

/-- Run a sequence of events. -/
def runEvents (s : GameState) (events : List GameEvent) : GameState :=
  events.foldl applyEvent s

/-- Cards in circulation: all hands plus all open listings. -/
def circulation (s : GameState) : List Card :=
  (s.players.flatMap fun p => p.cards) ++ s.tradeListings.map (fun l => l.card)

/-! ### Round-robin dealing -/

/-- Every `n`-th element of a list, starting at its head: the cards that one
player receives from the part of the deck starting at their first card. -/
def rrSlice (n : Nat) : List Card → List Card
  | [] => []
  | c :: rest => c :: rrSlice n (rest.drop (n - 1))
termination_by l => l.length
decreasing_by simp [List.length_drop]; omega

/-- Concrete trade-window state used by the market witnesses: a fresh
half-day session, phase moved to the trade window, with one open listing by
the AI seller of id 2. -/
def sMarketExample : GameState :=
  { startGame Mode.half (fun i => i) with
      phase := GamePhase.trade,
      tradeListings := [{ id := 1, card := { value := 7, suit := 0 }, sellerId := 2 }],
      listingCounter := 1 }

/-- Race-phase state used by the C1 witness: one live player, horse 7 six
pegs in. -/
def sRaceExample : GameState :=
  { resetGame with
      gameMode := some Mode.half,
      phase := GamePhase.race,
      players := [{ id := 1, name := "You", balance := 350, cards := [], eliminated := false }],
      horses := initialiseHorses.map fun h =>
        if h.number = 7 then { h with position := 6 } else h }

/-- Oracle giving the AI listing decisions used in the concrete traces:
never list two cards, always pick the first card of the hand. -/
def oEx : AiListOracle := { wantsTwo := fun _ => false, pickIdx := fun _ _ => 0 }

/-- Event trace for the C1 counterexample: scratch horses 2, 3, 4 and 5,
pass through the market, then roll a 7 seven times. -/
def traceC1 : List GameEvent :=
  [GameEvent.roll 1 1, GameEvent.animationUnlock, GameEvent.roll 1 2, GameEvent.animationUnlock,
   GameEvent.roll 2 2, GameEvent.animationUnlock, GameEvent.roll 2 3, GameEvent.animationUnlock,
   GameEvent.openMarket oEx, GameEvent.closeMarket,
   GameEvent.roll 3 4, GameEvent.animationUnlock, GameEvent.roll 3 4, GameEvent.animationUnlock,
   GameEvent.roll 3 4, GameEvent.animationUnlock, GameEvent.roll 3 4, GameEvent.animationUnlock,
   GameEvent.roll 3 4, GameEvent.animationUnlock, GameEvent.roll 3 4, GameEvent.animationUnlock,
   GameEvent.roll 3 4, GameEvent.animationUnlock]

/-! ### Buying on the market -/

/-- Fallback player used only as the default of `List.getD` in witnesses. -/
def defaultPlayer : Player :=
  { id := 0, name := "", balance := 0, cards := [], eliminated := false }

/-- Invariant of the scratch phase maintained across every roll of a race:
the scratch history is duplicate-free with at most 4 entries, the phase is
`scratch` exactly while fewer than 4 horses are scratched (and `trade`
afterwards), a horse is marked scratched exactly when its number is in the
history, its `scratchStep` is its 1-based position in the history, and the
horse numbers are pairwise distinct. -/
structure ScratchInv (s : GameState) : Prop where
  hist_nodup : s.scratchHistory.Nodup
  hist_len : s.scratchHistory.length ≤ 4
  phase_iff : s.phase = GamePhase.scratch ↔ s.scratchHistory.length < 4
  phase_or : s.phase = GamePhase.scratch ∨ s.phase = GamePhase.trade
  horses_scr : ∀ h ∈ s.horses, h.scratched = true ↔ h.number ∈ s.scratchHistory
  horses_step : ∀ h ∈ s.horses, ∀ i : Nat, s.scratchHistory[i]? = some h.number →
    h.scratchStep = some (i + 1)
  horses_nodup : (s.horses.map fun h => h.number).Nodup

/-- One scratch roll as triggered by an actor, together with the animation
unlock that follows it. -/
def scratchRun (s0 : GameState) (rolls : List (Nat × Nat)) : GameState :=
  rolls.foldl
    (fun s d => applyEvent (applyEvent s (GameEvent.roll d.1 d.2)) GameEvent.animationUnlock) s0

/-- A state at the start of a race's scratch phase: fresh horses, empty
scratch history, scratch phase. -/
def FreshScratchState (s : GameState) : Prop :=
  s.horses = initialiseHorses ∧ s.scratchHistory = [] ∧ s.phase = GamePhase.scratch

/-- Concrete session used by the bailout witness: half-day mode with a
single player at balance -15 holding one card, bailout unused. -/
def sBailoutA : GameState :=
  { resetGame with gameMode := some Mode.half }

/-- The claim's example player at balance -15. -/
def pBailoutA : Player :=
  { id := 2, name := "Lucky Lou", balance := -15, cards := [{ value := 7, suit := 0 }],
    eliminated := false }

/-- The same player later at balance -5 with the bailout already spent. -/
def pBailoutB : Player :=
  { id := 2, name := "Lucky Lou", balance := -5, cards := [{ value := 7, suit := 0 }],
    eliminated := false }

/-- Concrete session for the second resolution: the bailout is already used. -/
def sBailoutB : GameState :=
  { resetGame with gameMode := some Mode.half, bailoutUsedByPlayer := [2] }

/-- Four players, two tied in the middle, for exercising the standings. -/
def standPsEx : List Player :=
  [⟨0, "A", 100, [], false⟩, ⟨1, "B", 50, [], false⟩,
   ⟨2, "C", 50, [], false⟩, ⟨3, "D", 10, [], false⟩]

/-- All cards in the given players' hands, in player order. -/
def cardsOf (ps : List Player) : List Card := ps.flatMap fun p => p.cards

/-- The card-conservation invariant of a session state, together with the
side conditions that keep every card in exactly one place: the hands and open
listings plus the forfeit and discard logs are exactly the dealt cards;
player ids and listing ids are unique, every listing's seller exists, listing
ids never exceed the counter, alive players have positive balance and the pot
is never negative. -/
structure ConsInv (s : GameState) : Prop where
  conserve : (↑(circulation s) : Multiset Card) + ↑s.forfeited + ↑s.discarded = ↑s.dealtCards
  dealt : s.dealtCards.length = 44 ∨ s.dealtCards = []
  pids : (s.players.map fun p => p.id).Nodup
  sellers : ∀ l ∈ s.tradeListings, l.sellerId ∈ s.players.map fun p => p.id
  lids : (s.tradeListings.map fun l => l.id).Nodup
  lidBound : ∀ l ∈ s.tradeListings, l.id ≤ s.listingCounter
  alive : ∀ p ∈ s.players, p.eliminated = false → 0 < p.balance
  potNonneg : 0 ≤ s.pot
  modeNone : s.gameMode = none → s.players = []

/-- The per-player body of the `createAiListings` fold, named for the
invariant proofs. -/
def aiStep (o : AiListOracle) (acc : List Player × List TradeListing × Nat) (p : Player) :
    List Player × List TradeListing × Nat :=
  if p.eliminated || p.id = 1 || p.cards.length ≤ 1 then (acc.1 ++ [p], acc.2.1, acc.2.2)
  else
    let wantsTwo := decide (1 < p.cards.length) && o.wantsTwo p.id
    let maxListings := p.cards.length - 1
    let listCount := min (if wantsTwo then 2 else 1) maxListings
    let pickResult := aiPickGo o p.id 0 listCount p.cards
    let newListings := pickResult.2.mapIdx fun i c =>
      { id := acc.2.2 + i + 1, card := c, sellerId := p.id }
    (acc.1 ++ [{ p with cards := pickResult.1 }], acc.2.1 ++ newListings,
      acc.2.2 + pickResult.2.length)

/-- A player's identity triple: id, balance and elimination flag. -/
def core3 (p : Player) : Nat × ℚ × Bool := (p.id, p.balance, p.eliminated)

def jsEx : Nat → Nat := fun i =>
  if i = 36 then 1 else if i = 38 then 7 else if i = 39 then 13
  else if i = 40 then 19 else if i = 41 then 25 else if i = 42 then 31 else i

def raceEventsEx : List GameEvent :=
  [GameEvent.roll 4 5, GameEvent.animationUnlock, GameEvent.roll 5 5, GameEvent.animationUnlock,
   GameEvent.roll 5 6, GameEvent.animationUnlock, GameEvent.roll 6 6, GameEvent.animationUnlock,
   GameEvent.openMarket oEx, GameEvent.closeMarket,
   GameEvent.roll 1 1, GameEvent.animationUnlock, GameEvent.roll 1 1, GameEvent.animationUnlock,
   GameEvent.roll 1 1, GameEvent.animationUnlock, GameEvent.nextRace jsEx]

def lastRaceEventsEx : List GameEvent :=
  [GameEvent.roll 4 5, GameEvent.animationUnlock, GameEvent.roll 5 5, GameEvent.animationUnlock,
   GameEvent.roll 5 6, GameEvent.animationUnlock]

def traceC5 : List GameEvent :=
  raceEventsEx ++ raceEventsEx ++ raceEventsEx ++ lastRaceEventsEx

def sBadC5 : GameState := runEvents (startGame Mode.half jsEx) traceC5

theorem rrSlice_getElem? (n : Nat) (hn : 0 < n) (j : Nat) :
    ∀ d : List Card, (rrSlice n d)[j]? = d[j * n]? := by
  induction j with
  | zero =>
    intro d
    cases d with
    | nil => simp [rrSlice]
    | cons c rest => simp [rrSlice]
  | succ j ih =>
    intro d
    cases d with
    | nil => simp [rrSlice]
    | cons c rest =>
      have h1 : (rrSlice n (c :: rest))[j + 1]? = (rrSlice n (rest.drop (n - 1)))[j]? := by
        simp [rrSlice]
      rw [h1, ih (rest.drop (n - 1)), List.getElem?_drop]
      have h2 : (j + 1) * n = (n - 1 + j * n) + 1 := by rw [Nat.succ_mul]; omega
      rw [h2, List.getElem?_cons_succ]

theorem rrSlice_length (n : Nat) (hn : 0 < n) :
    ∀ d : List Card, (rrSlice n d).length = (d.length + n - 1) / n := by
  suffices H : ∀ (fuel : Nat) (d : List Card), d.length ≤ fuel →
      (rrSlice n d).length = (d.length + n - 1) / n by
    intro d; exact H d.length d le_rfl
  intro fuel
  induction fuel with
  | zero =>
    intro d hd
    have hdnil : d = [] := List.length_eq_zero.mp (Nat.le_zero.mp hd)
    subst hdnil
    simp only [rrSlice, List.length_nil, Nat.zero_add]
    exact (Nat.div_eq_of_lt (by omega)).symm
  | succ fuel ih =>
    intro d hd
    cases d with
    | nil =>
      simp only [rrSlice, List.length_nil, Nat.zero_add]
      exact (Nat.div_eq_of_lt (by omega)).symm
    | cons c rest =>
      have hdrop : (rest.drop (n - 1)).length = rest.length - (n - 1) := by
        simp [List.length_drop]
      have hfit : (rest.drop (n - 1)).length ≤ fuel := by
        simp only [List.length_drop]
        simp at hd
        omega
      have hr := ih (rest.drop (n - 1)) hfit
      rcases Nat.le_total (n - 1) rest.length with h | h
      · have e1 : rest.length - (n - 1) + n - 1 = rest.length := by omega
        have e2 : rest.length + 1 + n - 1 = rest.length + n := by omega
        simp only [rrSlice, List.length_cons, hr, hdrop, e1, e2]
        rw [Nat.add_div_right _ hn]
      · have e1 : rest.length - (n - 1) + n - 1 = n - 1 := by omega
        have e2 : rest.length + 1 + n - 1 = rest.length + n := by omega
        simp only [rrSlice, List.length_cons, hr, hdrop, e1, e2]
        rw [Nat.add_div_right _ hn, Nat.div_eq_of_lt (by omega),
          Nat.div_eq_of_lt (by omega)]

theorem dealGo_length (n : Nat) :
    ∀ (rest : List Card) (idx : Nat) (hands : List (List Card)),
      (dealGo n idx rest hands).length = hands.length := by
  intro rest
  induction rest with
  | nil => intro idx hands; simp [dealGo]
  | cons c t ih => intro idx hands; simp [dealGo, ih]

theorem gap_eq (n i j : Nat) (hi : i < n) (hj : j < n) :
    (i + n - j) % n = if j ≤ i then i - j else n - (j - i) := by
  rcases Nat.le_total j i with h | h
  · have e : i + n - j = n + (i - j) := by omega
    rw [if_pos h, e, Nat.add_mod_left, Nat.mod_eq_of_lt (by omega)]
  · rcases Nat.eq_or_lt_of_le h with rfl | h
    · have e : i + n - i = n := by omega
      simp [e, Nat.mod_self]
    · have e : i + n - j = n - (j - i) := by omega
      rw [if_neg (by omega), e, Nat.mod_eq_of_lt (by omega)]

theorem dealGo_getD (n : Nat) (hn : 0 < n) (i : Nat) (hi : i < n) :
    ∀ (rest : List Card) (idx : Nat) (hands : List (List Card)), hands.length = n →
      (dealGo n idx rest hands).getD i [] =
        hands.getD i [] ++ rrSlice n (rest.drop ((i + n - idx % n) % n)) := by
  intro rest
  induction rest with
  | nil => intro idx hands hlen; simp [dealGo, rrSlice]
  | cons c t ih =>
    intro idx hands hlen
    have hjlt : idx % n < n := Nat.mod_lt _ hn
    have hmm : (idx + 1) % n = (idx % n + 1) % n := by
      rw [Nat.mod_add_mod]
    rcases eq_or_ne (idx % n) i with hcase | hcase
    · -- this card goes to hand i
      have hg1 : (i + n - idx % n) % n = 0 := by
        rw [hcase]
        have e : i + n - i = n := by omega
        simp [e, Nat.mod_self]
      have hg2 : (i + n - (idx + 1) % n) % n = n - 1 := by
        rw [hmm, hcase]
        rcases Nat.eq_or_lt_of_le (Nat.succ_le_of_lt hi) with he | hlt2
        · have e0 : (i + 1) % n = 0 := by
            rw [(by omega : i + 1 = n)]; exact Nat.mod_self n
          rw [e0]
          have e1 : i + n - 0 = n + i := by omega
          rw [e1, Nat.add_mod_left, Nat.mod_eq_of_lt hi]
          omega
        · have e0 : (i + 1) % n = i + 1 := Nat.mod_eq_of_lt hlt2
          rw [e0, gap_eq n i (i + 1) hi hlt2, if_neg (by omega)]
          omega
      have hset : (hands.set (idx % n) (hands.getD (idx % n) [] ++ [c])).getD i [] =
          hands.getD i [] ++ [c] := by
        rw [hcase, List.getD_eq_getElem?_getD, List.getElem?_set_self (by omega),
          List.getD_eq_getElem?_getD]
        simp
      rw [dealGo, ih (idx + 1) _ (by simp [hlen]), hset, hg2, hg1]
      simp only [List.drop_zero, rrSlice]
      simp
    · -- this card goes to another hand
      have hg1pos : 0 < (i + n - idx % n) % n := by
        rw [gap_eq n i (idx % n) hi hjlt]
        rcases Nat.le_total (idx % n) i with h | h
        · rw [if_pos h]; omega
        · rw [if_neg (by omega)]; omega
      have hgstep : (i + n - (idx + 1) % n) % n = (i + n - idx % n) % n - 1 := by
        rw [hmm]
        rcases Nat.eq_or_lt_of_le (Nat.succ_le_of_lt hjlt) with he | hlt2
        · have e0 : (idx % n + 1) % n = 0 := by
            rw [(by omega : idx % n + 1 = n)]; exact Nat.mod_self n
          rw [e0, gap_eq n i (idx % n) hi hjlt]
          have e1 : i + n - 0 = n + i := by omega
          rw [e1, Nat.add_mod_left, Nat.mod_eq_of_lt hi, if_neg (by omega)]
          omega
        · have e0 : (idx % n + 1) % n = idx % n + 1 := Nat.mod_eq_of_lt hlt2
          rw [e0, gap_eq n i (idx % n + 1) hi hlt2, gap_eq n i (idx % n) hi hjlt]
          rcases Nat.le_total (idx % n) i with h | h
          · rw [if_pos h, if_pos (by omega : (idx % n + 1 : Nat) ≤ i)]
            omega
          · rw [if_neg (by omega), if_neg (by omega)]
            omega
      have hset : (hands.set (idx % n) (hands.getD (idx % n) [] ++ [c])).getD i [] =
          hands.getD i [] := by
        rw [List.getD_eq_getElem?_getD, List.getElem?_set_ne hcase,
          ← List.getD_eq_getElem?_getD]
      rw [dealGo, ih (idx + 1) _ (by simp [hlen]), hset, hgstep]
      have hdropstep : (c :: t).drop ((i + n - idx % n) % n) =
          t.drop ((i + n - idx % n) % n - 1) := by
        rcases Nat.exists_eq_add_of_lt hg1pos with ⟨k, hk⟩
        rw [show (i + n - idx % n) % n = k + 1 by omega]
        simp
      rw [hdropstep]

theorem dealHands_hand (deck : List Card) (n : Nat) (hn : 0 < n) (i : Nat) (hi : i < n) :
    (dealHands deck n).getD i [] = rrSlice n (deck.drop i) := by
  rw [dealHands, dealGo_getD n hn i hi deck 0 _ (by simp)]
  have h0 : (0 : Nat) % n = 0 := Nat.zero_mod n
  rw [h0]
  have hg : (i + n - 0) % n = i := by
    have e : i + n - 0 = n + i := by omega
    rw [e, Nat.add_mod_left, Nat.mod_eq_of_lt hi]
  rw [hg]
  rw [List.getD_eq_getElem?_getD]
  simp [List.getElem?_replicate, hi]

theorem swapCards_length (l : List Card) (i j : Nat) :
    (swapCards l i j).length = l.length := by
  unfold swapCards
  rcases h1 : l[i]? with _ | a <;> rcases h2 : l[j]? with _ | b <;> simp

theorem shuffleGo_length (js : Nat → Nat) :
    ∀ (k : Nat) (l : List Card), (shuffleGo js l k).length = l.length := by
  intro k
  induction k with
  | zero => intro l; rfl
  | succ k ih => intro l; rw [shuffleGo, ih, swapCards_length]

theorem shuffleDeck_length (deck : List Card) (js : Nat → Nat) :
    (shuffleDeck deck js).length = deck.length :=
  shuffleGo_length js _ deck

theorem createDeck_length : createDeck.length = 44 := by decide

theorem dealHands_length (deck : List Card) (n : Nat) :
    (dealHands deck n).length = n := by
  rw [dealHands, dealGo_length]
  exact List.length_replicate n []

theorem dealHands_hand_length (deck : List Card) (n : Nat) (hn : 0 < n) (i : Nat)
    (hi : i < n) :
    ((dealHands deck n).getD i []).length = (deck.length - i + n - 1) / n := by
  rw [dealHands_hand deck n hn i hi, rrSlice_length n hn, List.length_drop]

theorem startGame_hand_sizes (mode : Mode) (js : Nat → Nat) :
    ((startGame mode js).players.map fun p => p.cards.length) = [8, 8, 7, 7, 7, 7] := by
  have hdeck : (shuffleDeck createDeck js).length = 44 := by
    rw [shuffleDeck_length, createDeck_length]
  apply List.ext_getElem
  · simp [startGame]
  · intro i h1 h2
    simp only [startGame, List.getElem_map, List.getElem_mapIdx]
    have hi6 : i < 6 := by
      simpa [startGame] using h1
    have hsize : ∀ k, k < 6 →
        ((dealHands (shuffleDeck createDeck js) 6).getD k []).length = (44 - k + 5) / 6 := by
      intro k hk
      rw [dealHands_hand_length _ 6 (by omega) k hk, hdeck]
      omega
    interval_cases i <;>
      simp [List.getD_eq_getElem?_getD, ← List.getD_eq_getElem?_getD, hsize, List.getElem_map]

/-- C6: dealing is round-robin (player `i` of `n` receives exactly the cards
at deck positions `i, i + n, i + 2n, ...`), and a fresh session deals all 44
cards across the 6 players in the deterministic split 8, 8, 7, 7, 7, 7 (two
players receive 8 cards and four receive 7). -/
theorem dealHands_roundRobin_spec :
    (∀ (deck : List Card) (n : Nat), 0 < n → ∀ i, i < n → ∀ j : Nat,
        ((dealHands deck n).getD i [])[j]? = deck[i + j * n]?)
    ∧ (∀ (mode : Mode) (js : Nat → Nat),
        ((startGame mode js).players.map fun p => p.cards.length) = [8, 8, 7, 7, 7, 7]) := by
  constructor
  · intro deck n hn i hi j
    rw [dealHands_hand deck n hn i hi, rrSlice_getElem? n hn j, List.getElem?_drop]
  · exact startGame_hand_sizes

/-- C6 witness: the round-robin description and the concrete split, evaluated
on the canonical deck and an identity shuffle. -/
theorem dealHands_roundRobin_spec_witness :
    (0 < 6 ∧ (1 : Nat) < 6 ∧
      ((dealHands createDeck 6).getD 1 [])[2]? = createDeck[1 + 2 * 6]?)
    ∧ ((startGame Mode.half (fun i => i)).players.map fun p => p.cards.length) =
        [8, 8, 7, 7, 7, 7] :=
  ⟨⟨by decide, by decide, dealHands_roundRobin_spec.1 createDeck 6 (by decide) 1 (by decide) 2⟩,
    dealHands_roundRobin_spec.2 Mode.half (fun i => i)⟩

/-- C6 counterexample: a half-day session with 6 players deals hands of sizes
8, 8, 7, 7, 7, 7 — not four hands of 8 and two hands of 6 as claimed. -/
theorem dealHands_split_counterexample :
    ((startGame Mode.half (fun i => i)).players.map fun p => p.cards.length) =
        [8, 8, 7, 7, 7, 7]
    ∧ ¬((((startGame Mode.half (fun i => i)).players.map fun p => p.cards.length).count 8 = 4)
        ∧ (((startGame Mode.half (fun i => i)).players.map fun p => p.cards.length).count 6
            = 2)) := by
  with_unfolding_all decide

/-! ### Roll gating -/

/-- C9: the roll command is a no-op — the whole session state is returned
unchanged — unless some actor may validly roll: when neither the human gate
nor the AI scheduler gate holds, and in particular during the trade window,
after a finish, before a session starts, or while the animation lock is
held, the roll is silently ignored. -/
theorem rollDice_noop_spec (s : GameState) (die1 die2 : Nat)
    (h : (canRoll s = false ∧ canAutoRoll s = false) ∨
      s.phase = GamePhase.trade ∨ s.phase = GamePhase.finished ∨
      s.phase = GamePhase.nullPhase ∨ s.isRolling = true) :
    rollDice s die1 die2 = s := by
  have hfalse : canRoll s = false ∧ canAutoRoll s = false := by
    rcases h with h | h | h | h | h
    · exact h
    · constructor <;> simp [canRoll, canAutoRoll, h]
    · constructor <;> simp [canRoll, canAutoRoll, h]
    · constructor <;> simp [canRoll, canAutoRoll, h]
    · constructor <;> simp [canRoll, canAutoRoll, h]
  rw [rollDice, hfalse.1, hfalse.2]
  simp

/-- C9 witness: rolling during the trade window of a fresh session changes
nothing. -/
theorem rollDice_noop_spec_witness :
    rollDice { startGame Mode.half (fun i => i) with phase := GamePhase.trade } 3 4 =
      { startGame Mode.half (fun i => i) with phase := GamePhase.trade } :=
  rollDice_noop_spec _ 3 4 (Or.inr (Or.inl rfl))

/-! ### Listing cancellation -/

/-- C10: cancelling a listing succeeds for every open listing regardless of
phase, caller or ownership: the listing is removed and its card appended to
the recorded seller's hand, with every balance, the phase and the pot
untouched; an id matching no open listing changes nothing at all. -/
theorem handleCancelListing_spec (s : GameState) (listingId : Nat) :
    (s.tradeListings.find? (fun e => e.id = listingId) = none →
      handleCancelListing s listingId = s)
    ∧ (∀ listing, s.tradeListings.find? (fun e => e.id = listingId) = some listing →
        (handleCancelListing s listingId).tradeListings =
            s.tradeListings.filter (fun e => e.id ≠ listingId)
        ∧ (handleCancelListing s listingId).players =
            s.players.map (fun p =>
              if p.id = listing.sellerId then { p with cards := p.cards ++ [listing.card] }
              else p)
        ∧ (∀ p ∈ (handleCancelListing s listingId).players, ∃ q ∈ s.players,
            p.id = q.id ∧ p.balance = q.balance ∧ p.eliminated = q.eliminated)
        ∧ (handleCancelListing s listingId).phase = s.phase
        ∧ (handleCancelListing s listingId).pot = s.pot) := by
  constructor
  · intro h
    simp only [handleCancelListing, h]
  · intro listing h
    simp only [handleCancelListing, h]
    refine ⟨by trivial, ?_, ?_, by trivial, by trivial⟩
    · apply List.map_congr_left
      intro p hp
      rcases eq_or_ne p.id listing.sellerId with hid | hid
      · rw [if_neg (by simp [hid]), if_pos hid]
      · rw [if_pos hid, if_neg hid]
    · intro p hp
      simp only [List.mem_map] at hp
      rcases hp with ⟨q, hq, rfl⟩
      rcases eq_or_ne q.id listing.sellerId with hid | hid
      · rw [if_neg (by simp [hid])]
        exact ⟨q, hq, rfl, rfl, rfl⟩
      · rw [if_pos hid]
        exact ⟨q, hq, rfl, rfl, rfl⟩

/-! ### Payout -/

/-- C2: a payout with no winning card in any hand signals a carry-over and
leaves the pot and every player untouched; otherwise every player is
credited `pot / totalWinningCards` per winning card held (a real-valued
division), hands are unchanged, and the pot becomes exactly 0. -/
theorem handlePayout_spec (s : GameState) (winningHorse : Nat) :
    ((s.players.map fun p =>
        (p.cards.filter fun c => c.value = winningHorse).length).sum = 0 →
      (handlePayout s winningHorse).players = s.players
      ∧ (handlePayout s winningHorse).pot = s.pot
      ∧ ((handlePayout s winningHorse).pendingSummary.map fun r => r.carryover) = some true)
    ∧ ((s.players.map fun p =>
        (p.cards.filter fun c => c.value = winningHorse).length).sum ≠ 0 →
      (handlePayout s winningHorse).pot = 0
      ∧ ((handlePayout s winningHorse).pendingSummary.map fun r => r.carryover) = some false
      ∧ (∀ i : Nat, (((handlePayout s winningHorse).players[i]?).map fun p => p.balance) =
          ((s.players[i]?).map fun p =>
            p.balance +
              (s.pot /
                  (((s.players.map fun q =>
                    (q.cards.filter fun c => c.value = winningHorse).length).sum : Nat) : ℚ)) *
                (((p.cards.filter fun c => c.value = winningHorse).length : Nat) : ℚ)))
      ∧ (∀ i : Nat, (((handlePayout s winningHorse).players[i]?).map fun p => p.cards) =
          ((s.players[i]?).map fun p => p.cards))) := by
  constructor
  · intro h
    refine ⟨?_, ?_, ?_⟩ <;>
      (simp only [handlePayout]; rw [if_pos h]; split <;> rfl)
  · intro h
    refine ⟨?_, ?_, ?_, ?_⟩
    · simp only [handlePayout]; rw [if_neg h]; split <;> rfl
    · simp only [handlePayout]; rw [if_neg h]; split <;> rfl
    · simp only [handlePayout]
      rw [if_neg h]
      have hbody : ∀ i : Nat,
          (((s.players.map fun p =>
              let matchCount : Nat := (p.cards.filter fun c => c.value = winningHorse).length
              if matchCount = 0 then p
              else
                { p with
                    balance := p.balance +
                      s.pot /
                          (((s.players.map fun q =>
                            (q.cards.filter fun c => c.value = winningHorse).length).sum :
                              Nat) : ℚ) *
                        (matchCount : ℚ) })[i]?).map fun p => p.balance) =
            ((s.players[i]?).map fun p =>
              p.balance +
                (s.pot /
                    (((s.players.map fun q =>
                      (q.cards.filter fun c => c.value = winningHorse).length).sum : Nat) : ℚ)) *
                  (((p.cards.filter fun c => c.value = winningHorse).length : Nat) : ℚ)) := by
        intro i
        rw [List.getElem?_map]
        cases hi : s.players[i]? with
        | none => rfl
        | some p =>
          simp only [Option.map_some', Option.map]
          rcases eq_or_ne ((p.cards.filter fun c => c.value = winningHorse).length) 0
            with h0 | h0
          · rw [if_pos h0, h0]
            simp
          · rw [if_neg h0]
      split <;> exact hbody
    · simp only [handlePayout]
      rw [if_neg h]
      have hbody : ∀ i : Nat,
          (((s.players.map fun p =>
              let matchCount : Nat := (p.cards.filter fun c => c.value = winningHorse).length
              if matchCount = 0 then p
              else
                { p with
                    balance := p.balance +
                      s.pot /
                          (((s.players.map fun q =>
                            (q.cards.filter fun c => c.value = winningHorse).length).sum :
                              Nat) : ℚ) *
                        (matchCount : ℚ) })[i]?).map fun p => p.cards) =
            ((s.players[i]?).map fun p => p.cards) := by
        intro i
        rw [List.getElem?_map]
        cases hi : s.players[i]? with
        | none => rfl
        | some p =>
          simp only [Option.map_some', Option.map]
          rcases eq_or_ne ((p.cards.filter fun c => c.value = winningHorse).length) 0
            with h0 | h0
          · rw [if_pos h0]
          · rw [if_neg h0]
      split <;> exact hbody

/-- C2 witness: paying out horse 7 of a fresh session with a pot of 200
zeroes the pot; with four winning cards across the hands each holder gains
50 per card. -/
theorem handlePayout_spec_witness :
    ((({ startGame Mode.half (fun i => i) with
          pot := 200 } : GameState).players.map fun p =>
        (p.cards.filter fun c => c.value = 7).length).sum ≠ 0)
    ∧ (handlePayout { startGame Mode.half (fun i => i) with pot := 200 } 7).pot = 0 :=
  ⟨by with_unfolding_all decide,
    ((handlePayout_spec { startGame Mode.half (fun i => i) with pot := 200 } 7).2
      (by with_unfolding_all decide)).1⟩

/-! ### Race rolls and the finish threshold -/

theorem handlePayout_horses (s : GameState) (w : Nat) :
    (handlePayout s w).horses = s.horses := by
  simp only [handlePayout]
  split <;> split <;> rfl

theorem handlePayout_phase (s : GameState) (w : Nat) :
    (handlePayout s w).phase = s.phase := by
  simp only [handlePayout]
  split <;> split <;> rfl

theorem handlePayout_winner (s : GameState) (w : Nat) :
    (handlePayout s w).winner = s.winner := by
  simp only [handlePayout]
  split <;> split <;> rfl

/-- C1 (amended): a race roll that hits a live horse advances its position
by 1, capped at `pegDistribution + 1` (one slot past the peg-hole count),
and the race finishes exactly when the new position reaches that cap — so
value 7 needs 8 advances to win and values 2 and 12 need 3, one more than
the peg-hole count. -/
theorem handleRaceRoll_live_spec (s : GameState) (total : Nat) (horse : Horse)
    (hfind : s.horses.find? (fun h => h.number = total) = some horse)
    (hnotscr : horse.scratched = false)
    (p : Player) (hp : s.players[s.currentPlayerIndex]? = some p)
    (hpe : p.eliminated = false) :
    ((handleRaceRoll s total).horses.find? (fun h => h.number = total) =
        some { horse with position := min (pegDistribution total + 1) (horse.position + 1) })
    ∧ (pegDistribution total + 1 ≤ horse.position + 1 →
        (handleRaceRoll s total).phase = GamePhase.finished
        ∧ (handleRaceRoll s total).winner = some total)
    ∧ (horse.position + 1 < pegDistribution total + 1 →
        (handleRaceRoll s total).phase = s.phase
        ∧ (handleRaceRoll s total).winner = s.winner) := by
  have hnum : horse.number = total := by
    have := List.find?_some hfind
    simpa using this
  have hmapfind :
      (s.horses.map fun h =>
          if h.number ≠ total then h
          else { h with position := min (pegDistribution total + 1) (h.position + 1) }).find?
          (fun h => h.number = total) =
        some { horse with position := min (pegDistribution total + 1) (horse.position + 1) } := by
    rw [List.find?_map]
    have hpred : ∀ h : Horse,
        (fun h : Horse => decide (h.number = total))
            ((fun h : Horse =>
              if h.number ≠ total then h
              else { h with position := min (pegDistribution total + 1) (h.position + 1) }) h) =
          decide (h.number = total) := by
      intro h
      rcases eq_or_ne h.number total with hh | hh
      · simp [hh]
      · simp [hh]
    rw [show ((fun h : Horse => decide (h.number = total)) ∘ fun h : Horse =>
        if h.number ≠ total then h
        else { h with position := min (pegDistribution total + 1) (h.position + 1) }) =
      (fun h : Horse => decide (h.number = total)) from funext hpred]
    rw [hfind]
    simp only [Option.map_some']
    rw [if_neg (by simp [hnum])]
  rcases Nat.lt_or_ge (horse.position + 1) (pegDistribution total + 1) with hlt | hge
  · -- the horse does not reach the cap: turn advances, phase unchanged
    have hmin : min (pegDistribution total + 1) (horse.position + 1) = horse.position + 1 :=
      Nat.min_eq_right (Nat.le_of_lt hlt)
    have hres : handleRaceRoll s total =
        advanceTurnWith s.players
          { s with horses := (s.horses.map fun h =>
              if h.number ≠ total then h
              else { h with position := min (pegDistribution total + 1) (h.position + 1) }) } := by
      simp only [handleRaceRoll, hfind, hp, hpe, Bool.false_eq_true, if_false,
        hnotscr, hmapfind]
      rw [if_neg (by
        show ¬(pegDistribution total + 1 ≤ min (pegDistribution total + 1) (horse.position + 1))
        omega)]
    constructor
    · rw [hres]
      unfold advanceTurnWith
      split <;> exact hmapfind
    · refine ⟨fun hcon => by omega, fun _ => ?_⟩
      rw [hres]
      unfold advanceTurnWith
      constructor <;> (split <;> rfl)
  · -- the horse reaches the cap: the race finishes and the payout runs
    have hmin : min (pegDistribution total + 1) (horse.position + 1) = pegDistribution total + 1 :=
      Nat.min_eq_left hge
    have hres : handleRaceRoll s total =
        handlePayout
          ({ s with
              phase := GamePhase.finished,
              winner := some total,
              horses := (s.horses.map fun h =>
                if h.number ≠ total then h
                else { h with position := min (pegDistribution total + 1) (h.position + 1) }) })
          total := by
      simp only [handleRaceRoll, hfind, hp, hpe, Bool.false_eq_true, if_false,
        hnotscr, hmapfind]
      rw [if_pos (by
        show pegDistribution total + 1 ≤ min (pegDistribution total + 1) (horse.position + 1)
        omega)]
    constructor
    · rw [hres, handlePayout_horses]
      exact hmapfind
    · refine ⟨fun _ => ?_, fun hcon => by omega⟩
      rw [hres, handlePayout_phase, handlePayout_winner]
      exact ⟨rfl, rfl⟩

/-- C1 witness: with horse 7 at position 6, a roll of 7 advances it to 7
(below the cap of 8) and the race does not finish. -/
theorem handleRaceRoll_live_spec_witness :
    (sRaceExample.horses.find? (fun h => h.number = 7) =
        some { number := 7, position := 6, scratched := false, scratchStep := none })
    ∧ ((handleRaceRoll sRaceExample 7).horses.find? (fun h => h.number = 7) =
        some { number := 7, position := 7, scratched := false, scratchStep := none })
    ∧ (handleRaceRoll sRaceExample 7).phase = GamePhase.race := by
  have h := handleRaceRoll_live_spec sRaceExample 7
    { number := 7, position := 6, scratched := false, scratchStep := none }
    (by with_unfolding_all decide) rfl
    { id := 1, name := "You", balance := 350, cards := [], eliminated := false }
    (by with_unfolding_all decide) rfl
  refine ⟨by with_unfolding_all decide, ?_, ?_⟩
  · have := h.1
    simpa using this
  · have := (h.2.2 (by decide)).1
    rw [this]
    rfl

/-- C1 counterexample: in a reachable race, horse 7 (peg-hole count 7) has
received 7 advances and stands at position 7, yet the race is not finished
and no winner is recorded; the 8th advance is the one that finishes it.  So
the finish threshold is the peg-hole count plus one, not the peg-hole
count. -/
theorem raceThreshold_counterexample :
    ((runEvents (startGame Mode.half (fun i => i)) traceC1).horses.find?
        (fun h => h.number = 7)).map (fun h => h.position) = some 7
    ∧ pegDistribution 7 = 7
    ∧ (runEvents (startGame Mode.half (fun i => i)) traceC1).phase = GamePhase.race
    ∧ (runEvents (startGame Mode.half (fun i => i)) traceC1).winner = none
    ∧ (runEvents (startGame Mode.half (fun i => i))
        (traceC1 ++ [GameEvent.roll 3 4])).phase = GamePhase.finished
    ∧ (runEvents (startGame Mode.half (fun i => i))
        (traceC1 ++ [GameEvent.roll 3 4])).winner = some 7 := by
  with_unfolding_all decide

theorem applyBailout_tradeBuyCounts (s : GameState) (ps : List Player) :
    (applyBailoutIfNeeded s ps).tradeBuyCounts = s.tradeBuyCounts := by
  cases hm : s.gameMode <;> simp only [applyBailoutIfNeeded, applyBailoutPlayers, hm]

theorem applyBailout_tradeSellCounts (s : GameState) (ps : List Player) :
    (applyBailoutIfNeeded s ps).tradeSellCounts = s.tradeSellCounts := by
  cases hm : s.gameMode <;> simp only [applyBailoutIfNeeded, applyBailoutPlayers, hm]

theorem lookupCount_setCount_self (m : List (Nat × Nat)) (id v : Nat) :
    lookupCount (setCount m id v) id = v := by
  simp [lookupCount, setCount, List.find?_cons_of_pos]

/-- C7: buying a listing at the fixed price of 30 is silently rejected (no
state change) when the listing is unknown or is the human's own, the buyer
is eliminated, lacks funds, or has made 2 buys already, or the seller has
sold 2 already; a successful buy debits the buyer 30, credits the seller 30,
moves the listed card into the buyer's hand, runs bailout/elimination
resolution on that snapshot, removes the listing and advances both caps; and
cancelling an unsold listing returns the card to its original seller with
every balance unchanged. -/
theorem handleBuyListing_spec (s : GameState) (listingId : Nat) :
    (s.tradeListings.find? (fun e => e.id = listingId) = none →
      handleBuyListing s listingId = s)
    ∧ (∀ listing, s.tradeListings.find? (fun e => e.id = listingId) = some listing →
        (listing.sellerId = 1 → handleBuyListing s listingId = s)
        ∧ (s.players.find? (fun p => p.id = 1) = none → handleBuyListing s listingId = s)
        ∧ (∀ buyer, s.players.find? (fun p => p.id = 1) = some buyer →
            (buyer.eliminated = true → handleBuyListing s listingId = s)
            ∧ (buyer.balance < LISTING_PRICE → handleBuyListing s listingId = s)
            ∧ (MAX_TRADES_PER_PLAYER ≤ lookupCount s.tradeBuyCounts buyer.id →
                handleBuyListing s listingId = s)
            ∧ (MAX_TRADES_PER_PLAYER ≤ lookupCount s.tradeSellCounts listing.sellerId →
                handleBuyListing s listingId = s)
            ∧ (listing.sellerId ≠ 1 → buyer.eliminated = false →
                LISTING_PRICE ≤ buyer.balance →
                lookupCount s.tradeBuyCounts buyer.id < MAX_TRADES_PER_PLAYER →
                lookupCount s.tradeSellCounts listing.sellerId < MAX_TRADES_PER_PLAYER →
                (handleBuyListing s listingId).players =
                    (applyBailoutIfNeeded s (s.players.map fun p =>
                      if p.id = buyer.id then
                        { p with balance := p.balance - LISTING_PRICE,
                                 cards := p.cards ++ [listing.card] }
                      else if p.id = listing.sellerId then
                        { p with balance := p.balance + LISTING_PRICE }
                      else p)).players
                ∧ (handleBuyListing s listingId).tradeListings =
                    ((applyBailoutIfNeeded s (s.players.map fun p =>
                      if p.id = buyer.id then
                        { p with balance := p.balance - LISTING_PRICE,
                                 cards := p.cards ++ [listing.card] }
                      else if p.id = listing.sellerId then
                        { p with balance := p.balance + LISTING_PRICE }
                      else p)).tradeListings.filter fun e => e.id ≠ listing.id)
                ∧ lookupCount (handleBuyListing s listingId).tradeBuyCounts buyer.id =
                    lookupCount s.tradeBuyCounts buyer.id + 1
                ∧ lookupCount (handleBuyListing s listingId).tradeSellCounts listing.sellerId =
                    lookupCount s.tradeSellCounts listing.sellerId + 1)))
    ∧ (∀ listing, s.tradeListings.find? (fun e => e.id = listingId) = some listing →
        ((handleCancelListing s listingId).players.map fun p => p.balance) =
            (s.players.map fun p => p.balance)
        ∧ (∀ i : Nat, ∀ p : Player, s.players[i]? = some p → p.id = listing.sellerId →
            ((handleCancelListing s listingId).players[i]?).map (fun q => q.cards) =
              some (p.cards ++ [listing.card]))) := by
  refine ⟨?_, ?_, ?_⟩
  · intro h
    simp only [handleBuyListing, h]
  · intro listing h
    refine ⟨?_, ?_, ?_⟩
    · intro h1
      simp only [handleBuyListing, h, h1]
      simp
    · intro h2
      simp only [handleBuyListing, h, h2]
      split <;> rfl
    · intro buyer hbuyer
      refine ⟨?_, ?_, ?_, ?_, ?_⟩
      · intro he
        simp only [handleBuyListing, h, hbuyer]
        split_ifs <;> first | rfl | (exfalso; simp_all)
      · intro hfunds
        simp only [handleBuyListing, h, hbuyer]
        split_ifs <;> first | rfl | (exfalso; simp_all)
      · intro hcap
        simp only [handleBuyListing, h, hbuyer]
        split_ifs <;> first | rfl | (exfalso; simp_all)
      · intro hcap
        simp only [handleBuyListing, h, hbuyer]
        split_ifs <;> first | rfl | (exfalso; simp_all)
      · intro hns he hfunds hbcap hscap
        have hsucc : handleBuyListing s listingId =
            (let s1 := applyBailoutIfNeeded s (s.players.map fun p =>
              if p.id = buyer.id then
                { p with balance := p.balance - LISTING_PRICE,
                         cards := p.cards ++ [listing.card] }
              else if p.id = listing.sellerId then
                { p with balance := p.balance + LISTING_PRICE }
              else p)
            { s1 with
                tradeListings := s1.tradeListings.filter fun e => e.id ≠ listing.id,
                tradeBuyCounts := setCount s1.tradeBuyCounts buyer.id
                  (lookupCount s1.tradeBuyCounts buyer.id + 1),
                tradeSellCounts := setCount s1.tradeSellCounts listing.sellerId
                  (lookupCount s1.tradeSellCounts listing.sellerId + 1) }) := by
          simp only [handleBuyListing, h, hbuyer]
          rw [if_neg hns, if_neg (by simp [he, not_lt.mpr hfunds]),
            if_neg (by omega), if_neg (by omega)]
        rw [hsucc]
        refine ⟨rfl, rfl, ?_, ?_⟩
        · simp only [applyBailout_tradeBuyCounts]
          exact lookupCount_setCount_self _ _ _
        · simp only [applyBailout_tradeSellCounts]
          exact lookupCount_setCount_self _ _ _
  · intro listing h
    constructor
    · simp only [handleCancelListing, h]
      rw [List.map_map]
      apply List.map_congr_left
      intro p hp
      simp only [Function.comp]
      split <;> rfl
    · intro i p hp hpid
      simp only [handleCancelListing, h]
      rw [List.getElem?_map, hp]
      simp only [Option.map_some']
      rw [if_neg (by simp [hpid])]

/-- C7 witness: buying the open listing of seller 2 in the concrete trade
state succeeds: the buy cap of the buyer and the sell cap of the seller each
advance by one. -/
theorem handleBuyListing_spec_witness :
    sMarketExample.tradeListings.find? (fun e => e.id = 1) =
        some { id := 1, card := { value := 7, suit := 0 }, sellerId := 2 }
    ∧ lookupCount (handleBuyListing sMarketExample 1).tradeBuyCounts 1 =
        lookupCount sMarketExample.tradeBuyCounts 1 + 1
    ∧ lookupCount (handleBuyListing sMarketExample 1).tradeSellCounts 2 =
        lookupCount sMarketExample.tradeSellCounts 2 + 1 := by
  have hfind : sMarketExample.tradeListings.find? (fun e => e.id = 1) =
      some { id := 1, card := { value := 7, suit := 0 }, sellerId := 2 } := by rfl
  have hbuyer : sMarketExample.players.find? (fun p => p.id = 1) =
      some ((startGame Mode.half (fun i => i)).players.getD 0 defaultPlayer) := by
    with_unfolding_all decide
  have h := ((handleBuyListing_spec sMarketExample 1).2.1
    { id := 1, card := { value := 7, suit := 0 }, sellerId := 2 } hfind).2.2
    ((startGame Mode.half (fun i => i)).players.getD 0 defaultPlayer) hbuyer
  have hs := h.2.2.2.2 (by decide) (by with_unfolding_all decide)
    (by with_unfolding_all decide) (by with_unfolding_all decide)
    (by with_unfolding_all decide)
  have hid : ((startGame Mode.half (fun i => i)).players.getD 0 defaultPlayer).id = 1 := by
    with_unfolding_all decide
  refine ⟨hfind, ?_, ?_⟩
  · have hb := hs.2.2.1
    rw [hid] at hb
    rw [hb]
  · rw [hs.2.2.2]

/-! ### Scratch-phase invariant -/

theorem applyBailout_horses (s : GameState) (ps : List Player) :
    (applyBailoutIfNeeded s ps).horses = s.horses := by
  cases hm : s.gameMode <;> simp only [applyBailoutIfNeeded, applyBailoutPlayers, hm]

theorem applyBailout_phase (s : GameState) (ps : List Player) :
    (applyBailoutIfNeeded s ps).phase = s.phase := by
  cases hm : s.gameMode <;> simp only [applyBailoutIfNeeded, applyBailoutPlayers, hm]

theorem applyBailout_scratchHistory (s : GameState) (ps : List Player) :
    (applyBailoutIfNeeded s ps).scratchHistory = s.scratchHistory := by
  cases hm : s.gameMode <;> simp only [applyBailoutIfNeeded, applyBailoutPlayers, hm]

theorem scratchInv_congr (t u : GameState) (hh : t.horses = u.horses)
    (hp : t.phase = u.phase) (hs : t.scratchHistory = u.scratchHistory)
    (hinv : ScratchInv u) : ScratchInv t := by
  exact ⟨by rw [hs]; exact hinv.hist_nodup,
    by rw [hs]; exact hinv.hist_len,
    by rw [hp, hs]; exact hinv.phase_iff,
    by rw [hp]; exact hinv.phase_or,
    by rw [hh, hs]; exact hinv.horses_scr,
    by rw [hh, hs]; exact hinv.horses_step,
    by rw [hh]; exact hinv.horses_nodup⟩

theorem scratchInv_advanceTurnWith (ps : List Player) (t : GameState)
    (hinv : ScratchInv t) : ScratchInv (advanceTurnWith ps t) := by
  unfold advanceTurnWith
  split
  · exact hinv
  · exact scratchInv_congr _ t rfl rfl rfl hinv

theorem scratchInv_chargeRoller (s : GameState) (horse : Horse)
    (hinv : ScratchInv s) : ScratchInv (chargeRollerForScratched s horse) := by
  simp only [chargeRollerForScratched]
  split
  · apply scratchInv_advanceTurnWith
    exact scratchInv_congr _ s (applyBailout_horses _ _) (applyBailout_phase _ _)
      (applyBailout_scratchHistory _ _) hinv
  · exact scratchInv_advanceTurnWith _ _ hinv

theorem scratchInv_handleScratchRoll (s : GameState) (total : Nat)
    (hinv : ScratchInv s) (hphase : s.phase = GamePhase.scratch) :
    ScratchInv (handleScratchRoll s total) := by
  cases hfind : s.horses.find? (fun h => h.number = total) with
  | none =>
    simp only [handleScratchRoll, hfind]
    exact hinv
  | some horse =>
    have hmem : horse ∈ s.horses := List.mem_of_find?_eq_some hfind
    have hnum : horse.number = total := by simpa using List.find?_some hfind
    cases hp : s.players[s.currentPlayerIndex]? with
    | none =>
      simp only [handleScratchRoll, hfind, hp]
      exact scratchInv_advanceTurnWith _ _ hinv
    | some currentPlayer =>
      cases helim : currentPlayer.eliminated with
      | true =>
        simp only [handleScratchRoll, hfind, hp, helim, if_true]
        exact scratchInv_advanceTurnWith _ _ hinv
      | false =>
        cases hscr : horse.scratched with
        | true =>
          simp only [handleScratchRoll, hfind, hp, helim, hscr, Bool.false_eq_true,
            if_false, if_true]
          exact scratchInv_chargeRoller _ _ hinv
        | false =>
          simp only [handleScratchRoll, hfind, hp, helim, hscr, Bool.false_eq_true,
            if_false]
          apply scratchInv_advanceTurnWith
          have hnotin : horse.number ∉ s.scratchHistory := by
            intro hcon
            have h2 := (hinv.horses_scr horse hmem).mpr hcon
            rw [h2] at hscr
            exact Bool.noConfusion hscr
          have hlen : s.scratchHistory.length < 4 := hinv.phase_iff.mp hphase
          set hist := s.scratchHistory with hhist
          refine ⟨?_, ?_, ?_, ?_, ?_, ?_, ?_⟩
          · -- nodup of the extended history
            show (hist ++ [total]).Nodup
            rw [List.nodup_append]
            refine ⟨hinv.hist_nodup, List.nodup_singleton total, ?_⟩
            intro a ha hb
            simp only [List.mem_singleton] at hb
            subst hb
            rw [← hnum] at ha
            exact hnotin ha
          · show (hist ++ [total]).length ≤ 4
            simp only [List.length_append, List.length_singleton]
            omega
          · show (if hist.length + 1 ≥ 4 then GamePhase.trade
                else (applyBailoutIfNeeded s _).phase) = GamePhase.scratch ↔
              (hist ++ [total]).length < 4
            rw [applyBailout_phase]
            simp only [List.length_append, List.length_singleton]
            split
            · constructor
              · intro hcon; exact absurd hcon (by simp)
              · intro hcon; omega
            · rw [hphase]
              constructor
              · intro _; omega
              · intro _; rfl
          · show (if hist.length + 1 ≥ 4 then GamePhase.trade
                else (applyBailoutIfNeeded s _).phase) = GamePhase.scratch ∨
              (if hist.length + 1 ≥ 4 then GamePhase.trade
                else (applyBailoutIfNeeded s _).phase) = GamePhase.trade
            rw [applyBailout_phase]
            split
            · right; rfl
            · left; exact hphase
          · intro h hmem2
            simp only [List.mem_map] at hmem2
            rcases hmem2 with ⟨h0, hh0, rfl⟩
            by_cases hcase : h0.number = total
            · rw [if_pos hcase]
              simp only [List.mem_append, List.mem_singleton]
              constructor
              · intro _; right; exact hcase
              · intro _; trivial
            · rw [if_neg hcase]
              rw [hinv.horses_scr h0 hh0]
              simp only [List.mem_append, List.mem_singleton]
              constructor
              · intro hx; left; exact hx
              · rintro (hx | hx)
                · exact hx
                · exact absurd hx hcase
          · intro h hmem2 i hi
            simp only [List.mem_map] at hmem2
            rcases hmem2 with ⟨h0, hh0, rfl⟩
            have hnumeq : ((if h0.number = total then
                { h0 with scratched := true, scratchStep := some (hist.length + 1) }
              else h0) : Horse).number = h0.number := by
              split <;> rfl
            rw [hnumeq] at hi
            have hnotin2 : total ∉ hist := by rw [← hnum]; exact hnotin
            by_cases hcase : h0.number = total
            · rw [if_pos hcase]
              rcases Nat.lt_trichotomy i hist.length with hlt | heq | hgt
              · rw [List.getElem?_append_left hlt, hcase] at hi
                exact absurd (hist.getElem?_mem hi) hnotin2
              · subst heq
                rfl
              · rw [List.getElem?_append_right (by omega)] at hi
                rw [List.getElem?_eq_none (by simp only [List.length_singleton]; omega)] at hi
                exact absurd hi (by simp)
            · rw [if_neg hcase]
              rcases Nat.lt_trichotomy i hist.length with hlt | heq | hgt
              · rw [List.getElem?_append_left hlt] at hi
                exact hinv.horses_step h0 hh0 i hi
              · exfalso
                rw [heq, List.getElem?_append_right (by omega), Nat.sub_self] at hi
                simp only [List.getElem?_cons_zero, Option.some_inj] at hi
                exact hcase hi.symm
              · rw [List.getElem?_append_right (by omega)] at hi
                rw [List.getElem?_eq_none (by simp only [List.length_singleton]; omega)] at hi
                exact absurd hi (by simp)
          · show ((s.horses.map fun h =>
                if h.number = total then
                  { h with scratched := true, scratchStep := some (hist.length + 1) }
                else h).map fun h => h.number).Nodup
            rw [List.map_map]
            have : ((fun h : Horse => h.number) ∘ fun h : Horse =>
                if h.number = total then
                  { h with scratched := true, scratchStep := some (hist.length + 1) }
                else h) = fun h : Horse => h.number := by
              funext h
              simp only [Function.comp]
              split <;> rfl
            rw [this]
            exact hinv.horses_nodup

theorem scratchInv_rollStep (s : GameState) (d1 d2 : Nat) (hinv : ScratchInv s) :
    ScratchInv (applyEvent (applyEvent s (GameEvent.roll d1 d2)) GameEvent.animationUnlock) := by
  have hroll : ScratchInv (rollDice s d1 d2) := by
    rw [rollDice]
    split
    · simp only [handleRoll]
      split
      · exact hinv
      · rename_i hguard
        have hphase : s.phase = GamePhase.scratch := by
          rcases hinv.phase_or with h | h
          · exact h
          · exact absurd (Or.inr (Or.inr (Or.inl h))) hguard
        rw [if_pos hphase]
        apply scratchInv_handleScratchRoll
        · exact scratchInv_congr _ s rfl rfl rfl hinv
        · exact hphase
    · exact hinv
  exact scratchInv_congr _ (rollDice s d1 d2) rfl rfl rfl hroll

theorem scratchInv_run (rolls : List (Nat × Nat)) :
    ∀ s0 : GameState, ScratchInv s0 → ScratchInv (scratchRun s0 rolls) := by
  induction rolls with
  | nil => intro s0 h; exact h
  | cons d rest ih =>
    intro s0 h
    exact ih _ (scratchInv_rollStep s0 d.1 d.2 h)

theorem freshScratch_inv (s : GameState) (h : FreshScratchState s) : ScratchInv s := by
  rcases h with ⟨hh, hs, hp⟩
  refine ⟨by rw [hs]; exact List.nodup_nil, by rw [hs]; simp, ?_, Or.inl hp, ?_, ?_, ?_⟩
  · rw [hp, hs]; simp
  · intro h0 hmem
    rw [hh] at hmem
    simp only [initialiseHorses, List.mem_map] at hmem
    rcases hmem with ⟨lane, _, rfl⟩
    rw [hs]
    simp
  · intro h0 hmem i hi
    rw [hs] at hi
    simp at hi
  · rw [hh]
    decide

/-- C4: across any sequence of scratch rolls within one race, the scratch
history stays duplicate-free with at most 4 entries, each scratched horse
carries the scratch step equal to its 1-based position in the history (so
the steps are exactly 1..4 in roll order, never reused), the phase stays
`scratch` exactly while fewer than 4 horses are scratched, and it is `trade`
exactly once the 4th distinct horse has been scratched — after which further
rolls resolve no more scratches. -/
theorem scratchPhase_spec (s0 : GameState) (hfresh : FreshScratchState s0)
    (rolls : List (Nat × Nat)) :
    (scratchRun s0 rolls).scratchHistory.Nodup
    ∧ (scratchRun s0 rolls).scratchHistory.length ≤ 4
    ∧ (∀ h ∈ (scratchRun s0 rolls).horses,
        h.scratched = true ↔ h.number ∈ (scratchRun s0 rolls).scratchHistory)
    ∧ (∀ h ∈ (scratchRun s0 rolls).horses, ∀ i : Nat,
        (scratchRun s0 rolls).scratchHistory[i]? = some h.number →
          h.scratchStep = some (i + 1))
    ∧ ((scratchRun s0 rolls).phase = GamePhase.scratch ↔
        (scratchRun s0 rolls).scratchHistory.length < 4)
    ∧ ((scratchRun s0 rolls).phase = GamePhase.trade ↔
        (scratchRun s0 rolls).scratchHistory.length = 4) := by
  have hinv := scratchInv_run rolls s0 (freshScratch_inv s0 hfresh)
  refine ⟨hinv.hist_nodup, hinv.hist_len, hinv.horses_scr, hinv.horses_step,
    hinv.phase_iff, ?_, ?_⟩
  · intro htrade
    have hns : ¬((scratchRun s0 rolls).phase = GamePhase.scratch) := by
      rw [htrade]; intro hcon; exact GamePhase.noConfusion hcon
    have h1 : ¬((scratchRun s0 rolls).scratchHistory.length < 4) := fun hlt =>
      hns (hinv.phase_iff.mpr hlt)
    have h2 := hinv.hist_len
    omega
  · intro hlen4
    have hns : ¬((scratchRun s0 rolls).phase = GamePhase.scratch) := by
      intro hcon
      have := hinv.phase_iff.mp hcon
      omega
    rcases hinv.phase_or with h | h
    · exact absurd h hns
    · exact h

/-- C4 witness: two scratch rolls from a fresh half-day session keep the
invariant; evaluated here on a concrete roll list. -/
theorem scratchPhase_spec_witness :
    FreshScratchState (startGame Mode.half (fun i => i))
    ∧ (scratchRun (startGame Mode.half (fun i => i)) [(1, 1), (1, 2)]).scratchHistory.Nodup
    ∧ ((scratchRun (startGame Mode.half (fun i => i)) [(1, 1), (1, 2)]).phase =
        GamePhase.scratch ↔
      (scratchRun (startGame Mode.half (fun i => i)) [(1, 1), (1, 2)]).scratchHistory.length
        < 4) :=
  ⟨⟨rfl, rfl, rfl⟩,
    (scratchPhase_spec (startGame Mode.half (fun i => i)) ⟨rfl, rfl, rfl⟩ [(1, 1), (1, 2)]).1,
    (scratchPhase_spec (startGame Mode.half (fun i => i))
      ⟨rfl, rfl, rfl⟩ [(1, 1), (1, 2)]).2.2.2.2.1⟩

/-! ### Bailout and elimination -/

/-- C3: bailout-and-elimination resolution.  The bailout amount is 100 in
half-day mode and 200 in full-day mode.  A non-eliminated player with
non-positive balance and unused bailout is credited the amount and marked
used; if the balance is still non-positive afterwards (or the bailout was
already used) the player is eliminated with balance forced to 0 and hand
emptied.  A player with positive balance is untouched.  Open listings of
newly eliminated sellers are dropped from the market, and no card is ever
returned to any hand by this resolution. -/
theorem applyBailout_spec (s : GameState) (ps : List Player) (mode : Mode)
    (hmode : s.gameMode = some mode) :
    ((mode = Mode.half → bailoutAmount mode = 100)
      ∧ (mode = Mode.full → bailoutAmount mode = 200))
    ∧ (∀ i : Nat, ∀ p : Player, ps[i]? = some p → p.eliminated = false →
        ((p.balance ≤ 0 ∧ p.id ∉ s.bailoutUsedByPlayer →
            (applyBailoutIfNeeded s ps).players[i]? =
              some (if p.balance + bailoutAmount mode ≤ 0 then
                      { p with balance := 0, cards := [], eliminated := true }
                    else { p with balance := p.balance + bailoutAmount mode })
            ∧ p.id ∈ (applyBailoutIfNeeded s ps).bailoutUsedByPlayer)
        ∧ (p.balance ≤ 0 ∧ p.id ∈ s.bailoutUsedByPlayer →
            (applyBailoutIfNeeded s ps).players[i]? =
              some { p with balance := 0, cards := [], eliminated := true })
        ∧ (0 < p.balance → (applyBailoutIfNeeded s ps).players[i]? = some p)))
    ∧ (∀ l ∈ s.tradeListings,
        l.sellerId ∈ bailoutElimIds (bailoutAmount mode) s.bailoutUsedByPlayer ps →
          l ∉ (applyBailoutIfNeeded s ps).tradeListings)
    ∧ (∀ i : Nat, ∀ p p' : Player, ps[i]? = some p →
        (applyBailoutIfNeeded s ps).players[i]? = some p' →
          p'.cards = p.cards ∨ p'.cards = []) := by
  refine ⟨⟨fun h => by rw [h]; rfl, fun h => by rw [h]; rfl⟩, ?_, ?_, ?_⟩
  · intro i p hp helim
    have hmem : p ∈ ps := ps.getElem?_mem hp
    have hplayers : (applyBailoutIfNeeded s ps).players =
        ps.map (bailoutPlayer (bailoutAmount mode) s.bailoutUsedByPlayer) := by
      simp only [applyBailoutIfNeeded, applyBailoutPlayers, hmode]
    have hused : (applyBailoutIfNeeded s ps).bailoutUsedByPlayer =
        s.bailoutUsedByPlayer ++ bailoutUsedIds s.bailoutUsedByPlayer ps := by
      simp only [applyBailoutIfNeeded, applyBailoutPlayers, hmode]
    refine ⟨?_, ?_, ?_⟩
    · rintro ⟨hbal, hnotused⟩
      have hcred : bailoutCredited s.bailoutUsedByPlayer p = true := by
        simp [bailoutCredited, helim, hbal, hnotused]
      constructor
      · rw [hplayers, List.getElem?_map, hp]
        simp only [Option.map_some']
        congr 1
        rw [bailoutPlayer, if_neg (by simp [helim]), hcred]
        simp
      · rw [hused]
        refine List.mem_append.mpr (Or.inr ?_)
        simp only [bailoutUsedIds, List.mem_map]
        exact ⟨p, List.mem_filter.mpr ⟨hmem, hcred⟩, rfl⟩
    · rintro ⟨hbal, husedp⟩
      have hcred : bailoutCredited s.bailoutUsedByPlayer p = false := by
        simp [bailoutCredited, helim, hbal, husedp]
      rw [hplayers, List.getElem?_map, hp]
      simp only [Option.map_some']
      congr 1
      rw [bailoutPlayer, if_neg (by simp [helim]), hcred]
      simp [hbal]
    · intro hbal
      have hcred : bailoutCredited s.bailoutUsedByPlayer p = false := by
        simp only [bailoutCredited, helim, Bool.not_false, Bool.true_and]
        simp [not_le.mpr hbal]
      rw [hplayers, List.getElem?_map, hp]
      simp only [Option.map_some']
      congr 1
      rw [bailoutPlayer, if_neg (by simp [helim]), hcred]
      have hnb : ¬(p.balance ≤ 0) := not_le.mpr hbal
      simp [hnb]
  · intro l hl hel
    have hlist : (applyBailoutIfNeeded s ps).tradeListings =
        s.tradeListings.filter fun e =>
          !(bailoutElimIds (bailoutAmount mode) s.bailoutUsedByPlayer ps).contains e.sellerId := by
      simp only [applyBailoutIfNeeded, applyBailoutPlayers, hmode]
    rw [hlist]
    intro hmem
    rcases List.mem_filter.mp hmem with ⟨_, hkeep⟩
    simp [hel] at hkeep
  · intro i p p' hp hp'
    have hplayers : (applyBailoutIfNeeded s ps).players =
        ps.map (bailoutPlayer (bailoutAmount mode) s.bailoutUsedByPlayer) := by
      simp only [applyBailoutIfNeeded, applyBailoutPlayers, hmode]
    rw [hplayers, List.getElem?_map, hp] at hp'
    simp only [Option.map_some', Option.some_inj] at hp'
    subst hp'
    rw [bailoutPlayer]
    rcases hpe : p.eliminated with hfalse | htrue
    · simp only [Bool.false_eq_true, if_false]
      rcases hc : bailoutCredited s.bailoutUsedByPlayer p with h1 | h1 <;>
        simp only [Bool.false_eq_true, if_false, if_true] <;> split <;> simp
    · simp

/-- C3 witness: the half-day player at -15 is credited 100 (ending at 85)
and marked used; dropping later to -5 with the bailout spent eliminates the
player immediately with balance forced to 0 and hand emptied. -/
theorem applyBailout_spec_witness :
    (applyBailoutIfNeeded sBailoutA [pBailoutA]).players[0]? =
        some { pBailoutA with balance := 85 }
    ∧ 2 ∈ (applyBailoutIfNeeded sBailoutA [pBailoutA]).bailoutUsedByPlayer
    ∧ (applyBailoutIfNeeded sBailoutB [pBailoutB]).players[0]? =
        some { pBailoutB with balance := 0, cards := [], eliminated := true } := by
  have hA := (applyBailout_spec sBailoutA [pBailoutA] Mode.half rfl).2.1 0 pBailoutA rfl rfl
  have hA1 := hA.1 ⟨by norm_num [pBailoutA], by decide⟩
  have hB := (applyBailout_spec sBailoutB [pBailoutB] Mode.half rfl).2.1 0 pBailoutB rfl rfl
  have hB1 := hB.2.1 ⟨by norm_num [pBailoutB], by decide⟩
  refine ⟨?_, hA1.2, hB1⟩
  rw [hA1.1, if_neg (by norm_num [pBailoutA, bailoutAmount])]
  norm_num [pBailoutA, bailoutAmount]

/-- C10 witness: cancelling the AI player's listing removes it and returns
its card to that seller. -/
theorem handleCancelListing_spec_witness :
    sMarketExample.tradeListings.find? (fun e => e.id = 1) =
        some { id := 1, card := { value := 7, suit := 0 }, sellerId := 2 }
    ∧ ((handleCancelListing sMarketExample 1).tradeListings =
          sMarketExample.tradeListings.filter (fun e => e.id ≠ 1)
        ∧ (handleCancelListing sMarketExample 1).players =
            sMarketExample.players.map (fun p =>
              if p.id = 2 then
                { p with cards := p.cards ++ [{ value := 7, suit := 0 }] }
              else p)
        ∧ (∀ p ∈ (handleCancelListing sMarketExample 1).players, ∃ q ∈ sMarketExample.players,
            p.id = q.id ∧ p.balance = q.balance ∧ p.eliminated = q.eliminated)
        ∧ (handleCancelListing sMarketExample 1).phase = sMarketExample.phase
        ∧ (handleCancelListing sMarketExample 1).pot = sMarketExample.pot) :=
  ⟨by rfl,
    (handleCancelListing_spec sMarketExample 1).2
      { id := 1, card := { value := 7, suit := 0 }, sellerId := 2 } (by rfl)⟩

theorem standingsLe_refl (a : Player) : standingsLe a a = true := by
  simp [standingsLe]

theorem standingsLe_total (a b : Player) : (standingsLe a b || standingsLe b a) = true := by
  unfold standingsLe
  by_cases h : a.eliminated = b.eliminated
  · simp [h]; exact le_total b.balance a.balance
  · cases ha : a.eliminated <;> cases hb : b.eliminated <;> simp_all

theorem standingsLe_trans (a b c : Player) (hab : standingsLe a b = true)
    (hbc : standingsLe b c = true) : standingsLe a c = true := by
  unfold standingsLe at *
  cases ha : a.eliminated <;> cases hb : b.eliminated <;> cases hc : c.eliminated <;>
    simp_all <;> exact le_trans hbc hab

theorem standStep_eq_append (ps : List Player) (acc : List FinalStanding) (q : Player) :
    ∃ r, standStep ps acc q = acc ++ [⟨q.id, q.name, q.balance, r⟩] := ⟨_, rfl⟩

theorem standFold_extends (ps : List Player) (l : List Player) :
    ∀ acc : List FinalStanding, ∃ t, l.foldl (standStep ps) acc = acc ++ t := by
  induction l with
  | nil => intro acc; exact ⟨[], (List.append_nil acc).symm⟩
  | cons q rest ih =>
    intro acc
    obtain ⟨t, ht⟩ := ih (standStep ps acc q)
    obtain ⟨r, he⟩ := standStep_eq_append ps acc q
    rw [List.foldl_cons, ht, he, List.append_assoc]
    exact ⟨[⟨q.id, q.name, q.balance, r⟩] ++ t, rfl⟩

theorem standFold_length (ps : List Player) (l : List Player) :
    ∀ acc : List FinalStanding, (l.foldl (standStep ps) acc).length = acc.length + l.length := by
  induction l with
  | nil => intro acc; simp
  | cons q rest ih =>
    intro acc
    rw [List.foldl_cons, ih]
    simp [standStep]
    omega

theorem standFold_core (ps : List Player) (l : List Player) :
    ∀ (acc : List FinalStanding) (i : Nat),
      ((l.foldl (standStep ps) acc)[acc.length + i]?).map
          (fun e => (e.playerId, e.name, e.balance)) =
        (l[i]?).map (fun q => (q.id, q.name, q.balance)) := by
  induction l with
  | nil =>
    intro acc i
    rw [List.foldl_nil, List.getElem?_eq_none (by omega)]
    simp
  | cons q rest ih =>
    intro acc i
    rw [List.foldl_cons]
    obtain ⟨r, he⟩ := standStep_eq_append ps acc q
    have hl : (standStep ps acc q).length = acc.length + 1 := by rw [he]; simp
    cases i with
    | zero =>
      obtain ⟨t, ht⟩ := standFold_extends ps rest (standStep ps acc q)
      rw [ht, he, List.append_assoc, Nat.add_zero,
        List.getElem?_append_right (Nat.le_refl _), Nat.sub_self]
      simp
    | succ i' =>
      have hih := ih (standStep ps acc q) i'
      rw [hl] at hih
      rw [(by omega : acc.length + (i' + 1) = acc.length + 1 + i'), hih,
        List.getElem?_cons_succ]

theorem standFold_rank_first (ps : List Player) (l : List Player) :
    ∀ a, (l.foldl (standStep ps) [])[0]? = some a → a.rank = 1 := by
  induction l using List.reverseRecOn with
  | nil => intro a ha; simp at ha
  | append_singleton l q ihl =>
    intro a ha
    rw [List.foldl_append, List.foldl_cons, List.foldl_nil] at ha
    obtain ⟨r, he⟩ := standStep_eq_append ps (l.foldl (standStep ps) []) q
    rw [he] at ha
    cases hR : (l.foldl (standStep ps) [])[0]? with
    | some a0 =>
      have hlt : 0 < (l.foldl (standStep ps) []).length := by
        by_contra h
        rw [List.getElem?_eq_none (by omega)] at hR
        exact Option.noConfusion hR
      rw [List.getElem?_append, if_pos hlt] at ha
      exact ihl a ha
    | none =>
      have hz : (l.foldl (standStep ps) []).length ≤ 0 := List.getElem?_eq_none_iff.mp hR
      have hnil : l.foldl (standStep ps) [] = [] :=
        List.eq_nil_of_length_eq_zero (by omega)
      rw [hnil] at ha he
      simp only [List.nil_append, List.getElem?_cons_zero, Option.some.injEq] at ha
      cases ha
      simp only [standStep, List.getLast?_nil, List.nil_append] at he
      simp at he
      simp [he]

theorem standFold_rank_consec (ps : List Player) (l : List Player) :
    ∀ i a b q, (l.foldl (standStep ps) [])[i]? = some a →
      (l.foldl (standStep ps) [])[i + 1]? = some b → l[i + 1]? = some q →
      b.rank = if (round (a.balance * 100) = round (q.balance * 100) ∧
          eliminatedById ps a.playerId = q.eliminated) then a.rank else i + 2 := by
  induction l using List.reverseRecOn with
  | nil => intro i a b q _ _ hq; simp at hq
  | append_singleton l q0 ihl =>
    intro i a b q ha hb hq
    rw [List.foldl_append, List.foldl_cons, List.foldl_nil] at ha hb
    obtain ⟨r, he⟩ := standStep_eq_append ps (l.foldl (standStep ps) []) q0
    rw [he] at ha hb
    have hRlen : (l.foldl (standStep ps) []).length = l.length := by
      have := standFold_length ps l []
      simpa using this
    have hblt : i + 1 < (l.foldl (standStep ps) []).length + 1 := by
      by_contra hcon
      rw [List.getElem?_eq_none (by simp; omega)] at hb
      exact Option.noConfusion hb
    by_cases hcase : i + 1 < (l.foldl (standStep ps) []).length
    · rw [List.getElem?_append, if_pos (by omega)] at ha
      rw [List.getElem?_append, if_pos hcase] at hb
      rw [List.getElem?_append, if_pos (by omega)] at hq
      exact ihl i a b q ha hb hq
    · have hieq : i + 1 = (l.foldl (standStep ps) []).length := by omega
      rw [List.getElem?_append_right (by omega), hieq, Nat.sub_self,
        List.getElem?_cons_zero, Option.some.injEq] at hb
      rw [List.getElem?_append_right (by omega : l.length ≤ i + 1),
        (by omega : i + 1 - l.length = 0), List.getElem?_cons_zero,
        Option.some.injEq] at hq
      rw [List.getElem?_append, if_pos (by omega)] at ha
      have hlast : (l.foldl (standStep ps) []).getLast? = some a := by
        rw [List.getLast?_eq_getElem?, (by omega : (l.foldl (standStep ps) []).length - 1 = i)]
        exact ha
      simp only [standStep, hlast, Option.map_some', Option.getD_some] at he
      have he2 := List.append_cancel_left he
      simp only [List.cons.injEq, FinalStanding.mk.injEq, and_true] at he2
      obtain ⟨-, -, -, hrank⟩ := he2
      subst hb
      subst hq
      simp only [Bool.and_eq_true, decide_eq_true_eq] at hrank
      by_cases hP : (round (a.balance * 100) = round (q0.balance * 100) ∧
          eliminatedById ps a.playerId = q0.eliminated)
      · rw [if_pos hP] at hrank
        rw [if_pos hP]
        exact hrank.symm
      · rw [if_neg hP] at hrank
        rw [if_neg hP]
        show r = i + 2
        omega

theorem eliminatedById_eq (ps : List Player) (hnd : (ps.map fun p => p.id).Nodup)
    (p : Player) (hp : p ∈ ps) : eliminatedById ps p.id = p.eliminated := by
  unfold eliminatedById
  cases hfind : ps.reverse.find? (fun q => q.id = p.id) with
  | none =>
    exfalso
    have := List.find?_eq_none.mp hfind p (List.mem_reverse.mpr hp)
    simp at this
  | some q =>
    have hpred := List.find?_some hfind
    have hmem : q ∈ ps := List.mem_reverse.mp (List.mem_of_find?_eq_some hfind)
    have hid : q.id = p.id := by simpa using hpred
    have : q = p := List.inj_on_of_nodup_map hnd hmem hp hid
    rw [this]

theorem standSorted_group (ps : List Player) (l : List Player)
    (hsort : List.Pairwise (fun a b => standingsLe a b = true) l)
    (i j k : Nat) (hik : i ≤ k) (hkj : k ≤ j) (hj : j < l.length)
    (hbal : l[i].balance = l[j].balance)
    (helim : l[i].eliminated = l[j].eliminated) :
    l[k].eliminated = l[i].eliminated ∧ l[k].balance = l[i].balance := by
  have hi : i < l.length := by omega
  have hk : k < l.length := by omega
  have hpair := List.pairwise_iff_getElem.mp hsort
  have le_ik : standingsLe l[i] l[k] = true := by
    rcases Nat.lt_or_ge i k with h | h
    · exact hpair i k hi hk h
    · have : i = k := by omega
      subst this
      exact standingsLe_refl _
  have le_kj : standingsLe l[k] l[j] = true := by
    rcases Nat.lt_or_ge k j with h | h
    · exact hpair k j hk hj h
    · have : k = j := by omega
      subst this
      exact standingsLe_refl _
  unfold standingsLe at le_ik le_kj
  by_cases hek : l[i].eliminated = l[k].eliminated
  · refine ⟨hek.symm, ?_⟩
    rw [if_pos hek] at le_ik
    rw [if_pos (by rw [← hek, helim])] at le_kj
    have h1 : l[k].balance ≤ l[i].balance := by simpa using le_ik
    have h2 : l[j].balance ≤ l[k].balance := by simpa using le_kj
    exact le_antisymm h1 (hbal ▸ h2)
  · exfalso
    rw [if_neg hek] at le_ik
    have hialive : l[i].eliminated = false := by
      cases h : l[i].eliminated
      · rfl
      · rw [h] at le_ik; simp at le_ik
    have hkelim : l[k].eliminated = true := by
      cases h : l[k].eliminated
      · rw [hialive, h] at hek; simp at hek
      · rfl
    have hkj_ne : ¬ (l[k].eliminated = l[j].eliminated) := by
      rw [hkelim, ← helim, hialive]
      simp
    rw [if_neg hkj_ne] at le_kj
    rw [hkelim] at le_kj
    simp at le_kj

theorem standings_core_at (ps : List Player) (k : Nat)
    (hk : k < (ps.mergeSort standingsLe).length) :
    ∃ e, (buildFinalStandings ps)[k]? = some e ∧
      e.playerId = (ps.mergeSort standingsLe)[k].id ∧
      e.balance = (ps.mergeSort standingsLe)[k].balance := by
  have hcore := standFold_core ps (ps.mergeSort standingsLe) [] k
  rw [show (([] : List FinalStanding)).length + k = k by simp] at hcore
  rw [List.getElem?_eq_getElem hk, Option.map_some'] at hcore
  cases hE : ((ps.mergeSort standingsLe).foldl (standStep ps) [])[k]? with
  | none => rw [hE] at hcore; simp at hcore
  | some e =>
    rw [hE, Option.map_some', Option.some.injEq] at hcore
    simp only [Prod.mk.injEq] at hcore
    exact ⟨e, hE, hcore.1, hcore.2.2⟩

theorem standings_share_rank_aux (ps : List Player)
    (hnd : (ps.map fun p => p.id).Nodup) (i j : Nat) (hij : i ≤ j)
    (a b : FinalStanding)
    (ha : (buildFinalStandings ps)[i]? = some a)
    (hb : (buildFinalStandings ps)[j]? = some b)
    (hbal : a.balance = b.balance)
    (helim : eliminatedById ps a.playerId = eliminatedById ps b.playerId) :
    a.rank = b.rank := by
  have hsort := List.sorted_mergeSort standingsLe_trans standingsLe_total ps
  have hperm : (ps.mergeSort standingsLe).Perm ps := List.mergeSort_perm ps standingsLe
  have hRlen : (buildFinalStandings ps).length = (ps.mergeSort standingsLe).length := by
    have := standFold_length ps (ps.mergeSort standingsLe) []
    simpa [buildFinalStandings] using this
  have hjlt : j < (buildFinalStandings ps).length := by
    by_contra h
    rw [List.getElem?_eq_none (by omega)] at hb
    exact Option.noConfusion hb
  have hjl : j < (ps.mergeSort standingsLe).length := by omega
  have hil : i < (ps.mergeSort standingsLe).length := by omega
  obtain ⟨ea, hEa, hIa, hBa⟩ := standings_core_at ps i hil
  obtain ⟨eb, hEb, hIb, hBb⟩ := standings_core_at ps j hjl
  rw [ha, Option.some.injEq] at hEa
  rw [hb, Option.some.injEq] at hEb
  subst hEa
  subst hEb
  have hmi : (ps.mergeSort standingsLe)[i] ∈ ps :=
    hperm.mem_iff.mp (List.getElem_mem hil)
  have hmj : (ps.mergeSort standingsLe)[j] ∈ ps :=
    hperm.mem_iff.mp (List.getElem_mem hjl)
  have helim' : (ps.mergeSort standingsLe)[i].eliminated =
      (ps.mergeSort standingsLe)[j].eliminated := by
    rw [hIa, hIb, eliminatedById_eq ps hnd _ hmi, eliminatedById_eq ps hnd _ hmj] at helim
    exact helim
  have hbal' : (ps.mergeSort standingsLe)[i].balance =
      (ps.mergeSort standingsLe)[j].balance := by
    rw [← hBa, ← hBb]
    exact hbal
  have key : ∀ k (hk : i ≤ k), k ≤ j → ∀ e, (buildFinalStandings ps)[k]? = some e →
      e.rank = a.rank := by
    intro k hk
    induction k, hk using Nat.le_induction with
    | base =>
      intro _ e he
      rw [ha, Option.some.injEq] at he
      rw [he]
    | succ n hn ihn =>
      intro hnj e he
      have hn1l : n + 1 < (ps.mergeSort standingsLe).length := by omega
      obtain ⟨en, hEn, hIn, hBn⟩ := standings_core_at ps n (by omega)
      have hgn := standSorted_group ps (ps.mergeSort standingsLe) hsort i j n hn (by omega)
        hjl hbal' helim'
      have hgn1 := standSorted_group ps (ps.mergeSort standingsLe) hsort i j (n + 1)
        (by omega) hnj hjl hbal' helim'
      have hq : (ps.mergeSort standingsLe)[n + 1]? =
          some (ps.mergeSort standingsLe)[n + 1] := List.getElem?_eq_getElem hn1l
      have hrule := standFold_rank_consec ps (ps.mergeSort standingsLe) n en e
        (ps.mergeSort standingsLe)[n + 1] hEn he hq
      have hmn : (ps.mergeSort standingsLe)[n] ∈ ps :=
        hperm.mem_iff.mp (List.getElem_mem (by omega))
      have hmn1 : (ps.mergeSort standingsLe)[n + 1] ∈ ps :=
        hperm.mem_iff.mp (List.getElem_mem hn1l)
      have hcond : round (en.balance * 100) =
          round ((ps.mergeSort standingsLe)[n + 1].balance * 100) ∧
          eliminatedById ps en.playerId = (ps.mergeSort standingsLe)[n + 1].eliminated := by
        constructor
        · rw [hBn, hgn.2, ← hgn1.2]
        · rw [hIn, eliminatedById_eq ps hnd _ hmn, hgn.1, ← hgn1.1]
      rw [if_pos hcond] at hrule
      rw [hrule]
      exact ihn (by omega) en hEn
  have := key j hij (le_refl j) b hb
  rw [this]

/-- C8: `buildFinalStandings` orders players eliminated-last then by
descending balance (a sort by the comparator `standingsLe`, a permutation of
the players), emits one standing per player in that order, gives the first
entry rank 1, gives each later entry the previous entry's rank exactly when
balances agree to the cent and elimination status agrees and otherwise its
1-based position; consequently (for distinct player ids) any two standings
with equal balance and equal elimination status share one rank, and an entry
that breaks a tie gets its position count, not the shared rank plus 1. -/
theorem buildFinalStandings_spec (ps : List Player) :
    ((ps.mergeSort standingsLe).Perm ps
      ∧ List.Pairwise (fun a b => standingsLe a b = true) (ps.mergeSort standingsLe))
    ∧ (buildFinalStandings ps).length = ps.length
    ∧ (∀ i : Nat, ((buildFinalStandings ps)[i]?).map
          (fun e => (e.playerId, e.name, e.balance)) =
        ((ps.mergeSort standingsLe)[i]?).map (fun q => (q.id, q.name, q.balance)))
    ∧ (∀ a : FinalStanding, (buildFinalStandings ps)[0]? = some a → a.rank = 1)
    ∧ (∀ (i : Nat) (a b : FinalStanding) (q : Player), (buildFinalStandings ps)[i]? = some a →
        (buildFinalStandings ps)[i + 1]? = some b →
        (ps.mergeSort standingsLe)[i + 1]? = some q →
        b.rank = if (round (a.balance * 100) = round (q.balance * 100) ∧
            eliminatedById ps a.playerId = q.eliminated) then a.rank else i + 2)
    ∧ ((ps.map fun p => p.id).Nodup →
        ∀ (i j : Nat) (a b : FinalStanding), (buildFinalStandings ps)[i]? = some a →
          (buildFinalStandings ps)[j]? = some b →
          a.balance = b.balance →
          eliminatedById ps a.playerId = eliminatedById ps b.playerId →
          a.rank = b.rank) := by
  refine ⟨⟨List.mergeSort_perm ps standingsLe,
      List.sorted_mergeSort standingsLe_trans standingsLe_total ps⟩, ?_, ?_, ?_, ?_, ?_⟩
  · have h1 := standFold_length ps (ps.mergeSort standingsLe) []
    have h2 := (List.mergeSort_perm ps standingsLe).length_eq
    simp only [List.length_nil, Nat.zero_add] at h1
    rw [buildFinalStandings, h1, h2]
  · intro i
    have := standFold_core ps (ps.mergeSort standingsLe) [] i
    simpa [buildFinalStandings] using this
  · exact standFold_rank_first ps (ps.mergeSort standingsLe)
  · exact standFold_rank_consec ps (ps.mergeSort standingsLe)
  · intro hnd i j a b ha hb hbal helim
    rcases Nat.le_total i j with h | h
    · exact standings_share_rank_aux ps hnd i j h a b ha hb hbal helim
    · exact (standings_share_rank_aux ps hnd j i h b a hb ha hbal.symm helim.symm).symm

theorem buildFinalStandings_spec_witness :
    (standPsEx.map fun p => p.id).Nodup ∧
    ∃ a b c, (buildFinalStandings standPsEx)[1]? = some a ∧
      (buildFinalStandings standPsEx)[2]? = some b ∧
      (buildFinalStandings standPsEx)[3]? = some c ∧
      a.balance = b.balance ∧
      eliminatedById standPsEx a.playerId = eliminatedById standPsEx b.playerId ∧
      a.rank = b.rank ∧ a.rank = 2 ∧ c.rank = 4 := by
  have hnd : (standPsEx.map fun p => p.id).Nodup := by decide
  have ha : (buildFinalStandings standPsEx)[1]? = some ⟨1, "B", 50, 2⟩ := by
    with_unfolding_all decide
  have hb : (buildFinalStandings standPsEx)[2]? = some ⟨2, "C", 50, 2⟩ := by
    with_unfolding_all decide
  have hc : (buildFinalStandings standPsEx)[3]? = some ⟨3, "D", 10, 4⟩ := by
    with_unfolding_all decide
  have hbal : (⟨1, "B", 50, 2⟩ : FinalStanding).balance =
      (⟨2, "C", 50, 2⟩ : FinalStanding).balance := by with_unfolding_all decide
  have helim : eliminatedById standPsEx (⟨1, "B", 50, 2⟩ : FinalStanding).playerId =
      eliminatedById standPsEx (⟨2, "C", 50, 2⟩ : FinalStanding).playerId := by decide
  refine ⟨hnd, ⟨1, "B", 50, 2⟩, ⟨2, "C", 50, 2⟩, ⟨3, "D", 10, 4⟩, ha, hb, hc, hbal, helim,
    (buildFinalStandings_spec standPsEx).2.2.2.2.2 hnd 1 2 _ _ ha hb hbal helim, rfl, rfl⟩

theorem coe_filter_split (l : List Card) (p : Card → Bool) :
    (l : Multiset Card) = ↑(l.filter p) + ↑(l.filter fun a => !p a) := by
  rw [Multiset.coe_add, Multiset.coe_eq_coe]
  exact (List.filter_append_perm p l).symm

theorem cardsOf_congr (ps qs : List Player)
    (h : ps.map (fun p => p.cards) = qs.map (fun p => p.cards)) :
    cardsOf ps = cardsOf qs := by
  unfold cardsOf
  induction ps generalizing qs with
  | nil => cases qs <;> simp_all
  | cons p rest ih =>
    cases qs with
    | nil => simp_all
    | cons q qrest =>
      simp only [List.map_cons, List.cons.injEq] at h
      simp [List.flatMap_cons, h.1, ih qrest h.2]

theorem coe_flatMap_split (l : List Player) (f g : Player → List Card) :
    (↑(l.flatMap fun a => f a ++ g a) : Multiset Card) = ↑(l.flatMap f) + ↑(l.flatMap g) := by
  induction l with
  | nil => simp
  | cons a rest ih =>
    simp only [List.flatMap_cons, ← Multiset.coe_add, ih]
    abel

/-- A listing with a unique id is the only one its id-filter keeps. -/
theorem listings_filter_id_single (ls : List TradeListing) (x : TradeListing)
    (hx : x ∈ ls) (hnd : (ls.map fun e => e.id).Nodup) :
    ls.filter (fun e => e.id = x.id) = [x] := by
  induction ls with
  | nil => cases hx
  | cons a rest ih =>
    simp only [List.map_cons, List.nodup_cons, List.mem_map] at hnd
    rcases List.mem_cons.mp hx with h | h
    · subst h
      have hrest : rest.filter (fun e => e.id = x.id) = [] := by
        rw [List.filter_eq_nil_iff]
        intro e he
        simp only [decide_eq_true_eq]
        intro hid
        exact hnd.1 ⟨e, he, hid⟩
      simp [List.filter_cons, hrest]
    · have hne : a.id ≠ x.id := by
        intro hid
        exact hnd.1 ⟨x, h, hid.symm⟩
      simp only [List.filter_cons, decide_eq_true_eq]
      rw [if_neg hne]
      exact ih h hnd.2

/-- Removing one listing by unique id extracts exactly its card. -/
theorem coe_listings_remove (ls : List TradeListing) (x : TradeListing)
    (hx : x ∈ ls) (hnd : (ls.map fun e => e.id).Nodup) :
    (↑(ls.map fun e => e.card) : Multiset Card) =
      x.card ::ₘ ↑((ls.filter fun e => e.id ≠ x.id).map fun e => e.card) := by
  have hsplit := List.filter_append_perm (fun e => e.id = x.id) ls
  have hperm : (ls.map fun e => e.card).Perm
      (((ls.filter fun e => e.id = x.id) ++ ls.filter fun e => !(e.id = x.id)).map
        fun e => e.card) := (List.Perm.map _ hsplit).symm
  have hconv : (ls.filter fun e => e.id ≠ x.id) = ls.filter fun e => !(e.id = x.id) := by
    apply List.filter_congr
    intro e _
    simp
  rw [hconv, Multiset.coe_eq_coe.mpr hperm, listings_filter_id_single ls x hx hnd]
  simp

theorem cardsOf_map_eq (ps : List Player) (f : Player → Player)
    (hf : ∀ p ∈ ps, (f p).cards = p.cards) : cardsOf (ps.map f) = cardsOf ps := by
  unfold cardsOf
  induction ps with
  | nil => rfl
  | cons p rest ih =>
    simp only [List.map_cons, List.flatMap_cons]
    rw [hf p (List.mem_cons_self p rest), ih fun q hq => hf q (List.mem_cons_of_mem p hq)]

/-- Appending one card to the hand of the unique player with a given id adds
exactly that card to the hands in circulation. -/
theorem coe_cardsOf_append_one (ps : List Player) (f : Player → Player) (bid : Nat) (c : Card)
    (hnd : (ps.map fun p => p.id).Nodup) (hmem : bid ∈ ps.map fun p => p.id)
    (hf : ∀ p, (f p).cards = if p.id = bid then p.cards ++ [c] else p.cards) :
    (↑(cardsOf (ps.map f)) : Multiset Card) = ↑(cardsOf ps) + {c} := by
  induction ps with
  | nil => cases hmem
  | cons p rest ih =>
    simp only [List.map_cons, List.nodup_cons] at hnd
    simp only [List.map_cons, List.mem_cons] at hmem
    unfold cardsOf
    simp only [List.map_cons, List.flatMap_cons]
    by_cases hp : p.id = bid
    · have hrest : cardsOf (rest.map f) = cardsOf rest := by
        apply cardsOf_map_eq
        intro q hq
        rw [hf q, if_neg]
        intro hq2
        refine hnd.1 ?_
        rw [hp, ← hq2]
        exact List.mem_map_of_mem (fun p => p.id) hq
      rw [hf p, if_pos hp]
      show (↑((p.cards ++ [c]) ++ cardsOf (rest.map f)) : Multiset Card) =
        ↑(p.cards ++ cardsOf rest) + {c}
      rw [hrest]
      simp only [← Multiset.coe_add]
      have : ({c} : Multiset Card) = ↑[c] := rfl
      rw [this]
      abel
    · have hbid : bid ∈ rest.map fun p => p.id := by
        rcases hmem with h | h
        · exact absurd h.symm hp
        · exact h
      have := ih hnd.2 hbid
      rw [hf p, if_neg hp]
      show (↑(p.cards ++ cardsOf (rest.map f)) : Multiset Card) =
        ↑(p.cards ++ cardsOf rest) + {c}
      simp only [← Multiset.coe_add, this]
      abel

/-- Grouping the listings by seller id and concatenating recovers all listing
cards, provided the ids are unique and every seller is present. -/
theorem coe_flatMap_group (ps : List Player) (ls : List TradeListing)
    (hnd : (ps.map fun p => p.id).Nodup)
    (hsub : ∀ l ∈ ls, l.sellerId ∈ ps.map fun p => p.id) :
    (↑(ps.flatMap fun p => (ls.filter fun l => l.sellerId = p.id).map fun l => l.card) :
      Multiset Card) = ↑(ls.map fun l => l.card) := by
  induction ps generalizing ls with
  | nil =>
    have : ls = [] := by
      rw [List.eq_nil_iff_forall_not_mem]
      intro l hl
      simpa using hsub l hl
    simp [this]
  | cons p rest ih =>
    simp only [List.map_cons, List.nodup_cons] at hnd
    simp only [List.flatMap_cons]
    have hothers : ∀ q ∈ rest, (ls.filter fun l => l.sellerId = q.id) =
        ((ls.filter fun l => l.sellerId ≠ p.id).filter fun l => l.sellerId = q.id) := by
      intro q hq
      rw [List.filter_filter]
      apply List.filter_congr
      intro l _
      by_cases hlq : l.sellerId = q.id
      · have hqp : ¬ q.id = p.id := by
          intro h2
          exact hnd.1 (h2 ▸ List.mem_map_of_mem (fun p => p.id) hq)
        simp [hlq, hqp]
      · simp [hlq]
    have hflat : (rest.flatMap fun q => (ls.filter fun l => l.sellerId = q.id).map
        fun l => l.card) = rest.flatMap fun q =>
          (((ls.filter fun l => l.sellerId ≠ p.id).filter fun l => l.sellerId = q.id).map
            fun l => l.card) := by
      apply List.flatMap_congr
      intro q hq
      rw [hothers q hq]
    rw [hflat]
    have hsub2 : ∀ l ∈ (ls.filter fun l => l.sellerId ≠ p.id),
        l.sellerId ∈ rest.map fun p => p.id := by
      intro l hl
      have hm := List.mem_of_mem_filter hl
      have hne : l.sellerId ≠ p.id := by
        have := List.of_mem_filter hl
        simpa using this
      have := hsub l hm
      simp only [List.map_cons, List.mem_cons] at this
      rcases this with h | h
      · exact absurd h hne
      · exact h
    have hih := ih (ls.filter fun l => l.sellerId ≠ p.id) hnd.2 hsub2
    simp only [← Multiset.coe_add, hih]
    have hsplit : (↑(ls.map fun l => l.card) : Multiset Card) =
        ↑((ls.filter fun l => l.sellerId = p.id).map fun l => l.card)
          + ↑((ls.filter fun l => l.sellerId ≠ p.id).map fun l => l.card) := by
      have hp := List.filter_append_perm (fun l => l.sellerId = p.id) ls
      have hconv : (ls.filter fun l => l.sellerId ≠ p.id) =
          ls.filter fun l => !(l.sellerId = p.id) := by
        apply List.filter_congr
        intro l _
        simp
      rw [hconv, Multiset.coe_add, Multiset.coe_eq_coe, ← List.map_append]
      exact List.Perm.map _ hp.symm
    rw [hsplit]

theorem bailoutPlayer_cards (amount : ℚ) (used : List Nat) (p : Player) :
    (bailoutPlayer amount used p).cards ++
      (if (bailoutPlayer amount used p).eliminated then p.cards else []) = p.cards := by
  unfold bailoutPlayer
  by_cases h1 : p.eliminated
  · simp [h1]
  · simp only [h1, if_false]
    by_cases h2 : (if bailoutCredited used p then p.balance + amount else p.balance) ≤ 0
    · simp [h2]
    · simp [h2, h1]

theorem bailoutPlayer_id (amount : ℚ) (used : List Nat) (p : Player) :
    (bailoutPlayer amount used p).id = p.id := by
  simp only [bailoutPlayer]
  split_ifs <;> rfl

theorem bailoutPlayer_alive (amount : ℚ) (used : List Nat) (p : Player)
    (h : (bailoutPlayer amount used p).eliminated = false) :
    0 < (bailoutPlayer amount used p).balance := by
  simp only [bailoutPlayer] at h ⊢
  by_cases h1 : p.eliminated
  · simp [h1] at h
  · simp only [h1, if_false] at h ⊢
    by_cases h2 : (if bailoutCredited used p then p.balance + amount else p.balance) ≤ 0
    · simp [h2] at h
    · simp only [h2, if_false]
      exact lt_of_not_le h2

theorem cardsOf_map (ps : List Player) (f : Player → Player) :
    cardsOf (ps.map f) = ps.flatMap fun p => (f p).cards := by
  unfold cardsOf
  induction ps with
  | nil => rfl
  | cons p rest ih => simp [List.flatMap_cons, ih]

theorem applyBailoutPlayers_cards (s : GameState) (ps : List Player) :
    (↑(cardsOf (applyBailoutPlayers s ps).players) : Multiset Card)
        + ↑(applyBailoutPlayers s ps).discarded
      = ↑(cardsOf ps) + ↑s.discarded := by
  unfold applyBailoutPlayers
  cases hm : s.gameMode with
  | none => rfl
  | some mode =>
    show (↑(cardsOf (ps.map (bailoutPlayer (bailoutAmount mode) s.bailoutUsedByPlayer))) :
        Multiset Card) + ↑(s.discarded ++
          bailoutDiscards (bailoutAmount mode) s.bailoutUsedByPlayer ps)
      = ↑(cardsOf ps) + ↑s.discarded
    rw [cardsOf_map]
    unfold bailoutDiscards
    have hsplit := coe_flatMap_split ps
      (fun p => (bailoutPlayer (bailoutAmount mode) s.bailoutUsedByPlayer p).cards)
      (fun p => if (bailoutPlayer (bailoutAmount mode) s.bailoutUsedByPlayer p).eliminated
        then p.cards else [])
    have hcollapse : (ps.flatMap fun p =>
        (bailoutPlayer (bailoutAmount mode) s.bailoutUsedByPlayer p).cards ++
          (if (bailoutPlayer (bailoutAmount mode) s.bailoutUsedByPlayer p).eliminated
            then p.cards else [])) = cardsOf ps := by
      unfold cardsOf
      apply List.flatMap_congr
      intro p _
      exact bailoutPlayer_cards _ _ p
    rw [hcollapse] at hsplit
    simp only [← Multiset.coe_add]
    rw [hsplit]
    abel

theorem applyBailoutPlayers_ids (s : GameState) (ps : List Player) :
    (applyBailoutPlayers s ps).players.map (fun p => p.id) = ps.map fun p => p.id := by
  unfold applyBailoutPlayers
  cases s.gameMode with
  | none => rfl
  | some mode =>
    rw [List.map_map]
    apply List.map_congr_left
    intro p _
    exact bailoutPlayer_id _ _ p

theorem applyBailoutPlayers_alive (s : GameState) (ps : List Player)
    (h0 : s.gameMode = none → ∀ p ∈ ps, p.eliminated = false → 0 < p.balance) :
    ∀ p ∈ (applyBailoutPlayers s ps).players, p.eliminated = false → 0 < p.balance := by
  unfold applyBailoutPlayers
  cases hm : s.gameMode with
  | none => exact h0 hm
  | some mode =>
    intro p hp he
    simp only [List.mem_map] at hp
    obtain ⟨q, _, hq⟩ := hp
    subst hq
    exact bailoutPlayer_alive _ _ q he

theorem applyBailoutPlayers_tradeListings (s : GameState) (ps : List Player) :
    (applyBailoutPlayers s ps).tradeListings = s.tradeListings := by
  unfold applyBailoutPlayers
  cases s.gameMode <;> rfl

theorem applyBailoutPlayers_stateFields (s : GameState) (ps : List Player) :
    (applyBailoutPlayers s ps).forfeited = s.forfeited ∧
    (applyBailoutPlayers s ps).dealtCards = s.dealtCards ∧
    (applyBailoutPlayers s ps).pot = s.pot ∧
    (applyBailoutPlayers s ps).listingCounter = s.listingCounter ∧
    (applyBailoutPlayers s ps).gameMode = s.gameMode := by
  unfold applyBailoutPlayers
  cases s.gameMode <;> exact ⟨rfl, rfl, rfl, rfl, rfl⟩

theorem applyBailoutIfNeeded_ledger (s : GameState) (ps : List Player) :
    (↑(cardsOf (applyBailoutIfNeeded s ps).players) : Multiset Card)
        + ↑((applyBailoutIfNeeded s ps).tradeListings.map fun l => l.card)
        + ↑(applyBailoutIfNeeded s ps).discarded
      = ↑(cardsOf ps) + ↑(s.tradeListings.map fun l => l.card) + ↑s.discarded := by
  cases hm : s.gameMode with
  | none => simp only [applyBailoutIfNeeded, hm]
  | some mode =>
    simp only [applyBailoutIfNeeded, hm]
    have hcards := applyBailoutPlayers_cards s ps
    have hsplit : (↑(s.tradeListings.map fun l => l.card) : Multiset Card)
        = ↑((s.tradeListings.filter fun l =>
              (bailoutElimIds (bailoutAmount mode) s.bailoutUsedByPlayer ps).contains
                l.sellerId).map fun l => l.card)
          + ↑((s.tradeListings.filter fun l =>
              !(bailoutElimIds (bailoutAmount mode) s.bailoutUsedByPlayer ps).contains
                l.sellerId).map fun l => l.card) := by
      rw [Multiset.coe_add, Multiset.coe_eq_coe, ← List.map_append]
      exact (List.Perm.map _ (List.filter_append_perm _ s.tradeListings)).symm
    simp only [← Multiset.coe_add]
    rw [hsplit]
    set A := (↑(cardsOf (applyBailoutPlayers s ps).players) : Multiset Card) with hA
    set B := (↑(applyBailoutPlayers s ps).discarded : Multiset Card) with hB
    set C := (↑(cardsOf ps) : Multiset Card) with hC
    set D := (↑s.discarded : Multiset Card) with hD
    set K := (↑((s.tradeListings.filter fun l =>
        !(bailoutElimIds (bailoutAmount mode) s.bailoutUsedByPlayer ps).contains
          l.sellerId).map fun l => l.card) : Multiset Card) with hK
    set E := (↑((s.tradeListings.filter fun l =>
        (bailoutElimIds (bailoutAmount mode) s.bailoutUsedByPlayer ps).contains
          l.sellerId).map fun l => l.card) : Multiset Card) with hE
    rw [(by abel : A + K + (B + E) = (A + B) + (K + E)), hcards]
    abel

theorem applyBailoutIfNeeded_ids (s : GameState) (ps : List Player) :
    (applyBailoutIfNeeded s ps).players.map (fun p => p.id) = ps.map fun p => p.id := by
  cases hm : s.gameMode with
  | none => simp only [applyBailoutIfNeeded, hm]
  | some mode =>
    simp only [applyBailoutIfNeeded, hm]
    exact applyBailoutPlayers_ids s ps

theorem applyBailoutIfNeeded_alive (s : GameState) (ps : List Player)
    (h0 : s.gameMode = none → ∀ p ∈ ps, p.eliminated = false → 0 < p.balance) :
    ∀ p ∈ (applyBailoutIfNeeded s ps).players, p.eliminated = false → 0 < p.balance := by
  cases hm : s.gameMode with
  | none =>
    simp only [applyBailoutIfNeeded, hm]
    exact h0 hm
  | some mode =>
    simp only [applyBailoutIfNeeded, hm]
    intro p hp he
    have := applyBailoutPlayers_alive s ps h0
    exact this p hp he

theorem applyBailoutIfNeeded_listings_sublist (s : GameState) (ps : List Player) :
    (applyBailoutIfNeeded s ps).tradeListings.Sublist s.tradeListings := by
  cases hm : s.gameMode with
  | none =>
    simp only [applyBailoutIfNeeded, hm]
    exact List.Sublist.refl _
  | some mode =>
    simp only [applyBailoutIfNeeded, hm]
    exact List.filter_sublist _

theorem applyBailoutIfNeeded_stateFields (s : GameState) (ps : List Player) :
    (applyBailoutIfNeeded s ps).forfeited = s.forfeited ∧
    (applyBailoutIfNeeded s ps).dealtCards = s.dealtCards ∧
    (applyBailoutIfNeeded s ps).pot = s.pot ∧
    (applyBailoutIfNeeded s ps).listingCounter = s.listingCounter ∧
    (applyBailoutIfNeeded s ps).gameMode = s.gameMode := by
  cases hm : s.gameMode with
  | none => simp [applyBailoutIfNeeded, hm]
  | some mode =>
    simp only [applyBailoutIfNeeded, hm]
    have h := applyBailoutPlayers_stateFields s ps
    exact ⟨h.1, h.2.1, h.2.2.1, h.2.2.2.1, by rw [h.2.2.2.2, hm]⟩

theorem circulation_parts (s : GameState) :
    circulation s = cardsOf s.players ++ s.tradeListings.map fun l => l.card := rfl

theorem consInv_congr (s t : GameState) (hp : t.players = s.players)
    (hl : t.tradeListings = s.tradeListings) (hf : t.forfeited = s.forfeited)
    (hd : t.discarded = s.discarded) (hdc : t.dealtCards = s.dealtCards)
    (hlc : t.listingCounter = s.listingCounter) (hpot : t.pot = s.pot)
    (hgm : t.gameMode = s.gameMode) (h : ConsInv s) : ConsInv t := by
  constructor
  · rw [circulation_parts, hp, hl, hf, hd, hdc]
    exact h.conserve
  · rw [hdc]; exact h.dealt
  · rw [hp]; exact h.pids
  · rw [hl, hp]; exact h.sellers
  · rw [hl]; exact h.lids
  · rw [hl, hlc]; exact h.lidBound
  · rw [hp]; exact h.alive
  · rw [hpot]; exact h.potNonneg
  · rw [hgm, hp]; exact h.modeNone

theorem advanceTurnWith_fields (ps : List Player) (s : GameState) :
    (advanceTurnWith ps s).players = s.players ∧
    (advanceTurnWith ps s).tradeListings = s.tradeListings ∧
    (advanceTurnWith ps s).forfeited = s.forfeited ∧
    (advanceTurnWith ps s).discarded = s.discarded ∧
    (advanceTurnWith ps s).dealtCards = s.dealtCards ∧
    (advanceTurnWith ps s).listingCounter = s.listingCounter ∧
    (advanceTurnWith ps s).pot = s.pot ∧
    (advanceTurnWith ps s).gameMode = s.gameMode := by
  unfold advanceTurnWith
  split <;> exact ⟨rfl, rfl, rfl, rfl, rfl, rfl, rfl, rfl⟩

theorem consInv_advanceTurnWith (ps : List Player) (s : GameState) (h : ConsInv s) :
    ConsInv (advanceTurnWith ps s) := by
  have hf := advanceTurnWith_fields ps s
  exact consInv_congr s _ hf.1 hf.2.1 hf.2.2.1 hf.2.2.2.1 hf.2.2.2.2.1 hf.2.2.2.2.2.1
    hf.2.2.2.2.2.2.1 hf.2.2.2.2.2.2.2 h

theorem consInv_resetGame : ConsInv resetGame := by
  constructor <;> simp [resetGame, circulation, cardsOf]

theorem map_mapIdx_eq (ps : List Player) (f : Nat → Player → Player)
    (g : Player → Nat) (hf : ∀ i p, g (f i p) = g p) :
    (ps.mapIdx f).map g = ps.map g := by
  apply List.ext_getElem (by simp)
  intro i h1 h2
  have hi : i < ps.length := by simpa using h2
  simp only [List.getElem_map, List.getElem_mapIdx]
  exact hf i ps[i]

theorem cardsOf_eq_flatten (ps : List Player) :
    cardsOf ps = (ps.map fun p => p.cards).flatten := by
  unfold cardsOf
  induction ps with
  | nil => rfl
  | cons p rest ih => simp [List.flatMap_cons, ih]

theorem cardsOf_mapIdx_eq (ps : List Player) (f : Nat → Player → Player)
    (hf : ∀ i p, (f i p).cards = p.cards) : cardsOf (ps.mapIdx f) = cardsOf ps := by
  rw [cardsOf_eq_flatten, cardsOf_eq_flatten]
  congr 1
  apply List.ext_getElem (by simp)
  intro i h1 h2
  have hi : i < ps.length := by simpa using h2
  simp only [List.getElem_map, List.getElem_mapIdx]
  exact hf i ps[i]

/-- Bailout resolution after a snapshot that kept every hand and ids intact
(only balances changed) preserves the conservation invariant. -/
theorem consInv_applyBailout (s : GameState) (ps : List Player) (h : ConsInv s)
    (hids : ps.map (fun p => p.id) = s.players.map fun p => p.id)
    (hcards2 : (↑(cardsOf ps) : Multiset Card) = ↑(cardsOf s.players)) :
    ConsInv (applyBailoutIfNeeded s ps) := by
  have hled := applyBailoutIfNeeded_ledger s ps
  have hsf := applyBailoutIfNeeded_stateFields s ps
  have hidseq := applyBailoutIfNeeded_ids s ps
  have hsub := applyBailoutIfNeeded_listings_sublist s ps
  constructor
  · rw [circulation_parts, ← Multiset.coe_add, Multiset.coe_add, ← Multiset.coe_add]
    rw [hsf.1, hsf.2.1]
    have hc := h.conserve
    rw [circulation_parts, ← Multiset.coe_add, Multiset.coe_add, ← Multiset.coe_add] at hc
    rw [← hc]
    simp only [← Multiset.coe_add] at hled ⊢
    rw [hcards2] at hled
    set A := (↑(cardsOf (applyBailoutIfNeeded s ps).players) : Multiset Card)
    set B := (↑((applyBailoutIfNeeded s ps).tradeListings.map fun l => l.card) : Multiset Card)
    set C := (↑(applyBailoutIfNeeded s ps).discarded : Multiset Card)
    set D := (↑(cardsOf s.players) : Multiset Card)
    set E := (↑(s.tradeListings.map fun l => l.card) : Multiset Card)
    set F := (↑s.discarded : Multiset Card)
    set G := (↑s.forfeited : Multiset Card)
    rw [(by abel : A + B + G + C = A + B + C + G), hled]
    abel
  · rw [hsf.2.1]; exact h.dealt
  · rw [hidseq, hids]; exact h.pids
  · intro l hl
    rw [hidseq, hids]
    exact h.sellers l (hsub.mem hl)
  · exact ((List.Sublist.map _ hsub).nodup h.lids)
  · intro l hl
    rw [hsf.2.2.2.1]
    exact h.lidBound l (hsub.mem hl)
  · apply applyBailoutIfNeeded_alive
    intro hmode p hp he
    rw [h.modeNone hmode] at hids
    simp only [List.map_nil, List.map_eq_nil_iff] at hids
    rw [hids] at hp
    cases hp
  · rw [hsf.2.2.1]; exact h.potNonneg
  · intro hm
    rw [hsf.2.2.2.2] at hm
    have hps : ps = [] := by
      have := h.modeNone hm
      rw [this] at hids
      simpa using hids
    cases hm2 : s.gameMode with
    | some mode => rw [hm2] at hm; cases hm
    | none =>
      simp only [applyBailoutIfNeeded, hm2]
      exact hps

theorem consInv_setPot (s : GameState) (p : ℚ) (hp : 0 ≤ p) (h : ConsInv s) :
    ConsInv { s with pot := p } :=
  ⟨h.conserve, h.dealt, h.pids, h.sellers, h.lids, h.lidBound, h.alive, hp, h.modeNone⟩

theorem map_map_id_eq (ps : List Player) (f : Player → Player)
    (hf : ∀ p ∈ ps, (f p).id = p.id) :
    (ps.map f).map (fun p => p.id) = ps.map fun p => p.id := by
  rw [List.map_map]
  exact List.map_congr_left hf

theorem coe_flatMap_congr (l : List Player) (f g : Player → List Card)
    (hfg : ∀ a ∈ l, (↑(f a) : Multiset Card) = ↑(g a)) :
    (↑(l.flatMap f) : Multiset Card) = ↑(l.flatMap g) := by
  induction l with
  | nil => rfl
  | cons a rest ih =>
    simp only [List.flatMap_cons, ← Multiset.coe_add]
    rw [hfg a (List.mem_cons_self a rest), ih fun q hq => hfg q (List.mem_cons_of_mem a hq)]

theorem scratchedHorsePenalty_nonneg (horse : Horse) : 0 ≤ scratchedHorsePenalty horse := by
  unfold scratchedHorsePenalty
  exact Nat.cast_nonneg _

theorem consInv_chargeRoller (s : GameState) (horse : Horse) (h : ConsInv s) :
    ConsInv (chargeRollerForScratched s horse) := by
  simp only [chargeRollerForScratched]
  split
  · apply consInv_advanceTurnWith
    have h1 : ConsInv (applyBailoutIfNeeded s (s.players.mapIdx fun idx player =>
        if idx = s.currentPlayerIndex then
          { player with balance := player.balance - scratchedHorsePenalty horse }
        else player)) := by
      apply consInv_applyBailout s _ h
      · apply map_mapIdx_eq
        intro i p
        split <;> rfl
      · rw [cardsOf_mapIdx_eq]
        intro i p
        split <;> rfl
    exact consInv_setPot _ _
      (add_nonneg h1.potNonneg (scratchedHorsePenalty_nonneg horse)) h1
  · exact consInv_advanceTurnWith _ _ h

theorem scratch_hands_split (ps : List Player) (hn : Nat) (pen : ℚ) :
    (↑(cardsOf (ps.map fun player =>
        if (player.cards.filter fun c => c.value = hn).length = 0 then player
        else { player with
            balance := player.balance - pen *
              (((player.cards.filter fun c => c.value = hn).length : Nat) : ℚ),
            cards := player.cards.filter fun c => c.value ≠ hn })) : Multiset Card)
      + ↑(ps.flatMap fun player => player.cards.filter fun c => c.value = hn)
    = ↑(cardsOf ps) := by
  rw [cardsOf_map]
  have hpoint : (ps.flatMap fun player =>
      (if (player.cards.filter fun c => c.value = hn).length = 0 then player
        else { player with
            balance := player.balance - pen *
              (((player.cards.filter fun c => c.value = hn).length : Nat) : ℚ),
            cards := player.cards.filter fun c => c.value ≠ hn }).cards) =
      ps.flatMap fun player => player.cards.filter fun c => c.value ≠ hn := by
    apply List.flatMap_congr
    intro p _
    split
    · rename_i hlen
      have hnil : (p.cards.filter fun c => c.value = hn) = [] :=
        List.length_eq_zero.mp hlen
      have : ∀ c ∈ p.cards, (fun c => decide (c.value ≠ hn)) c = true := by
        intro c hc
        simp only [decide_eq_true_eq]
        intro hceq
        have : c ∈ p.cards.filter fun c => c.value = hn :=
          List.mem_filter.mpr ⟨hc, by simp [hceq]⟩
        rw [hnil] at this
        cases this
      exact (List.filter_eq_self.mpr this).symm
    · rfl
  rw [hpoint]
  have hsplit := coe_flatMap_split ps
    (fun p => p.cards.filter fun c => c.value ≠ hn)
    (fun p => p.cards.filter fun c => c.value = hn)
  rw [← hsplit]
  apply coe_flatMap_congr
  intro p _
  rw [Multiset.coe_eq_coe]
  have hconv : (p.cards.filter fun c => c.value ≠ hn) =
      p.cards.filter fun c => !(c.value = hn) := by
    apply List.filter_congr
    intro c _
    simp
  rw [hconv]
  exact (List.perm_append_comm).trans (List.filter_append_perm _ p.cards)

/-- The conservation invariant survives the scratch-resolution write: hands
lose exactly the forfeited cards, the bailout resolves, the forfeit log
grows by the same cards and the pot can only grow. -/
theorem consInv_scratchBranch (s : GameState) (U : List Player) (F : List Card)
    (potInc : ℚ) (horses2 : List Horse) (hist2 : List Nat) (phase2 : GamePhase)
    (hids : U.map (fun p => p.id) = s.players.map fun p => p.id)
    (hsplitUF : (↑(cardsOf U) : Multiset Card) + ↑F = ↑(cardsOf s.players))
    (hUnil : s.players = [] → U = [])
    (hpotInc : 0 ≤ potInc) (h : ConsInv s) :
    ConsInv (advanceTurnWith s.players
      { applyBailoutIfNeeded s U with
          pot := if potInc > 0 then (applyBailoutIfNeeded s U).pot + potInc
            else (applyBailoutIfNeeded s U).pot,
          horses := horses2, scratchHistory := hist2,
          forfeited := s.forfeited ++ F, phase := phase2 }) := by
  apply consInv_advanceTurnWith
  have hled := applyBailoutIfNeeded_ledger s U
  have hsf := applyBailoutIfNeeded_stateFields s U
  have hidseq := applyBailoutIfNeeded_ids s U
  have hsub := applyBailoutIfNeeded_listings_sublist s U
  constructor
  · rw [circulation_parts]
    show (↑(cardsOf (applyBailoutIfNeeded s U).players ++
        ((applyBailoutIfNeeded s U).tradeListings.map fun l => l.card)) : Multiset Card)
        + ↑(s.forfeited ++ F) + ↑(applyBailoutIfNeeded s U).discarded
      = ↑(applyBailoutIfNeeded s U).dealtCards
    rw [hsf.2.1]
    have hc := h.conserve
    rw [circulation_parts] at hc
    simp only [← Multiset.coe_add] at hled hc ⊢
    set A := (↑(cardsOf (applyBailoutIfNeeded s U).players) : Multiset Card)
    set B := (↑((applyBailoutIfNeeded s U).tradeListings.map fun l => l.card) : Multiset Card)
    set C := (↑(applyBailoutIfNeeded s U).discarded : Multiset Card)
    set D := (↑(cardsOf U) : Multiset Card)
    set E := (↑(s.tradeListings.map fun l => l.card) : Multiset Card)
    set Fm := (↑F : Multiset Card)
    set G := (↑s.forfeited : Multiset Card)
    set Sd := (↑s.discarded : Multiset Card)
    set P := (↑(cardsOf s.players) : Multiset Card)
    rw [(by abel : A + B + (G + Fm) + C = A + B + C + (G + Fm)), hled,
      (by abel : D + E + Sd + (G + Fm) = D + Fm + (E + G + Sd)), hsplitUF,
      (by abel : P + (E + G + Sd) = P + E + G + Sd), hc]
  · show (applyBailoutIfNeeded s U).dealtCards.length = 44 ∨
      (applyBailoutIfNeeded s U).dealtCards = []
    rw [hsf.2.1]
    exact h.dealt
  · show ((applyBailoutIfNeeded s U).players.map fun p => p.id).Nodup
    rw [hidseq, hids]
    exact h.pids
  · show ∀ l ∈ (applyBailoutIfNeeded s U).tradeListings,
      l.sellerId ∈ (applyBailoutIfNeeded s U).players.map fun p => p.id
    intro l hl
    rw [hidseq, hids]
    exact h.sellers l (hsub.mem hl)
  · show ((applyBailoutIfNeeded s U).tradeListings.map fun l => l.id).Nodup
    exact ((List.Sublist.map _ hsub).nodup h.lids)
  · show ∀ l ∈ (applyBailoutIfNeeded s U).tradeListings,
      l.id ≤ (applyBailoutIfNeeded s U).listingCounter
    intro l hl
    rw [hsf.2.2.2.1]
    exact h.lidBound l (hsub.mem hl)
  · show ∀ p ∈ (applyBailoutIfNeeded s U).players, p.eliminated = false → 0 < p.balance
    apply applyBailoutIfNeeded_alive
    intro hmode p hp he
    rw [hUnil (h.modeNone hmode)] at hp
    cases hp
  · show 0 ≤ if potInc > 0 then (applyBailoutIfNeeded s U).pot + potInc
      else (applyBailoutIfNeeded s U).pot
    split
    · rw [hsf.2.2.1]
      exact add_nonneg h.potNonneg hpotInc
    · rw [hsf.2.2.1]
      exact h.potNonneg
  · show (applyBailoutIfNeeded s U).gameMode = none →
      (applyBailoutIfNeeded s U).players = []
    rw [hsf.2.2.2.2]
    intro hmode
    simp only [applyBailoutIfNeeded, hmode]
    exact hUnil (h.modeNone hmode)

theorem consInv_handleScratchRoll (s : GameState) (total : Nat) (h : ConsInv s) :
    ConsInv (handleScratchRoll s total) := by
  simp only [handleScratchRoll]
  split
  · exact h
  · split
    · exact consInv_advanceTurnWith _ _ h
    · split
      · exact consInv_advanceTurnWith _ _ h
      · split
        · exact consInv_chargeRoller s _ h
        · apply consInv_scratchBranch s _ _ _ _ _ _
          · apply map_map_id_eq
            intro p _
            split <;> rfl
          · exact scratch_hands_split s.players total
              (((scratchPenaltyByStep (s.scratchHistory.length + 1)).getD 0 : Nat) : ℚ)
          · intro hnil
            rw [hnil]
            rfl
          · apply List.sum_nonneg
            intro x hx
            simp only [List.mem_map] at hx
            obtain ⟨p, _, hp⟩ := hx
            rw [← hp]
            exact mul_nonneg (Nat.cast_nonneg _) (Nat.cast_nonneg _)
          · exact h

/-- Writing a payout result: players with unchanged hands and ids, the pot
zeroed, a summary and standings recorded. -/
theorem consInv_payoutWrite (s : GameState) (U : List Player)
    (sum2 : Option RaceSummary) (stand : List FinalStanding)
    (hids : U.map (fun p => p.id) = s.players.map fun p => p.id)
    (hcards : cardsOf U = cardsOf s.players)
    (halive : ∀ p ∈ U, p.eliminated = false → 0 < p.balance)
    (hUnil : s.players = [] → U = [])
    (h : ConsInv s) :
    ConsInv { s with players := U, pot := 0, pendingSummary := sum2, finalStandings := stand } := by
  constructor
  · rw [circulation_parts]
    show (↑(cardsOf U ++ s.tradeListings.map fun l => l.card) : Multiset Card)
      + ↑s.forfeited + ↑s.discarded = ↑s.dealtCards
    have hc := h.conserve
    rw [circulation_parts] at hc
    simp only [← Multiset.coe_add, hcards] at hc ⊢
    exact hc
  · exact h.dealt
  · show (U.map fun p => p.id).Nodup
    rw [hids]
    exact h.pids
  · intro l hl
    show l.sellerId ∈ U.map fun p => p.id
    rw [hids]
    exact h.sellers l hl
  · exact h.lids
  · exact h.lidBound
  · exact halive
  · exact le_refl 0
  · intro hm
    exact hUnil (h.modeNone hm)

theorem consInv_handlePayout (s : GameState) (w : Nat) (h : ConsInv s) :
    ConsInv (handlePayout s w) := by
  simp only [handlePayout]
  split
  · split
    · exact consInv_congr s _ rfl rfl rfl rfl rfl rfl rfl rfl h
    · exact consInv_congr s _ rfl rfl rfl rfl rfl rfl rfl rfl h
  · have hids : (s.players.map fun p =>
        let matchCount : Nat := (p.cards.filter fun c => c.value = w).length
        if matchCount = 0 then p
        else { p with balance := p.balance +
          s.pot / (((s.players.map fun p =>
            (p.cards.filter fun c => c.value = w).length).sum : Nat) : ℚ) *
          ((matchCount : Nat) : ℚ) }).map (fun p => p.id) = s.players.map fun p => p.id := by
      apply map_map_id_eq
      intro p _
      dsimp only
      split <;> rfl
    have hcards : cardsOf (s.players.map fun p =>
        let matchCount : Nat := (p.cards.filter fun c => c.value = w).length
        if matchCount = 0 then p
        else { p with balance := p.balance +
          s.pot / (((s.players.map fun p =>
            (p.cards.filter fun c => c.value = w).length).sum : Nat) : ℚ) *
          ((matchCount : Nat) : ℚ) }) = cardsOf s.players := by
      apply cardsOf_map_eq
      intro p _
      dsimp only
      split <;> rfl
    have halive : ∀ p ∈ (s.players.map fun p =>
        let matchCount : Nat := (p.cards.filter fun c => c.value = w).length
        if matchCount = 0 then p
        else { p with balance := p.balance +
          s.pot / (((s.players.map fun p =>
            (p.cards.filter fun c => c.value = w).length).sum : Nat) : ℚ) *
          ((matchCount : Nat) : ℚ) }), p.eliminated = false → 0 < p.balance := by
      intro p hp he
      simp only [List.mem_map] at hp
      obtain ⟨q, hq, hqe⟩ := hp
      subst hqe
      replace he : (if (q.cards.filter fun c => c.value = w).length = 0 then q
        else { q with balance := q.balance + s.pot / (((s.players.map fun p =>
          (p.cards.filter fun c => c.value = w).length).sum : Nat) : ℚ) *
          (((q.cards.filter fun c => c.value = w).length : Nat) : ℚ) }).eliminated
            = false := he
      show 0 < (if (q.cards.filter fun c => c.value = w).length = 0 then q
        else { q with balance := q.balance + s.pot / (((s.players.map fun p =>
          (p.cards.filter fun c => c.value = w).length).sum : Nat) : ℚ) *
          (((q.cards.filter fun c => c.value = w).length : Nat) : ℚ) }).balance
      by_cases hc0 : (q.cards.filter fun c => c.value = w).length = 0
      · rw [if_pos hc0] at he ⊢
        exact h.alive q hq he
      · rw [if_neg hc0] at he ⊢
        have hq0 : 0 < q.balance := h.alive q hq he
        have hnn : 0 ≤ s.pot / (((s.players.map fun p =>
            (p.cards.filter fun c => c.value = w).length).sum : Nat) : ℚ) *
            (((q.cards.filter fun c => c.value = w).length : Nat) : ℚ) :=
          mul_nonneg (div_nonneg h.potNonneg (Nat.cast_nonneg _)) (Nat.cast_nonneg _)
        show 0 < q.balance + _
        linarith
    have hUnil : s.players = [] → (s.players.map fun p =>
        let matchCount : Nat := (p.cards.filter fun c => c.value = w).length
        if matchCount = 0 then p
        else { p with balance := p.balance +
          s.pot / (((s.players.map fun p =>
            (p.cards.filter fun c => c.value = w).length).sum : Nat) : ℚ) *
          ((matchCount : Nat) : ℚ) }) = [] := by
      intro hnil
      rw [hnil]
      rfl
    split
    · exact consInv_payoutWrite s _ _ _ hids hcards halive hUnil h
    · exact consInv_payoutWrite s _ _ _ hids hcards halive hUnil h

theorem consInv_setPhaseWinner (s : GameState) (ph : GamePhase) (w2 : Option Nat)
    (h : ConsInv s) : ConsInv { s with phase := ph, winner := w2 } :=
  ⟨h.conserve, h.dealt, h.pids, h.sellers, h.lids, h.lidBound, h.alive, h.potNonneg,
    h.modeNone⟩

theorem consInv_handleRaceRoll (s : GameState) (total : Nat) (h : ConsInv s) :
    ConsInv (handleRaceRoll s total) := by
  simp only [handleRaceRoll]
  split
  · exact h
  · split
    · exact consInv_advanceTurnWith _ _ h
    · split
      · exact consInv_advanceTurnWith _ _ h
      · split
        · exact consInv_chargeRoller s _ h
        · have h1 : ConsInv { s with horses := s.horses.map fun hh =>
              if hh.number ≠ total then hh
              else { hh with position := min (pegDistribution total + 1) (hh.position + 1) } } :=
            consInv_congr s _ rfl rfl rfl rfl rfl rfl rfl rfl h
          split
          · exact h1
          · split
            · apply consInv_handlePayout
              exact consInv_setPhaseWinner _ _ _ h1
            · exact consInv_advanceTurnWith _ _ h1

theorem consInv_handleRoll (s : GameState) (d1 d2 : Nat) (h : ConsInv s) :
    ConsInv (handleRoll s d1 d2) := by
  simp only [handleRoll]
  split
  · exact h
  · have h1 : ConsInv { s with
        diceRoll := some { die1 := d1, die2 := d2, total := d1 + d2 }, isRolling := true } :=
      consInv_congr s _ rfl rfl rfl rfl rfl rfl rfl rfl h
    split
    · exact consInv_handleScratchRoll _ _ h1
    · split
      · exact consInv_handleRaceRoll _ _ h1
      · exact h1

theorem consInv_rollDice (s : GameState) (d1 d2 : Nat) (h : ConsInv s) :
    ConsInv (rollDice s d1 d2) := by
  unfold rollDice
  split
  · exact consInv_handleRoll s d1 d2 h
  · exact h

theorem alive_map_preserve (ps : List Player) (f : Player → Player)
    (hf : ∀ p, (f p).eliminated = p.eliminated ∧ (f p).balance = p.balance)
    (h0 : ∀ p ∈ ps, p.eliminated = false → 0 < p.balance) :
    ∀ p ∈ ps.map f, p.eliminated = false → 0 < p.balance := by
  intro p hp he
  simp only [List.mem_map] at hp
  obtain ⟨q, hq, hqe⟩ := hp
  subst hqe
  rw [(hf q).2]
  exact h0 q hq (by rw [← (hf q).1]; exact he)

theorem coe_eraseIdx_extract (l : List Card) (i : Nat) (hi : i < l.length) :
    (↑l : Multiset Card) = ↑(l.eraseIdx i) + {l[i]} := by
  rw [List.eraseIdx_eq_take_drop_succ]
  conv_lhs => rw [← List.take_append_drop i l]
  rw [List.drop_eq_getElem_cons hi]
  simp only [← Multiset.coe_add]
  have : ({l[i]} : Multiset Card) = ↑[l[i]] := rfl
  rw [this]
  have hcons : (↑(l[i] :: List.drop (i + 1) l) : Multiset Card) =
      ↑[l[i]] + ↑(List.drop (i + 1) l) := rfl
  rw [hcons]
  abel

theorem coe_cardsOf_erase_one (ps : List Player) (f : Player → Player) (sid : Nat) (c : Card)
    (seller : Player) (hmem : seller ∈ ps) (hsid : seller.id = sid)
    (hnd : (ps.map fun p => p.id).Nodup)
    (hf : ∀ p, p.id ≠ sid → f p = p)
    (hfs : (↑(seller.cards) : Multiset Card) = ↑((f seller).cards) + {c}) :
    (↑(cardsOf ps) : Multiset Card) = ↑(cardsOf (ps.map f)) + {c} := by
  induction ps with
  | nil => cases hmem
  | cons p rest ih =>
    simp only [List.map_cons, List.nodup_cons] at hnd
    by_cases hp : p.id = sid
    · have hseller : seller = p := by
        rcases List.mem_cons.mp hmem with hh | hh
        · exact hh
        · exfalso
          apply hnd.1
          rw [hp, ← hsid]
          exact List.mem_map_of_mem (fun p => p.id) hh
      have hrest : cardsOf (rest.map f) = cardsOf rest := by
        apply cardsOf_map_eq
        intro q hq
        rw [hf q]
        intro hq2
        apply hnd.1
        rw [hp, ← hq2]
        exact List.mem_map_of_mem (fun p => p.id) hq
      show (↑(p.cards ++ cardsOf rest) : Multiset Card) =
        ↑((f p).cards ++ cardsOf (rest.map f)) + {c}
      rw [hrest]
      simp only [← Multiset.coe_add]
      rw [← hseller, hfs]
      abel
    · have hseller : seller ∈ rest := by
        rcases List.mem_cons.mp hmem with hh | hh
        · exfalso
          exact hp (by rw [← hh]; exact hsid)
        · exact hh
      have hih := ih hseller hnd.2
      show (↑(p.cards ++ cardsOf rest) : Multiset Card) =
        ↑((f p).cards ++ cardsOf (rest.map f)) + {c}
      rw [hf p hp]
      simp only [← Multiset.coe_add]
      rw [hih]
      abel

theorem findIdx?_found (p : Card → Bool) (l : List Card) :
    ∀ j i, List.findIdx? p l j = some i →
      j ≤ i ∧ ∃ c, l[i - j]? = some c ∧ p c = true := by
  induction l with
  | nil => intro j i h; simp [List.findIdx?] at h
  | cons a rest ih =>
    intro j i h
    rw [List.findIdx?_cons] at h
    by_cases hpa : p a = true
    · rw [if_pos hpa] at h
      cases h
      exact ⟨le_refl _, a, by simp, hpa⟩
    · rw [if_neg hpa] at h
      obtain ⟨hji, c, hc, hpc⟩ := ih (j + 1) i h
      refine ⟨by omega, c, ?_, hpc⟩
      have hc2 : rest[i - j - 1]? = some c := by
        rw [(by omega : i - j - 1 = i - (j + 1))]
        exact hc
      rw [(by omega : i - j = (i - j - 1) + 1), List.getElem?_cons_succ]
      exact hc2

theorem consInv_handleCancelListing (s : GameState) (listingId : Nat) (h : ConsInv s) :
    ConsInv (handleCancelListing s listingId) := by
  simp only [handleCancelListing]
  split
  · exact h
  · rename_i listing hfind
    have hmem := List.mem_of_find?_eq_some hfind
    have hid : listing.id = listingId := by simpa using List.find?_some hfind
    have hplus : (↑(cardsOf (s.players.map fun p =>
        if p.id ≠ listing.sellerId then p
        else { p with cards := p.cards ++ [listing.card] })) : Multiset Card)
        = ↑(cardsOf s.players) + {listing.card} := by
      apply coe_cardsOf_append_one s.players _ listing.sellerId listing.card h.pids
        (h.sellers listing hmem)
      intro p
      by_cases hp : p.id = listing.sellerId
      · simp [hp]
      · simp [hp]
    have hconv : (s.tradeListings.filter fun e => e.id ≠ listingId) =
        s.tradeListings.filter fun e => e.id ≠ listing.id := by
      rw [hid]
    have hlist : (↑(s.tradeListings.map fun l => l.card) : Multiset Card) =
        listing.card ::ₘ ↑((s.tradeListings.filter fun e => e.id ≠ listing.id).map
          fun l => l.card) :=
      coe_listings_remove s.tradeListings listing hmem h.lids
    constructor
    · rw [circulation_parts]
      show (↑(cardsOf (s.players.map fun p =>
          if p.id ≠ listing.sellerId then p
          else { p with cards := p.cards ++ [listing.card] }) ++
            ((s.tradeListings.filter fun e => e.id ≠ listingId).map fun l => l.card)) :
          Multiset Card) + ↑s.forfeited + ↑s.discarded = ↑s.dealtCards
      have hc := h.conserve
      rw [circulation_parts] at hc
      simp only [← Multiset.coe_add] at hc ⊢
      rw [hconv, hplus]
      rw [hlist] at hc
      simp only [← Multiset.singleton_add] at hc ⊢
      rw [← hc]
      abel
    · exact h.dealt
    · dsimp only
      rw [map_map_id_eq]
      · exact h.pids
      · intro p _
        split <;> rfl
    · intro l hl
      dsimp only
      rw [map_map_id_eq]
      · exact h.sellers l (List.mem_of_mem_filter hl)
      · intro p _
        split <;> rfl
    · exact (List.Sublist.map _ (List.filter_sublist _)).nodup h.lids
    · intro l hl
      exact h.lidBound l (List.mem_of_mem_filter hl)
    · apply alive_map_preserve
      · intro p
        constructor <;> (split <;> rfl)
      · exact h.alive
    · exact h.potNonneg
    · intro hm
      rw [h.modeNone hm]
      rfl

theorem consInv_closeTradeMarket (s : GameState) (h : ConsInv s) :
    ConsInv (closeTradeMarket s) := by
  simp only [closeTradeMarket]
  constructor
  · rw [circulation_parts]
    show (↑(cardsOf (if 0 < s.tradeListings.length then
        s.players.map fun p =>
          let returns := (s.tradeListings.filter fun l => l.sellerId = p.id).map
            fun l => l.card
          if returns.length = 0 then p else { p with cards := p.cards ++ returns }
      else s.players) ++ (([] : List TradeListing).map fun l => l.card)) : Multiset Card)
      + ↑s.forfeited + ↑s.discarded = ↑s.dealtCards
    have hc := h.conserve
    rw [circulation_parts] at hc
    simp only [← Multiset.coe_add] at hc ⊢
    split
    · have hcof : (↑(cardsOf (s.players.map fun p =>
          let returns := (s.tradeListings.filter fun l => l.sellerId = p.id).map
            fun l => l.card
          if returns.length = 0 then p else { p with cards := p.cards ++ returns })) :
          Multiset Card) = ↑(cardsOf s.players)
            + ↑(s.tradeListings.map fun l => l.card) := by
        rw [cardsOf_map]
        have hpoint : (s.players.flatMap fun p =>
            ((fun p =>
              let returns := (s.tradeListings.filter fun l => l.sellerId = p.id).map
                fun l => l.card
              if returns.length = 0 then p else { p with cards := p.cards ++ returns }) p).cards)
            = s.players.flatMap fun p => p.cards ++
                ((s.tradeListings.filter fun l => l.sellerId = p.id).map fun l => l.card) := by
          apply List.flatMap_congr
          intro p _
          show (if ((s.tradeListings.filter fun l => l.sellerId = p.id).map
              fun l => l.card).length = 0 then p
            else { p with cards := p.cards ++
              ((s.tradeListings.filter fun l => l.sellerId = p.id).map
                fun l => l.card) }).cards = _
          split
          · rename_i hz
            rw [List.length_eq_zero.mp hz]
            simp
          · rfl
        rw [hpoint, coe_flatMap_split]
        have hgroup := coe_flatMap_group s.players s.tradeListings h.pids h.sellers
        rw [hgroup]
        rfl
      rw [hcof]
      rw [← hc]
      simp only [List.map_nil]
      abel
    · rename_i hlen
      have : s.tradeListings = [] := by
        rcases List.eq_nil_or_concat s.tradeListings with hnil | ⟨l2, a, hcat⟩
        · exact hnil
        · exfalso
          apply hlen
          rw [hcat]
          simp
      rw [this] at hc
      simp only [List.map_nil] at hc ⊢
      rw [← hc]
  · exact h.dealt
  · dsimp only
    split
    · rw [map_map_id_eq]
      · exact h.pids
      · intro p _
        dsimp only
        split <;> rfl
    · exact h.pids
  · intro l hl
    cases hl
  · exact List.nodup_nil
  · intro l hl
    cases hl
  · dsimp only
    split
    · apply alive_map_preserve
      · intro p
        dsimp only
        constructor <;> (split <;> rfl)
      · exact h.alive
    · exact h.alive
  · exact h.potNonneg
  · intro hm
    dsimp only
    rw [h.modeNone hm]
    split <;> rfl

theorem consInv_handleListCardForSale (s : GameState) (card : Card) (h : ConsInv s) :
    ConsInv (handleListCardForSale s card) := by
  simp only [handleListCardForSale]
  split
  · exact h
  · split
    · exact h
    · rename_i seller hfindSeller
      split
      · exact h
      · split
        · exact h
        · split
          · exact h
          · rename_i cardIndex hIdx
            have hsmem : seller ∈ s.players := List.mem_of_find?_eq_some hfindSeller
            obtain ⟨-, c, hc, hpc⟩ := findIdx?_found _ seller.cards 0 cardIndex hIdx
            rw [Nat.sub_zero] at hc
            have hceq : c = card := by
              simp only [Bool.and_eq_true, decide_eq_true_eq] at hpc
              cases c
              cases card
              simp_all
            have hlt : cardIndex < seller.cards.length := by
              by_contra hcon
              rw [List.getElem?_eq_none (by omega)] at hc
              exact Option.noConfusion hc
            have hfs : (↑seller.cards : Multiset Card) =
                ↑(seller.cards.eraseIdx cardIndex) + {card} := by
              have := coe_eraseIdx_extract seller.cards cardIndex hlt
              rw [List.getElem?_eq_getElem hlt, Option.some.injEq] at hc
              rw [this, hc, hceq]
            have herase : (↑(cardsOf s.players) : Multiset Card) =
                ↑(cardsOf (s.players.map fun p =>
                  if p.id ≠ seller.id then p
                  else { p with cards := p.cards.eraseIdx cardIndex })) + {card} := by
              apply coe_cardsOf_erase_one s.players _ seller.id card seller hsmem rfl h.pids
              · intro p hp
                rw [if_pos hp]
              · show (↑seller.cards : Multiset Card) =
                  ↑((if seller.id ≠ seller.id then seller
                    else { seller with cards := seller.cards.eraseIdx cardIndex }).cards) +
                    {card}
                rw [if_neg (by simp)]
                exact hfs
            constructor
            · rw [circulation_parts]
              have hc2 := h.conserve
              rw [circulation_parts] at hc2
              simp only [← Multiset.coe_add, List.map_append, List.map_cons,
                List.map_nil] at hc2 ⊢
              rw [← hc2, herase]
              rw [show ({card} : Multiset Card) = ↑[card] from rfl]
              abel
            · exact h.dealt
            · dsimp only
              rw [map_map_id_eq]
              · exact h.pids
              · intro p _
                split <;> rfl
            · intro l hl
              dsimp only
              rw [map_map_id_eq]
              · rcases List.mem_append.mp hl with h1 | h1
                · exact h.sellers l h1
                · have : l = ⟨s.listingCounter + 1, card, seller.id⟩ := by simpa using h1
                  rw [this]
                  exact List.mem_map_of_mem (fun p => p.id) hsmem
              · intro p _
                split <;> rfl
            · rw [List.map_append, List.nodup_append]
              refine ⟨h.lids, by simp, ?_⟩
              intro a ha hb
              simp only [List.map_cons, List.map_nil, List.mem_cons,
                List.not_mem_nil, or_false] at hb
              simp only [List.mem_map] at ha
              obtain ⟨l, hl, hla⟩ := ha
              have := h.lidBound l hl
              omega
            · intro l hl
              rcases List.mem_append.mp hl with h1 | h1
              · have := h.lidBound l h1
                show l.id ≤ s.listingCounter + 1
                omega
              · have : l = ⟨s.listingCounter + 1, card, seller.id⟩ := by simpa using h1
                rw [this]
            · apply alive_map_preserve
              · intro p
                constructor <;> (split <;> rfl)
              · exact h.alive
            · exact h.potNonneg
            · intro hm
              rw [h.modeNone hm]
              rfl

/-- In the buy update, every player other than the buyer keeps a positive
balance, so only the buyer can be newly eliminated by the nested bailout. -/
theorem bailoutElimIds_buy (amount : ℚ) (used : List Nat) (ps : List Player)
    (bid sid : Nat) (c : Card)
    (halive : ∀ p ∈ ps, p.eliminated = false → 0 < p.balance) :
    ∀ i ∈ bailoutElimIds amount used (ps.map fun p =>
      if p.id = bid then
        { p with balance := p.balance - LISTING_PRICE, cards := p.cards ++ [c] }
      else if p.id = sid then { p with balance := p.balance + LISTING_PRICE }
      else p), i = bid := by
  intro i hi
  unfold bailoutElimIds at hi
  simp only [List.mem_map, List.mem_filter] at hi
  obtain ⟨p2, ⟨hp2U, hcond⟩, hpid⟩ := hi
  obtain ⟨q, hq, hqe⟩ := hp2U
  subst hqe
  subst hpid
  by_cases h1 : q.id = bid
  · rw [if_pos h1]
    exact h1
  · exfalso
    rw [if_neg h1] at hcond
    by_cases h2 : q.id = sid
    · rw [if_pos h2] at hcond
      simp only [Bool.and_eq_true, Bool.not_eq_true', decide_eq_true_eq] at hcond
      obtain ⟨helim, hbal⟩ := hcond
      have hq0 : 0 < q.balance := halive q hq helim
      have hLP : (0 : ℚ) < LISTING_PRICE := by norm_num [LISTING_PRICE]
      by_cases hcred : bailoutCredited used { q with balance := q.balance + LISTING_PRICE }
      · unfold bailoutCredited at hcred
        simp only [Bool.and_eq_true, Bool.not_eq_true', decide_eq_true_eq] at hcred
        linarith [hcred.1.2]
      · rw [if_neg hcred] at hbal
        show False
        have : (0 : ℚ) < q.balance + LISTING_PRICE := by linarith
        linarith
    · rw [if_neg h2] at hcond
      simp only [Bool.and_eq_true, Bool.not_eq_true', decide_eq_true_eq] at hcond
      obtain ⟨helim, hbal⟩ := hcond
      have hq0 : 0 < q.balance := halive q hq helim
      by_cases hcred : bailoutCredited used q
      · unfold bailoutCredited at hcred
        simp only [Bool.and_eq_true, Bool.not_eq_true', decide_eq_true_eq] at hcred
        linarith [hcred.1.2]
      · rw [if_neg hcred] at hbal
        linarith

theorem consInv_handleBuyListing (s : GameState) (listingId : Nat) (h : ConsInv s) :
    ConsInv (handleBuyListing s listingId) := by
  simp only [handleBuyListing]
  split
  · exact h
  · rename_i listing hfind
    split
    · exact h
    · rename_i hsne
      split
      · exact h
      · rename_i buyer hfindBuyer
        split
        · exact h
        · split
          · exact h
          · split
            · exact h
            · have hlmem : listing ∈ s.tradeListings := List.mem_of_find?_eq_some hfind
              have hbmem : buyer ∈ s.players := List.mem_of_find?_eq_some hfindBuyer
              have hbid : buyer.id = 1 := by simpa using List.find?_some hfindBuyer
              have hids : (s.players.map fun p =>
                  if p.id = buyer.id then
                    { p with balance := p.balance - LISTING_PRICE, cards := p.cards ++ [listing.card] }
                  else if p.id = listing.sellerId then
                    { p with balance := p.balance + LISTING_PRICE }
                  else p).map (fun p => p.id) = s.players.map fun p => p.id := by
                apply map_map_id_eq
                intro p _
                split
                · rfl
                · split <;> rfl
              have hplus : (↑(cardsOf (s.players.map fun p =>
                  if p.id = buyer.id then
                    { p with balance := p.balance - LISTING_PRICE, cards := p.cards ++ [listing.card] }
                  else if p.id = listing.sellerId then
                    { p with balance := p.balance + LISTING_PRICE }
                  else p)) : Multiset Card)
                  = ↑(cardsOf s.players) + {listing.card} := by
                apply coe_cardsOf_append_one s.players _ buyer.id listing.card h.pids
                  (List.mem_map_of_mem (fun p => p.id) hbmem)
                intro p
                by_cases hp : p.id = buyer.id
                · simp only [hp, if_true]
                · rw [if_neg hp, if_neg hp]
                  split <;> rfl
              have hUnil : s.players = [] → (s.players.map fun p =>
                  if p.id = buyer.id then
                    { p with balance := p.balance - LISTING_PRICE, cards := p.cards ++ [listing.card] }
                  else if p.id = listing.sellerId then
                    { p with balance := p.balance + LISTING_PRICE }
                  else p) = [] := by
                intro hnil
                rw [hnil]
                rfl
              set U := s.players.map fun p =>
                  if p.id = buyer.id then
                    { p with balance := p.balance - LISTING_PRICE, cards := p.cards ++ [listing.card] }
                  else if p.id = listing.sellerId then
                    { p with balance := p.balance + LISTING_PRICE }
                  else p with hU
              have hsub1 := applyBailoutIfNeeded_listings_sublist s U
              have hled := applyBailoutIfNeeded_ledger s U
              have hsf := applyBailoutIfNeeded_stateFields s U
              have hids1 := applyBailoutIfNeeded_ids s U
              have hlids1 : ((applyBailoutIfNeeded s U).tradeListings.map fun l => l.id).Nodup :=
                (List.Sublist.map _ hsub1).nodup h.lids
              have hkeep : listing ∈ (applyBailoutIfNeeded s U).tradeListings := by
                cases hm : s.gameMode with
                | none =>
                  simp only [applyBailoutIfNeeded, hm]
                  exact hlmem
                | some mode =>
                  simp only [applyBailoutIfNeeded, hm]
                  apply List.mem_filter.mpr
                  refine ⟨hlmem, ?_⟩
                  have hel := bailoutElimIds_buy (bailoutAmount mode) s.bailoutUsedByPlayer
                    s.players buyer.id listing.sellerId listing.card h.alive
                  by_cases hcon : (bailoutElimIds (bailoutAmount mode) s.bailoutUsedByPlayer
                      U).contains listing.sellerId
                  · exfalso
                    have hmem2 : listing.sellerId ∈ bailoutElimIds (bailoutAmount mode)
                        s.bailoutUsedByPlayer U := List.mem_of_elem_eq_true hcon
                    have := hel listing.sellerId (hU ▸ hmem2)
                    rw [hbid] at this
                    exact hsne this
                  · simp only [Bool.not_eq_true']
                    exact Bool.of_not_eq_true hcon
              have hex : (↑((applyBailoutIfNeeded s U).tradeListings.map fun l => l.card) :
                  Multiset Card) = listing.card ::ₘ
                    ↑(((applyBailoutIfNeeded s U).tradeListings.filter
                      fun e => e.id ≠ listing.id).map fun l => l.card) :=
                coe_listings_remove _ listing hkeep hlids1
              constructor
              · rw [circulation_parts]
                have hc := h.conserve
                rw [circulation_parts] at hc
                dsimp only
                rw [hsf.1, hsf.2.1]
                simp only [← Multiset.coe_add] at hc hled ⊢
                simp only [← Multiset.singleton_add] at hex
                set A := (↑(cardsOf (applyBailoutIfNeeded s U).players) : Multiset Card)
                set B := (↑((applyBailoutIfNeeded s U).tradeListings.map fun l => l.card) :
                  Multiset Card)
                set Bf := (↑(((applyBailoutIfNeeded s U).tradeListings.filter
                  fun e => e.id ≠ listing.id).map fun l => l.card) : Multiset Card)
                set C := (↑(applyBailoutIfNeeded s U).discarded : Multiset Card)
                set D := (↑(cardsOf U) : Multiset Card)
                set E := (↑(s.tradeListings.map fun l => l.card) : Multiset Card)
                set Sd := (↑s.discarded : Multiset Card)
                set P := (↑(cardsOf s.players) : Multiset Card)
                set G := (↑s.forfeited : Multiset Card)
                set L := ({listing.card} : Multiset Card)
                have hXY : (A + Bf + C) + L = (P + E + Sd) + L := by
                  calc (A + Bf + C) + L = A + (L + Bf) + C := by abel
                    _ = A + B + C := by rw [← hex]
                    _ = D + E + Sd := hled
                    _ = P + L + E + Sd := by rw [hplus]
                    _ = (P + E + Sd) + L := by abel
                have hXY2 := add_right_cancel hXY
                rw [(by abel : A + Bf + G + C = (A + Bf + C) + G), hXY2,
                  (by abel : P + E + Sd + G = P + E + G + Sd), hc]
              · dsimp only
                rw [hsf.2.1]
                exact h.dealt
              · dsimp only
                rw [hids1, hids]
                exact h.pids
              · intro l hl
                dsimp only
                rw [hids1, hids]
                exact h.sellers l (hsub1.mem (List.mem_of_mem_filter hl))
              · dsimp only
                exact (List.Sublist.map _ (List.filter_sublist _)).nodup hlids1
              · intro l hl
                dsimp only
                rw [hsf.2.2.2.1]
                exact h.lidBound l (hsub1.mem (List.mem_of_mem_filter hl))
              · dsimp only
                apply applyBailoutIfNeeded_alive
                intro hmode p hp he
                rw [hUnil (h.modeNone hmode)] at hp
                cases hp
              · dsimp only
                rw [hsf.2.2.1]
                exact h.potNonneg
              · dsimp only
                rw [hsf.2.2.2.2]
                intro hmode
                simp only [applyBailoutIfNeeded, hmode]
                exact hUnil (h.modeNone hmode)

theorem aiPickGo_perm (o : AiListOracle) (pid : Nat) :
    ∀ (k round : Nat) (cards : List Card),
      (↑cards : Multiset Card) = ↑(aiPickGo o pid round k cards).1
        + ↑(aiPickGo o pid round k cards).2 := by
  intro k
  induction k with
  | zero => intro round cards; simp [aiPickGo]
  | succ k ih =>
    intro round cards
    cases hc : cards[o.pickIdx pid round % cards.length]? with
    | none =>
      simp only [aiPickGo, hc]
      simp
    | some c =>
      simp only [aiPickGo, hc]
      have hlt : o.pickIdx pid round % cards.length < cards.length := by
        by_contra hcon
        rw [List.getElem?_eq_none (by omega)] at hc
        exact Option.noConfusion hc
      have hextract := coe_eraseIdx_extract cards _ hlt
      rw [List.getElem?_eq_getElem hlt, Option.some.injEq] at hc
      rw [hextract, hc, ih (round + 1) (cards.eraseIdx (o.pickIdx pid round % cards.length))]
      rw [show (↑(c :: (aiPickGo o pid (round + 1) k
        (cards.eraseIdx (o.pickIdx pid round % cards.length))).2) : Multiset Card)
        = {c} + ↑(aiPickGo o pid (round + 1) k
          (cards.eraseIdx (o.pickIdx pid round % cards.length))).2 from rfl]
      abel

theorem freshListings_card (L : List Card) (counter sid : Nat) :
    (L.mapIdx fun i c => (⟨counter + i + 1, c, sid⟩ : TradeListing)).map
      (fun l => l.card) = L := by
  apply List.ext_getElem (by simp)
  intro i h1 h2
  simp [List.getElem_mapIdx]

theorem freshListings_mem (L : List Card) (counter sid : Nat) :
    ∀ l ∈ (L.mapIdx fun i c => (⟨counter + i + 1, c, sid⟩ : TradeListing)),
      l.sellerId = sid ∧ counter < l.id ∧ l.id ≤ counter + L.length := by
  intro l hl
  rw [List.mem_iff_getElem] at hl
  obtain ⟨i, hi, hli⟩ := hl
  rw [List.getElem_mapIdx] at hli
  have hiL : i < L.length := by simpa using hi
  subst hli
  refine ⟨rfl, ?_, ?_⟩
  · show counter < counter + i + 1
    omega
  · show counter + i + 1 ≤ counter + L.length
    omega

theorem freshListings_nodup (L : List Card) (counter sid : Nat) :
    ((L.mapIdx fun i c => (⟨counter + i + 1, c, sid⟩ : TradeListing)).map
      fun l => l.id).Nodup := by
  have : ((L.mapIdx fun i c => (⟨counter + i + 1, c, sid⟩ : TradeListing)).map
      fun l => l.id) = (List.range L.length).map fun i => counter + i + 1 := by
    apply List.ext_getElem (by simp)
    intro i h1 h2
    simp [List.getElem_mapIdx]
  rw [this]
  apply List.Nodup.map
  · intro a b hab
    have : counter + a + 1 = counter + b + 1 := hab
    omega
  · exact List.nodup_range _

theorem cardsOf_append (xs ys : List Player) :
    cardsOf (xs ++ ys) = cardsOf xs ++ cardsOf ys := by
  unfold cardsOf
  rw [List.flatMap_append]

theorem createAiListings_eq (o : AiListOracle) (counter0 : Nat) (ps : List Player) :
    createAiListings o counter0 ps = ps.foldl (aiStep o) ([], [], counter0) := rfl

theorem aiFold_inv (o : AiListOracle) (ps : List Player) :
    ∀ acc : List Player × List TradeListing × Nat,
      ((ps.foldl (aiStep o) acc).1.map core3 = acc.1.map core3 ++ ps.map core3)
      ∧ ((↑(cardsOf (ps.foldl (aiStep o) acc).1) : Multiset Card)
          + ↑((ps.foldl (aiStep o) acc).2.1.map fun l => l.card)
        = ↑(cardsOf acc.1) + ↑(acc.2.1.map fun l => l.card) + ↑(cardsOf ps))
      ∧ acc.2.2 ≤ (ps.foldl (aiStep o) acc).2.2
      ∧ (∀ l ∈ (ps.foldl (aiStep o) acc).2.1, l ∈ acc.2.1 ∨
          (l.sellerId ∈ ps.map (fun p => p.id) ∧ acc.2.2 < l.id ∧
            l.id ≤ (ps.foldl (aiStep o) acc).2.2))
      ∧ ((acc.2.1.map (fun l => l.id)).Nodup → (∀ l ∈ acc.2.1, l.id ≤ acc.2.2) →
          (((ps.foldl (aiStep o) acc).2.1.map fun l => l.id).Nodup ∧
            ∀ l ∈ (ps.foldl (aiStep o) acc).2.1,
              l.id ≤ (ps.foldl (aiStep o) acc).2.2)) := by
  induction ps with
  | nil =>
    intro acc
    refine ⟨by simp, by simp [cardsOf], le_refl _, fun l hl => Or.inl hl,
      fun h1 h2 => ⟨h1, h2⟩⟩
  | cons p rest ih =>
    intro acc
    rw [List.foldl_cons]
    by_cases hskip : (p.eliminated || p.id = 1 || decide (p.cards.length ≤ 1)) = true
    · have hstep : aiStep o acc p = (acc.1 ++ [p], acc.2.1, acc.2.2) := by
        unfold aiStep
        rw [if_pos hskip]
      rw [hstep]
      obtain ⟨i1, i2, i3, i4, i5⟩ := ih (acc.1 ++ [p], acc.2.1, acc.2.2)
      refine ⟨?_, ?_, i3, ?_, i5⟩
      · rw [i1]
        simp
      · rw [i2, cardsOf_append]
        rw [show cardsOf (p :: rest) = p.cards ++ cardsOf rest from rfl,
          show cardsOf [p] = p.cards ++ [] from rfl]
        simp only [← Multiset.coe_add]
        abel
      · intro l hl
        rcases i4 l hl with hin | ⟨hs, hlt, hle⟩
        · exact Or.inl hin
        · exact Or.inr ⟨by simp [hs], hlt, hle⟩
    · set pick := aiPickGo o p.id 0 (min (if decide (1 < p.cards.length) &&
        o.wantsTwo p.id then 2 else 1) (p.cards.length - 1)) p.cards with hpick
      set newLs := pick.2.mapIdx fun i c =>
        (⟨acc.2.2 + i + 1, c, p.id⟩ : TradeListing) with hnewLs
      have hstep : aiStep o acc p =
          (acc.1 ++ [{ p with cards := pick.1 }], acc.2.1 ++ newLs,
            acc.2.2 + pick.2.length) := by
        unfold aiStep
        rw [if_neg hskip]
      rw [hstep]
      obtain ⟨i1, i2, i3, i4, i5⟩ := ih (acc.1 ++ [{ p with cards := pick.1 }],
        acc.2.1 ++ newLs, acc.2.2 + pick.2.length)
      refine ⟨?_, ?_, ?_, ?_, ?_⟩
      · rw [i1]
        simp [core3]
      · rw [i2, cardsOf_append]
        rw [show cardsOf (p :: rest) = p.cards ++ cardsOf rest from rfl,
          show cardsOf [{ p with cards := pick.1 }] = pick.1 ++ [] from rfl,
          List.map_append]
        rw [show newLs.map (fun l => l.card) = pick.2 from freshListings_card _ _ _]
        have hperm := aiPickGo_perm o p.id (min (if decide (1 < p.cards.length) &&
          o.wantsTwo p.id then 2 else 1) (p.cards.length - 1)) 0 p.cards
        rw [← hpick] at hperm
        simp only [← Multiset.coe_add]
        rw [hperm]
        abel
      · show acc.2.2 ≤ _
        have : acc.2.2 ≤ acc.2.2 + pick.2.length := by omega
        exact le_trans this i3
      · intro l hl
        rcases i4 l hl with hin | ⟨hs, hlt, hle⟩
        · rcases List.mem_append.mp hin with h1 | h1
          · exact Or.inl h1
          · have hm := freshListings_mem pick.2 acc.2.2 p.id l h1
            exact Or.inr ⟨by simp [hm.1], hm.2.1, le_trans hm.2.2 i3⟩
        · refine Or.inr ⟨by simp [hs], ?_, hle⟩
          have hlt2 : acc.2.2 + pick.2.length < l.id := hlt
          show acc.2.2 < l.id
          omega
      · intro hnd hbound
        apply i5
        · rw [List.map_append, List.nodup_append]
          refine ⟨hnd, freshListings_nodup _ _ _, ?_⟩
          intro a ha hb
          simp only [List.mem_map] at ha hb
          obtain ⟨l1, hl1, ha1⟩ := ha
          obtain ⟨l2, hl2, ha2⟩ := hb
          have hb1 := hbound l1 hl1
          have hb2 := (freshListings_mem pick.2 acc.2.2 p.id l2 hl2).2.1
          omega
        · intro l hl
          rcases List.mem_append.mp hl with h1 | h1
          · have := hbound l h1
            show l.id ≤ acc.2.2 + pick.2.length
            omega
          · exact (freshListings_mem pick.2 acc.2.2 p.id l h1).2.2

theorem consInv_openTradeMarket (s : GameState) (o : AiListOracle)
    (hempty : s.tradeListings = []) (h : ConsInv s) :
    ConsInv (openTradeMarket s o) := by
  simp only [openTradeMarket, createAiListings_eq]
  obtain ⟨i1, i2, i3, i4, i5⟩ := aiFold_inv o s.players ([], [], s.listingCounter)
  simp only [List.map_nil, List.nil_append] at i1
  have hids : (s.players.foldl (aiStep o) ([], [], s.listingCounter)).1.map (fun p => p.id)
      = s.players.map fun p => p.id := by
    have h2 := congrArg (List.map (fun t : Nat × ℚ × Bool => t.1)) i1
    simp only [List.map_map] at h2
    exact h2
  have hcore : ∀ p2 ∈ (s.players.foldl (aiStep o) ([], [], s.listingCounter)).1,
      ∃ q ∈ s.players, core3 q = core3 p2 := by
    intro p2 hp2
    have h3 : core3 p2 ∈ (s.players.foldl (aiStep o) ([], [], s.listingCounter)).1.map
        core3 := List.mem_map_of_mem core3 hp2
    rw [i1] at h3
    simp only [List.mem_map] at h3
    obtain ⟨q, hq, hqe⟩ := h3
    exact ⟨q, hq, hqe⟩
  have hnodups := i5 (by simp) (by simp)
  constructor
  · rw [circulation_parts]
    dsimp only
    have hc := h.conserve
    rw [circulation_parts, hempty] at hc
    simp only [List.map_nil] at hc
    rw [show cardsOf ([] : List Player) = [] from rfl] at i2
    simp only [List.map_nil] at i2
    simp only [← Multiset.coe_add] at hc i2 ⊢
    rw [show (↑([] : List Card) : Multiset Card) = 0 from rfl] at hc i2
    simp only [zero_add, add_zero] at hc i2
    rw [(by abel : (↑(cardsOf (s.players.foldl (aiStep o)
        ([], [], s.listingCounter)).1) : Multiset Card)
        + ↑(List.map (fun l => l.card)
            (s.players.foldl (aiStep o) ([], [], s.listingCounter)).2.1)
        + ↑s.forfeited + ↑s.discarded
      = (↑(cardsOf (s.players.foldl (aiStep o) ([], [], s.listingCounter)).1)
        + ↑(List.map (fun l => l.card)
            (s.players.foldl (aiStep o) ([], [], s.listingCounter)).2.1))
        + ↑s.forfeited + ↑s.discarded), i2]
    exact hc
  · exact h.dealt
  · dsimp only
    rw [hids]
    exact h.pids
  · intro l hl
    dsimp only at hl ⊢
    rcases i4 l hl with hin | ⟨hs, -, -⟩
    · cases hin
    · rw [hids]
      exact hs
  · exact hnodups.1
  · intro l hl
    dsimp only at hl ⊢
    exact hnodups.2 l hl
  · dsimp only
    intro p2 hp2 he
    obtain ⟨q, hq, hqe⟩ := hcore p2 hp2
    simp only [core3, Prod.mk.injEq] at hqe
    rw [← hqe.2.1]
    apply h.alive q hq
    rw [hqe.2.2]
    exact he
  · exact h.potNonneg
  · intro hm
    dsimp only
    rw [h.modeNone hm]
    rfl

theorem aiBuyLoop_inv (o : AiBuyOracle) (elimIds : List Nat) (maxTx pid : Nat) :
    ∀ (fuel : Nat) (st : AiPassState),
      (st.players.map fun p => p.id).Nodup →
      (st.listings.map fun l => l.id).Nodup →
      ((aiBuyLoop o elimIds maxTx pid fuel st).players.map (fun p => p.id)
          = st.players.map fun p => p.id)
      ∧ ((↑(cardsOf (aiBuyLoop o elimIds maxTx pid fuel st).players) : Multiset Card)
          + ↑((aiBuyLoop o elimIds maxTx pid fuel st).listings.map fun l => l.card)
        = ↑(cardsOf st.players) + ↑(st.listings.map fun l => l.card))
      ∧ (aiBuyLoop o elimIds maxTx pid fuel st).listings.Sublist st.listings := by
  intro fuel
  induction fuel with
  | zero =>
    intro st h1 h2
    exact ⟨rfl, rfl, List.Sublist.refl _⟩
  | succ fuel ih =>
    intro st h1 h2
    simp only [aiBuyLoop]
    cases hfind : st.players.find? (fun p => p.id = pid) with
    | none => exact ⟨rfl, rfl, List.Sublist.refl _⟩
    | some buyer =>
      dsimp only
      by_cases hg1 : buyer.balance < LISTING_PRICE
      · rw [if_pos hg1]
        exact ⟨rfl, rfl, List.Sublist.refl _⟩
      · rw [if_neg hg1]
        by_cases hg2 : maxTx ≤ st.transactions
        · rw [if_pos hg2]
          exact ⟨rfl, rfl, List.Sublist.refl _⟩
        · rw [if_neg hg2]
          by_cases hg3 : o.stop st.attempt = true
          · rw [if_pos hg3]
            exact ⟨rfl, rfl, List.Sublist.refl _⟩
          · rw [if_neg hg3]
            by_cases hlen : (aiOptions st elimIds pid).length = 0
            · rw [if_pos hlen]
              exact ⟨rfl, rfl, List.Sublist.refl _⟩
            · rw [if_neg hlen]
              cases hopt : (aiOptions st elimIds pid)[o.pickListing st.attempt %
                  (aiOptions st elimIds pid).length]? with
              | none =>
                exact ⟨rfl, rfl, List.Sublist.refl _⟩
              | some listing =>
                have hlmem : listing ∈ st.listings := by
                  have := List.getElem?_mem hopt
                  exact List.mem_of_mem_filter this
                have hbmem : buyer ∈ st.players := List.mem_of_find?_eq_some hfind
                have hbpid : buyer.id = pid := by simpa using List.find?_some hfind
                have hplus : (↑(cardsOf (st.players.map fun q =>
                    if q.id = pid then
                      { q with balance := q.balance - LISTING_PRICE, cards := q.cards ++ [listing.card] }
                    else if q.id = listing.sellerId then
                      { q with balance := q.balance + LISTING_PRICE }
                    else q)) : Multiset Card)
                    = ↑(cardsOf st.players) + {listing.card} := by
                  apply coe_cardsOf_append_one st.players _ pid listing.card h1
                  · rw [← hbpid]
                    exact List.mem_map_of_mem (fun p => p.id) hbmem
                  · intro q
                    by_cases hq : q.id = pid
                    · simp only [hq, if_true]
                    · rw [if_neg hq, if_neg hq]
                      split <;> rfl
                have hids2 : ((st.players.map fun q =>
                    if q.id = pid then
                      { q with balance := q.balance - LISTING_PRICE, cards := q.cards ++ [listing.card] }
                    else if q.id = listing.sellerId then
                      { q with balance := q.balance + LISTING_PRICE }
                    else q).map fun p => p.id) = st.players.map fun p => p.id := by
                  apply map_map_id_eq
                  intro q _
                  split
                  · rfl
                  · split <;> rfl
                have hex : (↑(st.listings.map fun l => l.card) : Multiset Card)
                    = listing.card ::ₘ ↑((st.listings.filter fun e => e.id ≠ listing.id).map
                      fun l => l.card) := coe_listings_remove st.listings listing hlmem h2
                obtain ⟨j1, j2, j3⟩ := ih
                  { players := st.players.map fun q =>
                      if q.id = pid then
                        { q with balance := q.balance - LISTING_PRICE, cards := q.cards ++ [listing.card] }
                      else if q.id = listing.sellerId then
                        { q with balance := q.balance + LISTING_PRICE }
                      else q,
                    listings := st.listings.filter fun e => e.id ≠ listing.id,
                    buyCounts := setCount st.buyCounts pid (lookupCount st.buyCounts pid + 1),
                    sellCounts := setCount st.sellCounts listing.sellerId
                      (lookupCount st.sellCounts listing.sellerId + 1),
                    transactions := st.transactions + 1,
                    attempt := st.attempt + 1,
                    changed := true }
                  (by dsimp only; rw [hids2]; exact h1)
                  (by dsimp only
                      exact (List.Sublist.map _ (List.filter_sublist _)).nodup h2)
                refine ⟨?_, ?_, ?_⟩
                · rw [j1]
                  dsimp only
                  exact hids2
                · rw [j2]
                  dsimp only
                  rw [hplus, hex]
                  simp only [← Multiset.singleton_add]
                  abel
                · exact j3.trans (List.filter_sublist _)

theorem aiBuyPass_inv (o : AiBuyOracle) (elimIds : List Nat) (maxTx : Nat) :
    ∀ (pids : List Nat) (st : AiPassState),
      (st.players.map fun p => p.id).Nodup →
      (st.listings.map fun l => l.id).Nodup →
      ((aiBuyPass o elimIds maxTx pids st).players.map (fun p => p.id)
          = st.players.map fun p => p.id)
      ∧ ((↑(cardsOf (aiBuyPass o elimIds maxTx pids st).players) : Multiset Card)
          + ↑((aiBuyPass o elimIds maxTx pids st).listings.map fun l => l.card)
        = ↑(cardsOf st.players) + ↑(st.listings.map fun l => l.card))
      ∧ (aiBuyPass o elimIds maxTx pids st).listings.Sublist st.listings := by
  intro pids
  induction pids with
  | nil =>
    intro st h1 h2
    exact ⟨rfl, rfl, List.Sublist.refl _⟩
  | cons pid rest ih =>
    intro st h1 h2
    rw [aiBuyPass]
    split
    · exact ⟨rfl, rfl, List.Sublist.refl _⟩
    · cases hfind : st.players.find? (fun p => p.id = pid) with
      | none =>
        exact ih st h1 h2
      | some player =>
        dsimp only
        split
        · exact ih st h1 h2
        · obtain ⟨j1, j2, j3⟩ := aiBuyLoop_inv o elimIds maxTx pid
            (MAX_TRADES_PER_PLAYER - lookupCount st.buyCounts pid) st h1 h2
          obtain ⟨k1, k2, k3⟩ := ih
            (aiBuyLoop o elimIds maxTx pid
              (MAX_TRADES_PER_PLAYER - lookupCount st.buyCounts pid) st)
            (by rw [j1]; exact h1)
            ((List.Sublist.map _ j3).nodup h2)
          refine ⟨?_, ?_, k3.trans j3⟩
          · rw [k1, j1]
          · rw [k2, j2]

theorem applyAiPurchases_inv (ps : List Player) (ls : List TradeListing)
    (bc sc : List (Nat × Nat)) (maxTx : Nat) (o : AiBuyOracle)
    (h1 : (ps.map fun p => p.id).Nodup) (h2 : (ls.map fun l => l.id).Nodup) :
    ((applyAiPurchases ps ls bc sc maxTx o).updatedPlayers.map (fun p => p.id)
        = ps.map fun p => p.id)
    ∧ ((↑(cardsOf (applyAiPurchases ps ls bc sc maxTx o).updatedPlayers) : Multiset Card)
        + ↑((applyAiPurchases ps ls bc sc maxTx o).listings.map fun l => l.card)
      = ↑(cardsOf ps) + ↑(ls.map fun l => l.card))
    ∧ (applyAiPurchases ps ls bc sc maxTx o).listings.Sublist ls := by
  simp only [applyAiPurchases]
  split
  · exact ⟨rfl, rfl, List.Sublist.refl _⟩
  · obtain ⟨k1, k2, k3⟩ := aiBuyPass_inv o
      ((ps.filter fun p => p.eliminated).map fun p => p.id) maxTx
      (ps.map fun p => p.id)
      { players := ps, listings := ls, buyCounts := bc, sellCounts := sc,
        transactions := 0, attempt := 0, changed := false } h1 h2
    exact ⟨k1, k2, k3⟩

theorem applyAiPurchases_nil (ls : List TradeListing) (bc sc : List (Nat × Nat))
    (maxTx : Nat) (o : AiBuyOracle) :
    (applyAiPurchases [] ls bc sc maxTx o).changed = false := rfl

theorem consInv_tradeAiTick (s : GameState) (o : AiBuyOracle) (h : ConsInv s) :
    ConsInv (tradeAiTick s o) := by
  simp only [tradeAiTick]
  split
  · exact h
  · rename_i hchanged
    obtain ⟨k1, k2, k3⟩ := applyAiPurchases_inv s.players s.tradeListings
      s.tradeBuyCounts s.tradeSellCounts 1 o h.pids h.lids
    have hpc := applyBailoutPlayers_cards s
      (applyAiPurchases s.players s.tradeListings s.tradeBuyCounts s.tradeSellCounts
        1 o).updatedPlayers
    have hpi := applyBailoutPlayers_ids s
      (applyAiPurchases s.players s.tradeListings s.tradeBuyCounts s.tradeSellCounts
        1 o).updatedPlayers
    have hpf := applyBailoutPlayers_stateFields s
      (applyAiPurchases s.players s.tradeListings s.tradeBuyCounts s.tradeSellCounts
        1 o).updatedPlayers
    constructor
    · rw [circulation_parts]
      dsimp only
      have hc := h.conserve
      rw [circulation_parts] at hc
      rw [hpf.1, hpf.2.1]
      simp only [← Multiset.coe_add] at hc hpc k2 ⊢
      rw [(by abel : (↑(cardsOf (applyBailoutPlayers s (applyAiPurchases s.players
          s.tradeListings s.tradeBuyCounts s.tradeSellCounts 1 o).updatedPlayers).players) :
            Multiset Card)
          + ↑((applyAiPurchases s.players s.tradeListings s.tradeBuyCounts
              s.tradeSellCounts 1 o).listings.map fun l => l.card)
          + ↑s.forfeited
          + ↑(applyBailoutPlayers s (applyAiPurchases s.players s.tradeListings
              s.tradeBuyCounts s.tradeSellCounts 1 o).updatedPlayers).discarded
        = (↑(cardsOf (applyBailoutPlayers s (applyAiPurchases s.players
            s.tradeListings s.tradeBuyCounts s.tradeSellCounts 1 o).updatedPlayers).players)
          + ↑(applyBailoutPlayers s (applyAiPurchases s.players s.tradeListings
              s.tradeBuyCounts s.tradeSellCounts 1 o).updatedPlayers).discarded)
          + ↑((applyAiPurchases s.players s.tradeListings s.tradeBuyCounts
              s.tradeSellCounts 1 o).listings.map fun l => l.card)
          + ↑s.forfeited), hpc,
        (by abel : (↑(cardsOf (applyAiPurchases s.players s.tradeListings
            s.tradeBuyCounts s.tradeSellCounts 1 o).updatedPlayers) : Multiset Card)
            + ↑s.discarded
          + ↑((applyAiPurchases s.players s.tradeListings s.tradeBuyCounts
              s.tradeSellCounts 1 o).listings.map fun l => l.card)
          + ↑s.forfeited
          = (↑(cardsOf (applyAiPurchases s.players s.tradeListings
              s.tradeBuyCounts s.tradeSellCounts 1 o).updatedPlayers)
            + ↑((applyAiPurchases s.players s.tradeListings s.tradeBuyCounts
                s.tradeSellCounts 1 o).listings.map fun l => l.card))
            + ↑s.forfeited + ↑s.discarded), k2]
      rw [← hc]
    · dsimp only
      rw [hpf.2.1]
      exact h.dealt
    · dsimp only
      rw [hpi, k1]
      exact h.pids
    · intro l hl
      dsimp only at hl ⊢
      rw [hpi, k1]
      exact h.sellers l (k3.mem hl)
    · dsimp only
      exact (List.Sublist.map _ k3).nodup h.lids
    · intro l hl
      dsimp only at hl ⊢
      rw [hpf.2.2.2.1]
      exact h.lidBound l (k3.mem hl)
    · dsimp only
      apply applyBailoutPlayers_alive
      intro hmode p hp he
      exfalso
      have hnil := h.modeNone hmode
      apply hchanged
      rw [show (applyAiPurchases s.players s.tradeListings s.tradeBuyCounts
        s.tradeSellCounts 1 o) = (applyAiPurchases [] s.tradeListings s.tradeBuyCounts
        s.tradeSellCounts 1 o) from by rw [hnil]]
      rw [applyAiPurchases_nil]
      rfl
    · dsimp only
      rw [hpf.2.2.1]
      exact h.potNonneg
    · dsimp only
      rw [hpf.2.2.2.2]
      intro hmode
      exfalso
      have hnil := h.modeNone hmode
      apply hchanged
      rw [show (applyAiPurchases s.players s.tradeListings s.tradeBuyCounts
        s.tradeSellCounts 1 o) = (applyAiPurchases [] s.tradeListings s.tradeBuyCounts
        s.tradeSellCounts 1 o) from by rw [hnil]]
      rw [applyAiPurchases_nil]
      rfl

theorem coe_flatten_set (hs : List (List Card)) (j : Nat) (hj : j < hs.length) (c : Card) :
    (↑(hs.set j (hs.getD j [] ++ [c])).flatten : Multiset Card) = ↑hs.flatten + {c} := by
  rw [List.set_eq_take_append_cons_drop, if_pos hj]
  conv_rhs => rw [← List.take_append_drop j hs]
  rw [List.drop_eq_getElem_cons hj, List.getD_eq_getElem hs [] hj]
  rw [List.flatten_append, List.flatten_cons, List.flatten_append, List.flatten_cons]
  simp only [← Multiset.coe_add]
  rw [show ({c} : Multiset Card) = ↑[c] from rfl]
  abel

theorem dealGo_flatten (n : Nat) (hn : 0 < n) :
    ∀ (deck : List Card) (idx : Nat) (hands : List (List Card)), hands.length = n →
      (↑(dealGo n idx deck hands).flatten : Multiset Card) = ↑hands.flatten + ↑deck := by
  intro deck
  induction deck with
  | nil =>
    intro idx hands hlen
    simp [dealGo]
  | cons c rest ih =>
    intro idx hands hlen
    rw [dealGo]
    have hj : idx % n < hands.length := by
      rw [hlen]
      exact Nat.mod_lt _ hn
    have hlen2 : (hands.set (idx % n) (hands.getD (idx % n) [] ++ [c])).length = n := by
      rw [List.length_set]
      exact hlen
    rw [ih (idx + 1) _ hlen2, coe_flatten_set hands (idx % n) hj c]
    rw [show (↑(c :: rest) : Multiset Card) = ↑[c] + ↑rest from rfl,
      show ({c} : Multiset Card) = ↑[c] from rfl]
    abel

theorem flatten_replicate_nil (n : Nat) :
    (List.replicate n ([] : List Card)).flatten = [] := by
  induction n with
  | zero => rfl
  | succ n ih => rw [List.replicate_succ, List.flatten_cons, ih]; rfl

theorem dealHands_flatten (deck : List Card) (n : Nat) (hn : 0 < n) :
    (↑(dealHands deck n).flatten : Multiset Card) = ↑deck := by
  unfold dealHands
  rw [dealGo_flatten n hn deck 0 _ (List.length_replicate n []), flatten_replicate_nil]
  rw [show (↑([] : List Card) : Multiset Card) = 0 from rfl, zero_add]

theorem mapIdx_cards_eq_range (ps : List Player) (f : Nat → Player → Player) :
    (ps.mapIdx f).map (fun p => p.cards)
      = (List.range ps.length).map fun i => (f i (ps.getD i defaultPlayer)).cards := by
  apply List.ext_getElem (by simp)
  intro i h1 h2
  have hi : i < ps.length := by simpa using h1
  simp only [List.getElem_map, List.getElem_mapIdx, List.getElem_range]
  rw [List.getD_eq_getElem ps defaultPlayer hi]

theorem flatten_map_filter (l : List Nat) (q : Nat → Bool) (g : Nat → List Card) :
    ((l.map fun i => if q i then g i else []).flatten : List Card)
      = ((l.filter q).map g).flatten := by
  induction l with
  | nil => rfl
  | cons a rest ih =>
    rw [List.map_cons, List.flatten_cons, List.filter_cons]
    by_cases hq : q a = true
    · rw [if_pos hq, if_pos hq, List.map_cons, List.flatten_cons, ih]
    · rw [if_neg hq, if_neg hq, ih]
      rfl

theorem map_getD_indexOf (ix : List Nat) (hs : List (List Card)) (hnd : ix.Nodup)
    (hlen : hs.length = ix.length) :
    ix.map (fun i => hs.getD (ix.indexOf i) []) = hs := by
  apply List.ext_getElem (by simp [hlen])
  intro k h1 h2
  have hk : k < ix.length := by simpa using h1
  simp only [List.getElem_map]
  rw [List.indexOf_getElem hnd k hk, List.getD_eq_getElem hs [] h2]

theorem range_map_getD (hs : List (List Card)) (n : Nat) (hlen : hs.length = n) :
    (List.range n).map (fun i => hs.getD i []) = hs := by
  apply List.ext_getElem (by simp [hlen])
  intro k h1 h2
  have hk : k < n := by simpa using h1
  simp only [List.getElem_map, List.getElem_range]
  rw [List.getD_eq_getElem hs [] h2]

theorem consInv_startGame (mode : Mode) (js : Nat → Nat) : ConsInv (startGame mode js) := by
  simp only [startGame]
  set base := (List.range 6).map fun i =>
    ({ id := i + 1, name := PLAYER_NAMES.getD i ("Player " ++ toString (i + 1)),
       balance := if mode = Mode.half then (350 : ℚ) else 700, cards := [],
       eliminated := false } : Player) with hbase
  set hands := dealHands (shuffleDeck createDeck js) base.length with hhands
  have hb6 : base.length = 6 := by rw [hbase]; simp
  have hhl : hands.length = base.length := by rw [hhands]; exact dealHands_length _ _
  have hDlen : (shuffleDeck createDeck js).length = 44 := by
    rw [shuffleDeck_length, createDeck_length]
  set D := shuffleDeck createDeck js with hD
  clear_value base hands D
  constructor
  · rw [circulation_parts]
    dsimp only
    simp only [List.map_nil]
    simp only [← Multiset.coe_add]
    rw [show (↑([] : List Card) : Multiset Card) = 0 from rfl]
    simp only [add_zero]
    rw [cardsOf_eq_flatten, mapIdx_cards_eq_range]
    have hcards : ((List.range base.length).map fun i =>
        ((fun idx (p : Player) => { p with cards := hands.getD idx [] }) i
          (base.getD i defaultPlayer)).cards)
        = (List.range base.length).map fun i => hands.getD i [] :=
      List.map_congr_left fun i _ => rfl
    rw [hcards, range_map_getD hands base.length hhl]
    rw [hhands, hb6]
    exact dealHands_flatten _ 6 (by omega)
  · left
    dsimp only
    exact hDlen
  · dsimp only
    rw [map_mapIdx_eq base
      (fun idx p => ({ p with cards := hands.getD idx [] } : Player))
      (fun p => p.id) (fun i p => rfl)]
    have hid : base.map (fun p => p.id) = (List.range 6).map fun i => i + 1 := by
      rw [hbase, List.map_map]
      exact List.map_congr_left fun i _ => rfl
    rw [hid]
    exact List.Nodup.map (fun a b hab => by omega) (List.nodup_range _)
  · intro l hl
    cases hl
  · exact List.nodup_nil
  · intro l hl
    cases hl
  · dsimp only
    intro p2 hp2 he
    rw [List.mem_iff_getElem] at hp2
    obtain ⟨i, hi, hp2e⟩ := hp2
    rw [List.getElem_mapIdx] at hp2e
    have hib : i < base.length := by simpa using hi
    have hbal : (base.get ⟨i, hib⟩).balance = if mode = Mode.half then (350 : ℚ) else 700 := by
      have hx : base.get ⟨i, hib⟩ ∈ base := List.get_mem base i hib
      generalize hq : base.get ⟨i, hib⟩ = q at hx ⊢
      rw [hbase, List.mem_map] at hx
      obtain ⟨j, hj, hjeq⟩ := hx
      rw [← hjeq]
    subst hp2e
    show 0 < (base.get ⟨i, hib⟩).balance
    rw [hbal]
    split <;> norm_num
  · exact le_refl 0
  · intro hm
    cases hm

theorem alive_mapIdx_preserve (ps : List Player) (f : Nat → Player → Player)
    (hf : ∀ i p, (f i p).eliminated = p.eliminated ∧ (f i p).balance = p.balance)
    (h0 : ∀ p ∈ ps, p.eliminated = false → 0 < p.balance) :
    ∀ p ∈ ps.mapIdx f, p.eliminated = false → 0 < p.balance := by
  intro p hp he
  rw [List.mem_iff_getElem] at hp
  obtain ⟨i, hi, hpe⟩ := hp
  rw [List.getElem_mapIdx] at hpe
  subst hpe
  rw [(hf i _).2]
  exact h0 _ (List.getElem_mem _) (by rw [← (hf i _).1]; exact he)

theorem consInv_handleNextRace (s : GameState) (js : Nat → Nat) (h : ConsInv s) :
    ConsInv (handleNextRace s js) := by
  have hDlen : (shuffleDeck createDeck js).length = 44 := by
    rw [shuffleDeck_length, createDeck_length]
  simp only [handleNextRace]
  set D := shuffleDeck createDeck js with hD
  clear_value D
  cases hgm : s.gameMode with
  | none => exact h
  | some mode =>
    dsimp only
    by_cases hr : (if mode = Mode.half then (4 : Nat) else 8) ≤ s.currentRace
    · rw [if_pos hr]; exact h
    · rw [if_neg hr]
      set A := (List.range s.players.length).filter
        (fun idx => (((s.players[idx]?).map fun p => !p.eliminated)).getD false) with hAdef
      set H := if 0 < A.length then dealHands D A.length else [] with hHdef
      have hAnd : A.Nodup := by rw [hAdef]; exact (List.nodup_range _).filter _
      constructor
      · rw [circulation_parts]
        dsimp only
        simp only [List.map_nil, List.append_nil]
        rw [show (↑([] : List Card) : Multiset Card) = 0 from rfl]
        simp only [add_zero]
        rw [cardsOf_eq_flatten, mapIdx_cards_eq_range]
        have hpt : ((List.range s.players.length).map fun i =>
            ((fun idx (p : Player) => if p.eliminated then ({ p with cards := [] } : Player)
              else { p with cards := H.getD (A.indexOf idx) [] }) i
              (s.players.getD i defaultPlayer)).cards)
            = (List.range s.players.length).map fun i =>
              if (((s.players[i]?).map fun p => !p.eliminated)).getD false
              then H.getD (A.indexOf i) [] else [] := by
          apply List.map_congr_left
          intro i hi
          dsimp only
          rw [List.mem_range] at hi
          rw [List.getD_eq_getElem s.players defaultPlayer hi]
          by_cases he : s.players[i].eliminated = true
          · rw [if_pos he]
            have hQ : ((s.players[i]?).map fun p => !p.eliminated).getD false = false := by
              rw [List.getElem?_eq_getElem hi]
              show (!(s.players[i].eliminated)) = false
              rw [he]
              rfl
            rw [hQ, if_neg (by decide)]
          · rw [if_neg he]
            have he2 : s.players[i].eliminated = false := by
              cases hx : s.players[i].eliminated
              · rfl
              · exact absurd hx he
            have hQ : ((s.players[i]?).map fun p => !p.eliminated).getD false = true := by
              rw [List.getElem?_eq_getElem hi]
              show (!(s.players[i].eliminated)) = true
              rw [he2]
              rfl
            rw [hQ, if_pos rfl]
        rw [hpt, flatten_map_filter (List.range s.players.length)
          (fun idx => (((s.players[idx]?).map fun p => !p.eliminated)).getD false)
          (fun i => H.getD (A.indexOf i) []), ← hAdef]
        by_cases hA : 0 < A.length
        · rw [if_pos hA]
          rw [show H = dealHands D A.length from by rw [hHdef, if_pos hA]]
          rw [map_getD_indexOf A (dealHands D A.length) hAnd
            ((dealHands_length D A.length).trans rfl)]
          exact dealHands_flatten D A.length hA
        · rw [if_neg hA]
          rw [List.length_eq_zero.mp (by omega : A.length = 0)]
          rfl
      · dsimp only
        by_cases hA : 0 < A.length
        · left
          rw [if_pos hA]
          exact hDlen
        · right
          rw [if_neg hA]
      · dsimp only
        rw [map_mapIdx_eq s.players
          (fun idx p => if p.eliminated then ({ p with cards := [] } : Player)
            else { p with cards := H.getD (A.indexOf idx) [] })
          (fun p => p.id)
          (fun i p => by
            dsimp only
            by_cases he : p.eliminated = true
            · rw [if_pos he]
            · rw [if_neg he])]
        exact h.pids
      · intro l hl
        cases hl
      · exact List.nodup_nil
      · intro l hl
        cases hl
      · dsimp only
        exact alive_mapIdx_preserve s.players _
          (fun i p => by
            by_cases he : p.eliminated = true
            · rw [if_pos he]; exact ⟨rfl, rfl⟩
            · rw [if_neg he]; exact ⟨rfl, rfl⟩)
          h.alive
      · exact le_refl 0
      · dsimp only
        intro hm
        cases hm

theorem consInv_advanceTurn (s : GameState) (h : ConsInv s) : ConsInv (advanceTurn s) :=
  consInv_advanceTurnWith s.players s h

theorem consInv_applyEvent (s : GameState) (e : GameEvent) (h : ConsInv s) :
    ConsInv (applyEvent s e) := by
  cases e with
  | roll d1 d2 => exact consInv_rollDice s d1 d2 h
  | animationUnlock =>
    exact consInv_congr s _ rfl rfl rfl rfl rfl rfl rfl rfl h
  | openMarket o =>
    simp only [applyEvent]
    by_cases hc : s.phase = GamePhase.trade ∧ s.tradeListings = []
    · rw [if_pos hc]
      exact consInv_openTradeMarket s o hc.2 h
    · rw [if_neg hc]
      exact h
  | aiPurchase o =>
    simp only [applyEvent]
    by_cases hc : s.phase = GamePhase.trade
    · rw [if_pos hc]
      exact consInv_tradeAiTick s o h
    · rw [if_neg hc]
      exact h
  | closeMarket =>
    simp only [applyEvent]
    by_cases hc : s.phase = GamePhase.trade
    · rw [if_pos hc]
      exact consInv_closeTradeMarket s h
    · rw [if_neg hc]
      exact h
  | listCard c => exact consInv_handleListCardForSale s c h
  | cancelListing id => exact consInv_handleCancelListing s id h
  | buyListing id => exact consInv_handleBuyListing s id h
  | nextRace js => exact consInv_handleNextRace s js h
  | reset => exact consInv_resetGame
  | turnFixup =>
    simp only [applyEvent]
    by_cases hc : (((s.players[s.currentPlayerIndex]?).map fun p => p.eliminated)).getD false = true
    · rw [if_pos hc]
      exact consInv_advanceTurn s h
    · rw [if_neg hc]
      exact h

theorem consInv_runEvents (s : GameState) (events : List GameEvent) (h : ConsInv s) :
    ConsInv (runEvents s events) := by
  induction events generalizing s with
  | nil => exact h
  | cons e rest ih => exact ih (applyEvent s e) (consInv_applyEvent s e h)

theorem consInv_reachable (mode : Mode) (js : Nat → Nat) (events : List GameEvent) :
    ConsInv (runEvents (startGame mode js) events) :=
  consInv_runEvents _ events (consInv_startGame mode js)

/-- C5 (amended): at every reachable state, the multiset of cards in
circulation (hands plus open listings) together with the cards forfeited by
scratch events AND the cards discarded when a bankrupt player is eliminated
equals the multiset of cards dealt this race; the dealt log holds 44 cards
(or is empty in the no-active-player corner), and at the start of a session's
deal the circulation is exactly the 44 dealt cards with nothing yet forfeited
or discarded.  The original claim omitted the discarded component. -/
theorem cardConservation_spec (mode : Mode) (js : Nat → Nat) (events : List GameEvent) :
    ((↑(circulation (runEvents (startGame mode js) events)) : Multiset Card)
        + ↑(runEvents (startGame mode js) events).forfeited
        + ↑(runEvents (startGame mode js) events).discarded
      = ↑(runEvents (startGame mode js) events).dealtCards) ∧
    ((runEvents (startGame mode js) events).dealtCards.length = 44 ∨
      (runEvents (startGame mode js) events).dealtCards = []) ∧
    (circulation (startGame mode js)).length = 44 ∧
    (startGame mode js).forfeited = [] ∧ (startGame mode js).discarded = [] := by
  have h := consInv_reachable mode js events
  have hf0 : (startGame mode js).forfeited = [] := by simp only [startGame]
  have hd0 : (startGame mode js).discarded = [] := by simp only [startGame]
  refine ⟨h.conserve, h.dealt, ?_, hf0, hd0⟩
  have hc := (consInv_startGame mode js).conserve
  rw [hf0, hd0, show ((↑([] : List Card)) : Multiset Card) = 0 from rfl] at hc
  simp only [add_zero] at hc
  have hlen := congrArg Multiset.card hc
  simp only [Multiset.coe_card] at hlen
  have hd44 : (startGame mode js).dealtCards.length = 44 := by
    simp only [startGame]
    rw [shuffleDeck_length, createDeck_length]
  rw [hlen]
  exact hd44

set_option maxHeartbeats 4000000 in
/-- C5 counterexample: a reachable state (three completed races, then three
scratch rolls of the fourth race that bankrupt a card-rich player, whose hand
is discarded by the bailout elimination) where circulation plus scratch
forfeits account for only 40 of the 44 dealt cards, refuting the claim that
circulation equals the dealt cards minus the scratch forfeits alone. -/
theorem cardConservation_counterexample :
    (circulation sBadC5).length = 28 ∧ sBadC5.forfeited.length = 12 ∧
    sBadC5.dealtCards.length = 44 ∧
    ¬((↑(circulation sBadC5) : Multiset Card) + ↑sBadC5.forfeited = ↑sBadC5.dealtCards) := by
  have hkey : (circulation sBadC5).length = 28 ∧ sBadC5.forfeited.length = 12 ∧
      sBadC5.dealtCards.length = 44 := by with_unfolding_all decide
  refine ⟨hkey.1, hkey.2.1, hkey.2.2, ?_⟩
  intro heq
  have hlen := congrArg Multiset.card heq
  simp only [Multiset.card_add, Multiset.coe_card] at hlen
  rw [hkey.1, hkey.2.1, hkey.2.2] at hlen
  omega

end HorseRace
